import Mathlib

/-!
# Permit contract (`blockchain/permitContract.go`): embedding and properties

The contract is embedded as pure functions over an explicit world state.

* Go strings are Lean `String`s, the case of a Go string that holds well-formed
  UTF-8; the part "Go strings as byte strings" gives the reading in which a
  string may also hold bytes that are not text, for the operations whose
  results depend on it.
* The world state is a map from keys to stored byte strings (`Ledger`).
* The transaction context supplies the caller identifier, the transaction
  timestamp, and whether the store's read and write calls fail.
* `encoding/json` is a parameter (`Codec`); a concrete codec producing the
  compact JSON text of the `Permit` struct is given further down and is used
  for the concrete instances.
* A Go `error` return is `Outcome.error msg` with the message the code builds;
  a runtime panic is `Outcome.panic`.
-/

namespace PermitContract

/-! ## Data model -/

/-- One evidence entry (`type FileHash struct`). -/
structure FileHash where
  Filename : String
  SHA256 : String
  Uploader : String
  UploadedAt : String
deriving DecidableEq, Repr

/-- The stored record (`type Permit struct`). -/
structure Permit where
  PermitID : String
  FileHashes : List FileHash
  Status : String
  CreatedBy : String
  CreatedAt : String
  UpdatedBy : String
  UpdatedAt : String
  Organization : String
deriving DecidableEq, Repr

def StatusSubmitted : String := "SUBMITTED"
def StatusUnderReview : String := "UNDER_REVIEW"
def StatusApproved : String := "APPROVED"
def StatusRejected : String := "REJECTED"
def StatusExpired : String := "EXPIRED"

/-- The package-level map `validStatusTransitions`, as its literal: a key and
the slice of statuses allowed next. The keys are pairwise distinct, so looking a
key up in the literal is the map access. -/
def validStatusTransitions : List (String × List String) :=
  [ (StatusSubmitted, [StatusUnderReview, StatusRejected]),
    (StatusUnderReview, [StatusApproved, StatusRejected]),
    (StatusApproved, [StatusExpired]),
    (StatusRejected, [StatusSubmitted]),
    (StatusExpired, [StatusSubmitted]) ]

/-! ## Results, context and world state -/

/-- How a contract call ends: a normal return, a returned `error` (with its
message), or a runtime panic. -/
inductive Outcome (α : Type) where
  | ok (a : α)
  | error (msg : String)
  | panic (msg : String)
deriving DecidableEq, Repr

/-- World state: the value stored under each key, if any. -/
abbrev Ledger := String → Option String

/-- The ledger with no key. -/
def emptyLedger : Ledger := fun _ => none

/-- What the transaction context answers during one call.
`GetID` is `ctx.GetClientIdentity().GetID()`, `GetTxTimestamp` is
`ctx.GetStub().GetTxTimestamp().String()`; `getStateErr` and `putStateErr` say
whether the stub's `GetState` and `PutState` fail in this transaction, and with
which error. -/
structure Ctx where
  GetID : Except String String
  GetTxTimestamp : String
  getStateErr : Option String
  putStateErr : Option String

/-- The two `encoding/json` entry points the contract uses on `Permit`. -/
structure Codec where
  Marshal : Permit → Except String String
  Unmarshal : String → Except String Permit

/-- Stub call `GetState(key)`: the stored value, `none` for an absent key. -/
def GetState (ctx : Ctx) (L : Ledger) (key : String) : Except String (Option String) :=
  match ctx.getStateErr with
  | some e => .error e
  | none => .ok (L key)

/-- Stub call `PutState(key, value)`, returned as the call's result: on
success the key holds `value` and every other key is as before. -/
def PutState (ctx : Ctx) (L : Ledger) (key value : String) : Outcome Unit × Ledger :=
  match ctx.putStateErr with
  | some e => (.error e, L)
  | none => (.ok (), fun k => if k = key then some value else L k)

/-! ## Helper functions of the contract -/

/-- Library call `strings.Split(s, sep)` for a one-character separator, on the
characters of `s`: the pieces between occurrences of `sep` (always at least
one piece). -/
def splitChars (sep : Char) : List Char → List (List Char)
  | [] => [[]]
  | c :: cs =>
    if c = sep then [] :: splitChars sep cs
    else
      match splitChars sep cs with
      | [] => [[c]]
      | piece :: pieces => (c :: piece) :: pieces

/-- The call `strings.Split(s, "@")`. -/
def stringsSplitAt (s : String) : List String :=
  (splitChars '@' s.data).map String.mk

/-- The expression `strings.Split(clientID, "@")[1]`; `none` is the index out of
range. -/
def clientOrgOf (clientID : String) : Option String :=
  (stringsSplitAt clientID)[1]?

/-- Method `PermitExists`. -/
def PermitExists (ctx : Ctx) (L : Ledger) (permitId : String) : Except String Bool :=
  match GetState ctx L permitId with
  | .error e => .error ("failed to read permit: " ++ e)
  | .ok permitJSON => .ok permitJSON.isSome

/-- Method `isValidStatus`. -/
def isValidStatus (status : String) : Bool :=
  status == StatusSubmitted || status == StatusUnderReview || status == StatusApproved
    || status == StatusRejected || status == StatusExpired

/-- Method `isValidStatusTransition`. -/
def isValidStatusTransition (currentStatus newStatus : String) : Bool :=
  match validStatusTransitions.lookup currentStatus with
  | none => false
  | some validTransitions => validTransitions.any (fun validStatus => validStatus == newStatus)

/-- Method `hasPermission`. `Except.error` is the panic of the out-of-range
index; a failed identity lookup answers `false`. -/
def hasPermission (ctx : Ctx) (organization : String) : Except String Bool :=
  match ctx.GetID with
  | .error _ => .ok false
  | .ok clientID =>
    match clientOrgOf clientID with
    | none => .error "runtime error: index out of range [1] with length 1"
    | some clientOrg => .ok (clientOrg == organization)

/-! ## Contract operations -/

/-- Method `CreatePermit`. -/
def CreatePermit (c : Codec) (ctx : Ctx) (L : Ledger) (permitId organization : String) :
    Outcome Unit × Ledger :=
  match PermitExists ctx L permitId with
  | .error e => (.error e, L)
  | .ok true => (.error ("permit " ++ permitId ++ " already exists"), L)
  | .ok false =>
    match ctx.GetID with
    | .error e => (.error ("failed to get client identity: " ++ e), L)
    | .ok clientID =>
      let permit : Permit :=
        { PermitID := permitId
          FileHashes := []
          Status := StatusSubmitted
          CreatedBy := clientID
          CreatedAt := ctx.GetTxTimestamp
          UpdatedBy := clientID
          UpdatedAt := ctx.GetTxTimestamp
          Organization := organization }
      match c.Marshal permit with
      | .error e => (.error e, L)
      | .ok permitJSON => PutState ctx L permitId permitJSON

/-- Method `LogFileHash`. -/
def LogFileHash (c : Codec) (ctx : Ctx) (L : Ledger) (permitId filename sha256 : String) :
    Outcome Unit × Ledger :=
  match ctx.GetID with
  | .error e => (.error ("failed to get client identity: " ++ e), L)
  | .ok clientID =>
    match GetState ctx L permitId with
    | .error e => (.error ("failed to read permit: " ++ e), L)
    | .ok none => (.error ("permit " ++ permitId ++ " does not exist"), L)
    | .ok (some permitJSON) =>
      match c.Unmarshal permitJSON with
      | .error e => (.error e, L)
      | .ok permit =>
        match hasPermission ctx permit.Organization with
        | .error p => (.panic p, L)
        | .ok false =>
          (.error "user does not have permission to upload files for this permit", L)
        | .ok true =>
          let permit1 : Permit :=
            { permit with
              FileHashes := permit.FileHashes ++
                [{ Filename := filename
                   SHA256 := sha256
                   Uploader := clientID
                   UploadedAt := ctx.GetTxTimestamp }] }
          let permit2 : Permit :=
            { permit1 with UpdatedBy := clientID, UpdatedAt := ctx.GetTxTimestamp }
          match c.Marshal permit2 with
          | .error e => (.error e, L)
          | .ok updated => PutState ctx L permitId updated

/-- Method `UpdateStatus`. -/
def UpdateStatus (c : Codec) (ctx : Ctx) (L : Ledger) (permitId newStatus : String) :
    Outcome Unit × Ledger :=
  match ctx.GetID with
  | .error e => (.error ("failed to get client identity: " ++ e), L)
  | .ok clientID =>
    match GetState ctx L permitId with
    | .error e => (.error ("failed to read permit: " ++ e), L)
    | .ok none => (.error ("permit " ++ permitId ++ " does not exist"), L)
    | .ok (some permitJSON) =>
      match c.Unmarshal permitJSON with
      | .error e => (.error e, L)
      | .ok permit =>
        if !isValidStatusTransition permit.Status newStatus then
          (.error ("invalid status transition from " ++ permit.Status ++ " to " ++ newStatus), L)
        else
          match hasPermission ctx permit.Organization with
          | .error p => (.panic p, L)
          | .ok false =>
            (.error "user does not have permission to update status for this permit", L)
          | .ok true =>
            let permit1 : Permit :=
              { permit with
                Status := newStatus
                UpdatedBy := clientID
                UpdatedAt := ctx.GetTxTimestamp }
            match c.Marshal permit1 with
            | .error e => (.error e, L)
            | .ok updated => PutState ctx L permitId updated

/-- Method `GetPermitById`. -/
def GetPermitById (c : Codec) (ctx : Ctx) (L : Ledger) (permitId : String) : Outcome Permit :=
  match GetState ctx L permitId with
  | .error e => .error ("failed to read permit: " ++ e)
  | .ok none => .error ("permit " ++ permitId ++ " does not exist")
  | .ok (some permitJSON) =>
    match c.Unmarshal permitJSON with
    | .error e => .error e
    | .ok permit => .ok permit

/-! ## A concrete codec: the compact JSON text of a `Permit`

`jsonMarshal` writes what `json.Marshal` writes for the struct when its strings
are text: the fields in declaration order under their tags, no white space,
strings escaped as the Go encoder escapes them (`Raw.jsonMarshal` further down
is the encoder on strings that may hold bytes that are not text).
`jsonUnmarshal` is `json.Unmarshal` restricted to that compact form (and `null`
for the slice): it reads back what the encoder writes and answers every other
input with an error, where the library also accepts white space, fields in
another order or missing, and more escapes. The general theorems are stated for
an arbitrary codec; this one serves the concrete instances. -/

/-- Lower-case hexadecimal digit of `n < 16`. -/
def hexChar (n : Nat) : Char :=
  "0123456789abcdef".data.getD n '0'

/-- How the encoder writes one character inside a string: quote and backslash
are backslash-escaped, the named control characters get their short escape,
other control characters and `<`, `>`, `&` become `\u00XX`, the two line
separators U+2028 and U+2029 become their `\\u` escape, everything else is written as is. -/
def escapeChar (c : Char) : List Char :=
  if c = '"' then ['\\', '"']
  else if c = '\\' then ['\\', '\\']
  else if c = Char.ofNat 8 then ['\\', 'b']
  else if c = Char.ofNat 12 then ['\\', 'f']
  else if c = '\n' then ['\\', 'n']
  else if c = '\r' then ['\\', 'r']
  else if c = '\t' then ['\\', 't']
  else if c.toNat < 32 ∨ c = '<' ∨ c = '>' ∨ c = '&' then
    ['\\', 'u', '0', '0', hexChar (c.toNat / 16), hexChar (c.toNat % 16)]
  else if c = Char.ofNat 8232 then ['\\', 'u', '2', '0', '2', '8']
  else if c = Char.ofNat 8233 then ['\\', 'u', '2', '0', '2', '9']
  else [c]

/-- The escaped characters of a string, without the surrounding quotes. -/
def escapeChars : List Char → List Char
  | [] => []
  | c :: cs => escapeChar c ++ escapeChars cs

/-- A JSON string literal. -/
def encodeString (s : String) : List Char :=
  '"' :: (escapeChars s.data ++ ['"'])

/-- A `FileHash` object. -/
def encodeFileHash (f : FileHash) : List Char :=
  "\x7b\"filename\":".data ++ encodeString f.Filename ++
  ",\"sha256\":".data ++ encodeString f.SHA256 ++
  ",\"uploader\":".data ++ encodeString f.Uploader ++
  ",\"uploadedAt\":".data ++ encodeString f.UploadedAt ++ ['\x7d']

/-- The elements after the first, each after a comma, and the closing bracket. -/
def encodeFileHashTail : List FileHash → List Char
  | [] => [']']
  | f :: fs => ',' :: (encodeFileHash f ++ encodeFileHashTail fs)

/-- The `fileHashes` array. -/
def encodeFileHashes : List FileHash → List Char
  | [] => ['[', ']']
  | f :: fs => '[' :: (encodeFileHash f ++ encodeFileHashTail fs)

/-- A `Permit` object. -/
def encodePermit (p : Permit) : List Char :=
  "\x7b\"permitId\":".data ++ encodeString p.PermitID ++
  ",\"fileHashes\":".data ++ encodeFileHashes p.FileHashes ++
  ",\"status\":".data ++ encodeString p.Status ++
  ",\"createdBy\":".data ++ encodeString p.CreatedBy ++
  ",\"createdAt\":".data ++ encodeString p.CreatedAt ++
  ",\"updatedBy\":".data ++ encodeString p.UpdatedBy ++
  ",\"updatedAt\":".data ++ encodeString p.UpdatedAt ++
  ",\"organization\":".data ++ encodeString p.Organization ++ ['\x7d']

/-- Value of a hexadecimal digit, either case. -/
def hexVal (c : Char) : Option Nat :=
  if 48 ≤ c.toNat ∧ c.toNat ≤ 57 then some (c.toNat - 48)
  else if 97 ≤ c.toNat ∧ c.toNat ≤ 102 then some (c.toNat - 87)
  else if 65 ≤ c.toNat ∧ c.toNat ≤ 70 then some (c.toNat - 55)
  else none

/-- The character a one-letter escape stands for. -/
def unescapeChar (e : Char) : Option Char :=
  if e = '"' then some '"'
  else if e = '\\' then some '\\'
  else if e = '/' then some '/'
  else if e = 'b' then some (Char.ofNat 8)
  else if e = 'f' then some (Char.ofNat 12)
  else if e = 'n' then some '\n'
  else if e = 'r' then some '\r'
  else if e = 't' then some '\t'
  else none

/-- Where the string reader stands: between characters, right after a
backslash, or inside a `\u` escape with `more` digits still to come after the
next one and `acc` the value read so far. -/
inductive StringState where
  | plain
  | escaped
  | hex (more : Nat) (acc : Nat)

/-- Puts a decoded character in front of what the rest of the string gives. -/
def prepend (ch : Char) : Option (List Char × List Char) → Option (List Char × List Char)
  | none => none
  | some (s, r) => some (ch :: s, r)

/-- Reads the inside of a string literal up to its closing quote: the decoded
characters and the input after the quote. -/
def parseStringBody : StringState → List Char → Option (List Char × List Char)
  | _, [] => none
  | .plain, c :: cs =>
    if c = '"' then some ([], cs)
    else if c = '\\' then parseStringBody .escaped cs
    else if c.toNat < 32 then none
    else prepend c (parseStringBody .plain cs)
  | .escaped, e :: cs =>
    if e = 'u' then parseStringBody (.hex 3 0) cs
    else
      match unescapeChar e with
      | none => none
      | some ch => prepend ch (parseStringBody .plain cs)
  | .hex more acc, h :: cs =>
    match hexVal h with
    | none => none
    | some v =>
      match more with
      | 0 => prepend (Char.ofNat (acc * 16 + v)) (parseStringBody .plain cs)
      | more1 + 1 => parseStringBody (.hex more1 (acc * 16 + v)) cs

/-- Reads a string literal. -/
def parseString : List Char → Option (String × List Char)
  | [] => none
  | c :: cs =>
    if c = '"' then
      match parseStringBody .plain cs with
      | some (s, r) => some (String.mk s, r)
      | none => none
    else none

/-- Reads the fixed text `lit` off the front of the input. -/
def expect : List Char → List Char → Option (List Char)
  | [], inp => some inp
  | _ :: _, [] => none
  | l :: lit, c :: inp => if l = c then expect lit inp else none

/-- Reads the fixed text `lit` and then a string literal. -/
def parseField (lit : List Char) (inp : List Char) : Option (String × List Char) :=
  match expect lit inp with
  | none => none
  | some r => parseString r

/-- Reads a `FileHash` object. -/
def parseFileHash (inp : List Char) : Option (FileHash × List Char) :=
  match parseField "\x7b\"filename\":".data inp with
  | none => none
  | some (filename, r1) =>
    match parseField ",\"sha256\":".data r1 with
    | none => none
    | some (sha256, r2) =>
      match parseField ",\"uploader\":".data r2 with
      | none => none
      | some (uploader, r3) =>
        match parseField ",\"uploadedAt\":".data r3 with
        | none => none
        | some (uploadedAt, r4) =>
          match expect ['\x7d'] r4 with
          | none => none
          | some r5 =>
            some ({ Filename := filename, SHA256 := sha256, Uploader := uploader,
                    UploadedAt := uploadedAt }, r5)

/-- Reads the rest of an array after its first element; `fuel` bounds the
number of elements read. -/
def parseFileHashTail : Nat → List Char → Option (List FileHash × List Char)
  | 0, _ => none
  | _ + 1, [] => none
  | fuel + 1, c :: r =>
    if c = ']' then some ([], r)
    else if c = ',' then
      match parseFileHash r with
      | none => none
      | some (f, r1) =>
        match parseFileHashTail fuel r1 with
        | none => none
        | some (fs, r2) => some (f :: fs, r2)
    else none

/-- Reads the `fileHashes` array (`null` reads as the empty slice). -/
def parseFileHashes (inp : List Char) : Option (List FileHash × List Char) :=
  match expect ['n', 'u', 'l', 'l'] inp with
  | some r => some ([], r)
  | none =>
    match expect ['[', ']'] inp with
    | some r => some ([], r)
    | none =>
      match expect ['['] inp with
      | none => none
      | some r =>
        match parseFileHash r with
        | none => none
        | some (f, r1) =>
          match parseFileHashTail r1.length r1 with
          | none => none
          | some (fs, r2) => some (f :: fs, r2)

/-- Reads a `Permit` object. -/
def parsePermit (inp : List Char) : Option (Permit × List Char) :=
  match parseField "\x7b\"permitId\":".data inp with
  | none => none
  | some (permitId, r1) =>
    match expect ",\"fileHashes\":".data r1 with
    | none => none
    | some r2 =>
      match parseFileHashes r2 with
      | none => none
      | some (fileHashes, r3) =>
        match parseField ",\"status\":".data r3 with
        | none => none
        | some (status, r4) =>
          match parseField ",\"createdBy\":".data r4 with
          | none => none
          | some (createdBy, r5) =>
            match parseField ",\"createdAt\":".data r5 with
            | none => none
            | some (createdAt, r6) =>
              match parseField ",\"updatedBy\":".data r6 with
              | none => none
              | some (updatedBy, r7) =>
                match parseField ",\"updatedAt\":".data r7 with
                | none => none
                | some (updatedAt, r8) =>
                  match parseField ",\"organization\":".data r8 with
                  | none => none
                  | some (organization, r9) =>
                    match expect ['\x7d'] r9 with
                    | none => none
                    | some r10 =>
                      some ({ PermitID := permitId, FileHashes := fileHashes,
                              Status := status, CreatedBy := createdBy,
                              CreatedAt := createdAt, UpdatedBy := updatedBy,
                              UpdatedAt := updatedAt, Organization := organization }, r10)

/-- The encoder as the contract calls it, on a record whose strings are text; it
does not fail on this struct. -/
def jsonMarshal (p : Permit) : Except String String :=
  .ok (String.mk (encodePermit p))

/-- The decoder as the contract calls it, restricted to the compact form the
encoder writes: the whole input must be one record in that form. -/
def jsonUnmarshal (b : String) : Except String Permit :=
  match parsePermit b.data with
  | some (p, []) => .ok p
  | _ => .error "json: cannot unmarshal stored value into Go value of type main.Permit"

/-- The JSON codec. -/
def goJSON : Codec where
  Marshal := jsonMarshal
  Unmarshal := jsonUnmarshal

/-! ## Vocabulary of the statements -/

/-- The ledger holds `permit` under `permitId`: reading the key in this
transaction yields bytes that decode to `permit`. -/
def Holds (c : Codec) (ctx : Ctx) (L : Ledger) (permitId : String) (permit : Permit) : Prop :=
  ∃ permitJSON, GetState ctx L permitId = .ok (some permitJSON) ∧
    c.Unmarshal permitJSON = .ok permit

/-- The pair is an edge of the table `validStatusTransitions`. -/
def TableEdge (current next : String) : Prop :=
  ∃ allowed, validStatusTransitions.lookup current = some allowed ∧ next ∈ allowed

/-- The seven edges of the transition table as the specification lists them. -/
def specEdges : List (String × String) :=
  [ ("SUBMITTED", "UNDER_REVIEW"), ("SUBMITTED", "REJECTED"),
    ("UNDER_REVIEW", "APPROVED"), ("UNDER_REVIEW", "REJECTED"),
    ("APPROVED", "EXPIRED"), ("REJECTED", "SUBMITTED"), ("EXPIRED", "SUBMITTED") ]

/-- The five statuses of the specification. -/
def specStatuses : List String :=
  ["SUBMITTED", "UNDER_REVIEW", "APPROVED", "REJECTED", "EXPIRED"]

/-- The error `UpdateStatus` returns for a transition that is not allowed. -/
def invalidTransitionError (current next : String) : String :=
  "invalid status transition from " ++ current ++ " to " ++ next

/-- The error `UpdateStatus` returns to a caller of another organization. -/
def updateAuthorizationError : String :=
  "user does not have permission to update status for this permit"

/-- The error `LogFileHash` returns to a caller of another organization. -/
def uploadAuthorizationError : String :=
  "user does not have permission to upload files for this permit"

/-- The error for a permit id that is already present. -/
def alreadyExistsError (permitId : String) : String :=
  "permit " ++ permitId ++ " already exists"

/-- The codec law the contract relies on: every record encodes, and its
encoding decodes to the same record. -/
def RoundTrip (c : Codec) : Prop :=
  ∀ p : Permit, ∃ b, c.Marshal p = .ok b ∧ c.Unmarshal b = .ok p

/-- The ledger stores `permit` under `permitId`: the key has a value and the
value decodes to `permit`. -/
def Stored (c : Codec) (L : Ledger) (permitId : String) (permit : Permit) : Prop :=
  ∃ permitJSON, L permitId = some permitJSON ∧ c.Unmarshal permitJSON = .ok permit

/-- The ledger after a successful `PutState(key, value)`. -/
def Ledger.put (L : Ledger) (key value : String) : Ledger :=
  fun k => if k = key then some value else L k

/-- The record `CreatePermit` builds. -/
def createdPermit (ctx : Ctx) (clientID permitId organization : String) : Permit :=
  { PermitID := permitId
    FileHashes := []
    Status := StatusSubmitted
    CreatedBy := clientID
    CreatedAt := ctx.GetTxTimestamp
    UpdatedBy := clientID
    UpdatedAt := ctx.GetTxTimestamp
    Organization := organization }

/-- The record `UpdateStatus` writes back. -/
def statusUpdated (ctx : Ctx) (clientID newStatus : String) (permit : Permit) : Permit :=
  { permit with Status := newStatus, UpdatedBy := clientID, UpdatedAt := ctx.GetTxTimestamp }

/-- The record `LogFileHash` writes back. -/
def fileHashLogged (ctx : Ctx) (clientID filename sha256 : String) (permit : Permit) : Permit :=
  { permit with
    FileHashes := permit.FileHashes ++
      [{ Filename := filename, SHA256 := sha256, Uploader := clientID,
         UploadedAt := ctx.GetTxTimestamp }]
    UpdatedBy := clientID
    UpdatedAt := ctx.GetTxTimestamp }

/-- One invocation of a mutating operation: its transaction context and its
arguments. -/
inductive Call where
  | createPermit (ctx : Ctx) (permitId organization : String)
  | logFileHash (ctx : Ctx) (permitId filename sha256 : String)
  | updateStatus (ctx : Ctx) (permitId newStatus : String)

/-- Runs one invocation on a ledger. -/
def Call.apply (c : Codec) (L : Ledger) : Call → Outcome Unit × Ledger
  | .createPermit ctx permitId organization => CreatePermit c ctx L permitId organization
  | .logFileHash ctx permitId filename sha256 => LogFileHash c ctx L permitId filename sha256
  | .updateStatus ctx permitId newStatus => UpdateStatus c ctx L permitId newStatus

/-- The ledger after a sequence of invocations, failed ones included. -/
def runCalls (c : Codec) : Ledger → List Call → Ledger
  | L, [] => L
  | L, call :: calls => runCalls c (call.apply c L).2 calls

/-- Every stored value is the encoding of a record whose status is one of
the five statuses. -/
def StatusInvariant (c : Codec) (L : Ledger) : Prop :=
  ∀ k b, L k = some b → ∃ p, c.Marshal p = .ok b ∧ p.Status ∈ specStatuses

/-- One `LogFileHash` invocation on a given permit: its transaction context,
file name and digest. -/
structure LogCall where
  ctx : Ctx
  filename : String
  sha256 : String

/-- The caller identifier of a context (empty when the identity does not
resolve). -/
def callerOf (ctx : Ctx) : String :=
  match ctx.GetID with
  | .ok clientID => clientID
  | .error _ => ""

/-- The evidence entry that carries the data of a call. -/
def LogCall.entry (call : LogCall) : FileHash :=
  { Filename := call.filename
    SHA256 := call.sha256
    Uploader := callerOf call.ctx
    UploadedAt := call.ctx.GetTxTimestamp }

/-- The call comes from a member of `organization`, in a transaction whose
store calls do not fail. -/
def LogCall.Authorized (organization : String) (call : LogCall) : Prop :=
  (∃ clientID, call.ctx.GetID = .ok clientID ∧ clientOrgOf clientID = some organization) ∧
    call.ctx.getStateErr = none ∧ call.ctx.putStateErr = none

/-- Successive `LogFileHash` calls on one permit: the outcomes in call order and
the final ledger. -/
def runLogCalls (c : Codec) (permitId : String) : Ledger → List LogCall →
    List (Outcome Unit) × Ledger
  | L, [] => ([], L)
  | L, call :: calls =>
    ((LogFileHash c call.ctx L permitId call.filename call.sha256).1 ::
        (runLogCalls c permitId
          (LogFileHash c call.ctx L permitId call.filename call.sha256).2 calls).1,
      (runLogCalls c permitId
          (LogFileHash c call.ctx L permitId call.filename call.sha256).2 calls).2)

/-! ## Concrete instances -/

/-- A member of organization `OrgA`, in a transaction whose store calls work. -/
def aliceCtx : Ctx :=
  { GetID := .ok "alice@OrgA", GetTxTimestamp := "seconds:1700000000",
    getStateErr := none, putStateErr := none }

/-- Another member of `OrgA`, in a later transaction. -/
def carolCtx : Ctx :=
  { GetID := .ok "carol@OrgA", GetTxTimestamp := "seconds:1700000200",
    getStateErr := none, putStateErr := none }

/-- A member of organization `OrgB`. -/
def bobCtx : Ctx :=
  { GetID := .ok "bob@OrgB", GetTxTimestamp := "seconds:1700000100",
    getStateErr := none, putStateErr := none }

/-- The record `CreatePermit("P-1", "OrgA")` builds for `aliceCtx`. -/
def permitP1 : Permit :=
  { PermitID := "P-1", FileHashes := [], Status := "SUBMITTED", CreatedBy := "alice@OrgA",
    CreatedAt := "seconds:1700000000", UpdatedBy := "alice@OrgA",
    UpdatedAt := "seconds:1700000000", Organization := "OrgA" }

/-- The stored JSON text of `permitP1`. -/
def permitP1JSON : String :=
  "\x7b\"permitId\":\"P-1\",\"fileHashes\":[],\"status\":\"SUBMITTED\",\"createdBy\":\"alice@OrgA\",\"createdAt\":\"seconds:1700000000\",\"updatedBy\":\"alice@OrgA\",\"updatedAt\":\"seconds:1700000000\",\"organization\":\"OrgA\"\x7d"

/-- The ledger whose only key is `P-1`, holding `permitP1`. -/
def ledgerP1 : Ledger := emptyLedger.put "P-1" permitP1JSON

/-- Two uploads to `P-1` by two members of `OrgA`. -/
def twoUploads : List LogCall :=
  [ { ctx := aliceCtx, filename := "plan.pdf", sha256 := "9f86d081" },
    { ctx := carolCtx, filename := "survey.pdf", sha256 := "2c26b46b" } ]

/-- A caller whose identifier has no `@`. -/
def daveCtx : Ctx :=
  { GetID := .ok "dave", GetTxTimestamp := "seconds:1700000300",
    getStateErr := none, putStateErr := none }

/-- A caller whose identity does not resolve. -/
def anonCtx : Ctx :=
  { GetID := .error "no identity", GetTxTimestamp := "seconds:1700000400",
    getStateErr := none, putStateErr := none }

/-- The panic of indexing a one-element slice at 1. -/
def indexOutOfRange : String :=
  "runtime error: index out of range [1] with length 1"

/-- The error for a permit id that is absent. -/
def notFoundError (permitId : String) : String :=
  "permit " ++ permitId ++ " does not exist"

/-- The text between the first `@` of an identifier and the next `@`, or the
end of the identifier when no further `@` follows. -/
def textAfterFirstAt (cs : List Char) : List Char :=
  ((cs.dropWhile (fun ch => ch != '@')).drop 1).takeWhile (fun ch => ch != '@')

/-- The caller of the transaction is a member of `organization`, and the store
calls of the transaction do not fail. -/
def Ctx.MemberOf (organization : String) (ctx : Ctx) : Prop :=
  (∃ clientID, ctx.GetID = .ok clientID ∧ clientOrgOf clientID = some organization) ∧
    ctx.getStateErr = none ∧ ctx.putStateErr = none

/-- Successive `UpdateStatus` calls on one permit, each with its transaction
context and requested status: the outcomes in call order and the final
ledger. -/
def runUpdateCalls (c : Codec) (permitId : String) : Ledger → List (Ctx × String) →
    List (Outcome Unit) × Ledger
  | L, [] => ([], L)
  | L, (ctx, newStatus) :: calls =>
    ((UpdateStatus c ctx L permitId newStatus).1 ::
        (runUpdateCalls c permitId (UpdateStatus c ctx L permitId newStatus).2 calls).1,
      (runUpdateCalls c permitId (UpdateStatus c ctx L permitId newStatus).2 calls).2)

/-! ## Query operations -/

/-- What an iterator of the stub yields: the answers of the successive `Next()`
calls, each a stored value or an error; `HasNext()` is true while answers
remain. -/
abbrev Iterator := List (Except String String)

/-- The loop of `GetPermitHistory` over the remaining answers of the iterator;
`history` is the slice built so far. -/
def historyLoop (c : Codec) : Iterator → List Permit → Outcome (List Permit)
  | [], history => .ok history
  | .error e :: _, _ => .error e
  | .ok value :: rest, history =>
    match c.Unmarshal value with
    | .ok permit => historyLoop c rest (history ++ [permit])
    | .error _ => historyLoop c rest history

/-- Method `GetPermitHistory`; `GetHistoryForKey` is the stub call. -/
def GetPermitHistory (c : Codec) (GetHistoryForKey : String → Except String Iterator)
    (permitId : String) : Outcome (List Permit) :=
  match GetHistoryForKey permitId with
  | .error e => .error e
  | .ok resultsIterator => historyLoop c resultsIterator []

/-- The loop of `GetPermitsByStatus` over the remaining answers of the iterator;
`permits` is the slice built so far. -/
def queryLoop (c : Codec) : Iterator → List Permit → Outcome (List Permit)
  | [], permits => .ok permits
  | .error e :: _, _ => .error e
  | .ok value :: rest, permits =>
    match c.Unmarshal value with
    | .error e => .error e
    | .ok permit => queryLoop c rest (permits ++ [permit])

/-- The query text `GetPermitsByStatus` builds. -/
def statusQuery (status : String) : String :=
  "\x7b\"selector\":\x7b\"status\":\"" ++ status ++ "\"\x7d\x7d"

/-- Method `GetPermitsByStatus`; `GetQueryResult` is the stub call. The second
component lists the queries sent to the store during the call. -/
def GetPermitsByStatus (c : Codec) (GetQueryResult : String → Except String Iterator)
    (status : String) : Outcome (List Permit) × List String :=
  if !isValidStatus status then (.error ("invalid status: " ++ status), [])
  else
    match GetQueryResult (statusQuery status) with
    | .error e => (.error e, [statusQuery status])
    | .ok resultsIterator => (queryLoop c resultsIterator [], [statusQuery status])

/-- The record a stored value decodes to, if it decodes. -/
def decoded (c : Codec) (value : String) : Option Permit :=
  match c.Unmarshal value with
  | .ok permit => some permit
  | .error _ => none

/-- The error `GetPermitsByStatus` returns for an unrecognized status. -/
def validationError (status : String) : String :=
  "invalid status: " ++ status

/-- A history stub that yields the given versions, without iterator error. -/
def historyOfVersions (versions : String → List String) : String → Except String Iterator :=
  fun key => .ok ((versions key).map .ok)

/-- `P-1` after carol moved it to `UNDER_REVIEW`. -/
def permitP1Review : Permit :=
  { PermitID := "P-1", FileHashes := [], Status := "UNDER_REVIEW", CreatedBy := "alice@OrgA",
    CreatedAt := "seconds:1700000000", UpdatedBy := "carol@OrgA",
    UpdatedAt := "seconds:1700000200", Organization := "OrgA" }

/-- The stored JSON text of `permitP1Review`. -/
def permitP1ReviewJSON : String :=
  "\x7b\"permitId\":\"P-1\",\"fileHashes\":[],\"status\":\"UNDER_REVIEW\",\"createdBy\":\"alice@OrgA\",\"createdAt\":\"seconds:1700000000\",\"updatedBy\":\"carol@OrgA\",\"updatedAt\":\"seconds:1700000200\",\"organization\":\"OrgA\"\x7d"

/-- A history of `P-1` with two readable versions and two unreadable ones. -/
def damagedHistory : String → List String :=
  fun key =>
    if key = "P-1" then ["not json", permitP1JSON, "\x7b\"permitId\":", permitP1ReviewJSON]
    else []

/-! ## The ledger with its history -/

/-- The key a call addresses. -/
def Call.key : Call → String
  | .createPermit _ permitId _ => permitId
  | .logFileHash _ permitId _ _ => permitId
  | .updateStatus _ permitId _ => permitId

/-- Modelled from the spec: the history facility of the store, which the
contract only reads (`GetHistoryForKey`). The world state together with, for
each key, the values written under it, oldest first. -/
structure World where
  ledger : Ledger
  versions : String → List String

/-- The world with no key and no version. -/
def emptyWorld : World :=
  { ledger := emptyLedger, versions := fun _ => [] }

/-- Modelled from the spec: one transaction on the world. A call that returns
without error has written one value under its key, and that value becomes the
newest version of the key; a call that fails adds no version. -/
def World.apply (c : Codec) (W : World) (call : Call) : World :=
  match (call.apply c W.ledger).1 with
  | .ok () =>
    { ledger := (call.apply c W.ledger).2
      versions := fun k =>
        if k = call.key then
          W.versions k ++ ((call.apply c W.ledger).2 call.key).toList
        else W.versions k }
  | _ => { ledger := (call.apply c W.ledger).2, versions := W.versions }

/-- The world after a sequence of calls. -/
def runWorld (c : Codec) : World → List Call → World
  | W, [] => W
  | W, call :: calls => runWorld c (W.apply c call) calls

/-- Two consecutive statuses of a history: the same status again, or an edge of
the transition table. -/
def StayOrStep (a b : String) : Prop :=
  a = b ∨ (a, b) ∈ specEdges

/-- The versions of every key are encodings of records whose statuses start at
`SUBMITTED` and go on by staying or by an edge; the newest version is the
stored value. -/
def HistoryInvariant (c : Codec) (W : World) : Prop :=
  ∀ k, ∃ ps : List Permit,
    ps.map c.Marshal = (W.versions k).map .ok ∧
    W.ledger k = (W.versions k).getLast? ∧
    (∀ first, (ps.map Permit.Status).head? = some first → first = "SUBMITTED") ∧
    List.Chain' StayOrStep (ps.map Permit.Status)

/-- The statuses of the records a history call returned. -/
def statusesOf : Outcome (List Permit) → List String
  | .ok history => history.map Permit.Status
  | _ => []

/-- A creation of `P-1` followed by one upload. -/
def createThenUpload : List Call :=
  [.createPermit aliceCtx "P-1" "OrgA", .logFileHash carolCtx "P-1" "survey.pdf" "2c26b46b"]

/-- A creation of `P-1`, an upload, an allowed status change, a refused one and
a second upload. -/
def mixedCalls : List Call :=
  [.createPermit aliceCtx "P-1" "OrgA", .logFileHash carolCtx "P-1" "survey.pdf" "2c26b46b",
   .updateStatus carolCtx "P-1" "UNDER_REVIEW", .updateStatus bobCtx "P-1" "APPROVED",
   .logFileHash aliceCtx "P-1" "plan.pdf" "9f86d081"]

/-! ## The chaincode package (`blockchain/chaincode/permitcontract.go`) -/

/-- A `time.Time` value, represented by the RFC 3339 text that its JSON encoding
writes. -/
abbrev Time := String

/-- The zero `time.Time`. -/
def zeroTime : Time := "0001-01-01T00:00:00Z"

/-- The requirements of a permit (`type Checklist struct`). -/
structure SmartContract.Checklist where
  CutSheetsSubmitted : Bool
  BDAPhotosSubmitted : Bool
  RFSurveySubmitted : Bool
  RedlinesSubmitted : Bool
  AllRequirementsMet : Bool
deriving DecidableEq, Repr

/-- The record of the chaincode package (`type Permit struct`). -/
structure SmartContract.Permit where
  ID : String
  ApplicantName : String
  ProjectAddress : String
  PermitType : String
  Status : String
  SubmissionDate : Time
  ApprovalDate : Time
  Documents : List String
  Checklist : SmartContract.Checklist
  TransactionHash : String
deriving DecidableEq, Repr

/-- What the transaction context answers during one call of the chaincode
package: the store (`stub`, of which only the failure flags are used), the
transaction id `GetStub().GetTxID()`, and the clock reading `time.Now()`. -/
structure SmartContract.TxCtx where
  stub : Ctx
  GetTxID : String
  Now : Time

/-- The two `encoding/json` entry points used on the chaincode `Permit`. -/
structure SmartContract.Codec where
  Marshal : SmartContract.Permit → Except String String
  Unmarshal : String → Except String SmartContract.Permit

/-- Method `SmartContract.PermitExists`. -/
def SmartContract.PermitExists (tx : SmartContract.TxCtx) (L : Ledger) (id : String) :
    Except String Bool :=
  match GetState tx.stub L id with
  | .error e => .error ("failed to read from world state: " ++ e)
  | .ok permitJSON => .ok permitJSON.isSome

/-- Method `SmartContract.CreatePermit`. -/
def SmartContract.CreatePermit (sc : SmartContract.Codec) (tx : SmartContract.TxCtx)
    (L : Ledger) (id applicantName projectAddress permitType : String) :
    Outcome Unit × Ledger :=
  match SmartContract.PermitExists tx L id with
  | .error e => (.error e, L)
  | .ok true => (.error ("permit " ++ id ++ " already exists"), L)
  | .ok false =>
    let permit : SmartContract.Permit :=
      { ID := id
        ApplicantName := applicantName
        ProjectAddress := projectAddress
        PermitType := permitType
        Status := "SUBMITTED"
        SubmissionDate := tx.Now
        ApprovalDate := zeroTime
        Documents := []
        Checklist :=
          { CutSheetsSubmitted := false
            BDAPhotosSubmitted := false
            RFSurveySubmitted := false
            RedlinesSubmitted := false
            AllRequirementsMet := false }
        TransactionHash := tx.GetTxID }
    match sc.Marshal permit with
    | .error e => (.error e, L)
    | .ok permitJSON => PutState tx.stub L id permitJSON

/-- Method `SmartContract.GetPermit`. -/
def SmartContract.GetPermit (sc : SmartContract.Codec) (tx : SmartContract.TxCtx)
    (L : Ledger) (id : String) : Except String SmartContract.Permit :=
  match GetState tx.stub L id with
  | .error e => .error ("failed to read from world state: " ++ e)
  | .ok none => .error ("permit " ++ id ++ " does not exist")
  | .ok (some permitJSON) =>
    match sc.Unmarshal permitJSON with
    | .error e => .error e
    | .ok permit => .ok permit

/-- Method `SmartContract.UpdatePermitStatus`. -/
def SmartContract.UpdatePermitStatus (sc : SmartContract.Codec) (tx : SmartContract.TxCtx)
    (L : Ledger) (id status : String) : Outcome Unit × Ledger :=
  match SmartContract.GetPermit sc tx L id with
  | .error e => (.error e, L)
  | .ok permit =>
    let permit1 : SmartContract.Permit := { permit with Status := status }
    let permit2 : SmartContract.Permit :=
      if status = "APPROVED" then { permit1 with ApprovalDate := tx.Now } else permit1
    let permit3 : SmartContract.Permit := { permit2 with TransactionHash := tx.GetTxID }
    match sc.Marshal permit3 with
    | .error e => (.error e, L)
    | .ok permitJSON => PutState tx.stub L id permitJSON

/-- The record `SmartContract.UpdatePermitStatus` writes back. -/
def SmartContract.statusSet (tx : SmartContract.TxCtx) (status : String)
    (permit : SmartContract.Permit) : SmartContract.Permit :=
  { permit with
    Status := status
    ApprovalDate := if status = "APPROVED" then tx.Now else permit.ApprovalDate
    TransactionHash := tx.GetTxID }

/-- The record `SmartContract.CreatePermit` builds. -/
def SmartContract.created (tx : SmartContract.TxCtx)
    (id applicantName projectAddress permitType : String) : SmartContract.Permit :=
  { ID := id
    ApplicantName := applicantName
    ProjectAddress := projectAddress
    PermitType := permitType
    Status := "SUBMITTED"
    SubmissionDate := tx.Now
    ApprovalDate := zeroTime
    Documents := []
    Checklist :=
      { CutSheetsSubmitted := false
        BDAPhotosSubmitted := false
        RFSurveySubmitted := false
        RedlinesSubmitted := false
        AllRequirementsMet := false }
    TransactionHash := tx.GetTxID }

/-- The codec law for the chaincode record. -/
def SmartContract.RoundTrip (sc : SmartContract.Codec) : Prop :=
  ∀ p : SmartContract.Permit, ∃ b, sc.Marshal p = .ok b ∧ sc.Unmarshal b = .ok p

/-! ### The compact JSON text of the chaincode `Permit` -/

/-- A JSON boolean. -/
def encodeBool (b : Bool) : List Char :=
  if b then ['t', 'r', 'u', 'e'] else ['f', 'a', 'l', 's', 'e']

/-- The strings after the first, each after a comma, and the closing bracket. -/
def encodeStringsTail : List String → List Char
  | [] => [']']
  | s :: ss => ',' :: (encodeString s ++ encodeStringsTail ss)

/-- An array of strings. -/
def encodeStrings : List String → List Char
  | [] => ['[', ']']
  | s :: ss => '[' :: (encodeString s ++ encodeStringsTail ss)

/-- A `Checklist` object. -/
def SmartContract.encodeChecklist (k : SmartContract.Checklist) : List Char :=
  "\x7b\"cutSheetsSubmitted\":".data ++ encodeBool k.CutSheetsSubmitted ++
  ",\"bdaPhotosSubmitted\":".data ++ encodeBool k.BDAPhotosSubmitted ++
  ",\"rfSurveySubmitted\":".data ++ encodeBool k.RFSurveySubmitted ++
  ",\"redlinesSubmitted\":".data ++ encodeBool k.RedlinesSubmitted ++
  ",\"allRequirementsMet\":".data ++ encodeBool k.AllRequirementsMet ++ ['\x7d']

/-- A chaincode `Permit` object. -/
def SmartContract.encodePermit (p : SmartContract.Permit) : List Char :=
  "\x7b\"id\":".data ++ encodeString p.ID ++
  ",\"applicantName\":".data ++ encodeString p.ApplicantName ++
  ",\"projectAddress\":".data ++ encodeString p.ProjectAddress ++
  ",\"permitType\":".data ++ encodeString p.PermitType ++
  ",\"status\":".data ++ encodeString p.Status ++
  ",\"submissionDate\":".data ++ encodeString p.SubmissionDate ++
  ",\"approvalDate\":".data ++ encodeString p.ApprovalDate ++
  ",\"documents\":".data ++ encodeStrings p.Documents ++
  ",\"checklist\":".data ++ SmartContract.encodeChecklist p.Checklist ++
  ",\"transactionHash\":".data ++ encodeString p.TransactionHash ++ ['\x7d']

/-- Reads a JSON boolean. -/
def parseBool (inp : List Char) : Option (Bool × List Char) :=
  match expect ['t', 'r', 'u', 'e'] inp with
  | some r => some (true, r)
  | none =>
    match expect ['f', 'a', 'l', 's', 'e'] inp with
    | some r => some (false, r)
    | none => none

/-- Reads the fixed text `lit` and then a boolean. -/
def parseBoolField (lit : List Char) (inp : List Char) : Option (Bool × List Char) :=
  match expect lit inp with
  | none => none
  | some r => parseBool r

/-- Reads the rest of an array of strings after its first element; `fuel` bounds
the number of elements read. -/
def parseStringsTail : Nat → List Char → Option (List String × List Char)
  | 0, _ => none
  | _ + 1, [] => none
  | fuel + 1, c :: r =>
    if c = ']' then some ([], r)
    else if c = ',' then
      match parseString r with
      | none => none
      | some (s, r1) =>
        match parseStringsTail fuel r1 with
        | none => none
        | some (ss, r2) => some (s :: ss, r2)
    else none

/-- Reads an array of strings (`null` reads as the empty slice). -/
def parseStrings (inp : List Char) : Option (List String × List Char) :=
  match expect ['n', 'u', 'l', 'l'] inp with
  | some r => some ([], r)
  | none =>
    match expect ['[', ']'] inp with
    | some r => some ([], r)
    | none =>
      match expect ['['] inp with
      | none => none
      | some r =>
        match parseString r with
        | none => none
        | some (s, r1) =>
          match parseStringsTail r1.length r1 with
          | none => none
          | some (ss, r2) => some (s :: ss, r2)

/-- Reads a `Checklist` object. -/
def SmartContract.parseChecklist (inp : List Char) :
    Option (SmartContract.Checklist × List Char) :=
  match parseBoolField "\x7b\"cutSheetsSubmitted\":".data inp with
  | none => none
  | some (cutSheets, r1) =>
    match parseBoolField ",\"bdaPhotosSubmitted\":".data r1 with
    | none => none
    | some (bdaPhotos, r2) =>
      match parseBoolField ",\"rfSurveySubmitted\":".data r2 with
      | none => none
      | some (rfSurvey, r3) =>
        match parseBoolField ",\"redlinesSubmitted\":".data r3 with
        | none => none
        | some (redlines, r4) =>
          match parseBoolField ",\"allRequirementsMet\":".data r4 with
          | none => none
          | some (allMet, r5) =>
            match expect ['\x7d'] r5 with
            | none => none
            | some r6 =>
              some ({ CutSheetsSubmitted := cutSheets, BDAPhotosSubmitted := bdaPhotos,
                      RFSurveySubmitted := rfSurvey, RedlinesSubmitted := redlines,
                      AllRequirementsMet := allMet }, r6)

/-- Reads a chaincode `Permit` object. -/
def SmartContract.parsePermit (inp : List Char) : Option (SmartContract.Permit × List Char) :=
  match parseField "\x7b\"id\":".data inp with
  | none => none
  | some (id, r1) =>
    match parseField ",\"applicantName\":".data r1 with
    | none => none
    | some (applicantName, r2) =>
      match parseField ",\"projectAddress\":".data r2 with
      | none => none
      | some (projectAddress, r3) =>
        match parseField ",\"permitType\":".data r3 with
        | none => none
        | some (permitType, r4) =>
          match parseField ",\"status\":".data r4 with
          | none => none
          | some (status, r5) =>
            match parseField ",\"submissionDate\":".data r5 with
            | none => none
            | some (submissionDate, r6) =>
              match parseField ",\"approvalDate\":".data r6 with
              | none => none
              | some (approvalDate, r7) =>
                match expect ",\"documents\":".data r7 with
                | none => none
                | some r8 =>
                  match parseStrings r8 with
                  | none => none
                  | some (documents, r9) =>
                    match expect ",\"checklist\":".data r9 with
                    | none => none
                    | some r10 =>
                      match SmartContract.parseChecklist r10 with
                      | none => none
                      | some (checklist, r11) =>
                        match parseField ",\"transactionHash\":".data r11 with
                        | none => none
                        | some (transactionHash, r12) =>
                          match expect ['\x7d'] r12 with
                          | none => none
                          | some r13 =>
                            some ({ ID := id, ApplicantName := applicantName,
                                    ProjectAddress := projectAddress,
                                    PermitType := permitType, Status := status,
                                    SubmissionDate := submissionDate,
                                    ApprovalDate := approvalDate, Documents := documents,
                                    Checklist := checklist,
                                    TransactionHash := transactionHash }, r13)

/-- The JSON codec of the chaincode record: the encoder writes the fields in
declaration order under their tags; the decoder reads that compact form back. -/
def SmartContract.goJSON : SmartContract.Codec where
  Marshal := fun p => .ok (String.mk (SmartContract.encodePermit p))
  Unmarshal := fun b =>
    match SmartContract.parsePermit b.data with
    | some (p, []) => .ok p
    | _ => .error "json: cannot unmarshal stored value into Go value of type chaincode.Permit"

/-- A transaction of the chaincode package whose store calls work. -/
def txOne : SmartContract.TxCtx :=
  { stub := aliceCtx, GetTxID := "tx-1", Now := "2023-11-14T22:13:20Z" }

/-- A later transaction. -/
def txTwo : SmartContract.TxCtx :=
  { stub := bobCtx, GetTxID := "tx-2", Now := "2023-11-14T22:15:00Z" }

/-- An evidence entry whose fields need every kind of escape. -/
def awkwardFileHash : FileHash :=
  { Filename := "a\"b\\c<d>.pdf", SHA256 := "9f86\n\t&", Uploader := "alice@OrgA",
    UploadedAt := "seconds:1700000000" }

/-- A record with fifty evidence entries. -/
def permitFifty : Permit :=
  { permitP1 with FileHashes := List.replicate 50 awkwardFileHash }

/-! ## Go strings as byte strings

In the embedding above a Go `string` is a Lean `String`, which is the case of a
Go string that holds well-formed UTF-8. A Go string is a byte string, and it
can hold bytes that are part of no well-formed UTF-8 text; `json.Marshal`
writes each such byte as the escape of U+FFFD. This part gives the byte-string
reading of the record, of the codec, and of `CreatePermit`, `LogFileHash` and
`GetPermitById`, the operations whose results depend on what the encoder does
to the strings it is given. -/

/-- A byte that occurs in no well-formed UTF-8 text. -/
inductive InvalidByte where
  | xC0 | xC1 | xF5 | xF6 | xF7 | xF8 | xF9 | xFA | xFB | xFC | xFD | xFE | xFF
deriving DecidableEq, Repr

/-- One step of reading a Go string as `utf8.DecodeRuneInString` reads it: a
well-formed character, or a single byte that is not part of one. -/
inductive GoChar where
  | rune (c : Char)
  | byte (b : InvalidByte)
deriving DecidableEq, Repr

/-- A Go `string`: characters, and between them bytes that belong to no
character. Such a byte never joins its neighbours into a character, so two of
these sequences are the same byte string only when they are equal. -/
abbrev GoString := List GoChar

/-- The Go string of a text. -/
def ofText (s : String) : GoString :=
  s.data.map GoChar.rune

/-- The character the encoder writes for one step: the character itself, or
U+FFFD for a byte that is not text. -/
def GoChar.coerced : GoChar → Char
  | .rune c => c
  | .byte _ => Char.ofNat 65533

/-- The text the encoder makes of a Go string. -/
def toValidText (s : GoString) : String :=
  String.mk (s.map GoChar.coerced)

/-- The Go string that is read back after encoding: every byte that is not text
has become U+FFFD. -/
def coerceUTF8 (s : GoString) : GoString :=
  ofText (toValidText s)

/-- The Go string is well-formed UTF-8. -/
def wellFormed (s : GoString) : Bool :=
  s.all fun ch =>
    match ch with
    | .rune _ => true
    | .byte _ => false

/-- The evidence entry over byte strings (`type FileHash struct`). -/
structure Raw.FileHash where
  Filename : GoString
  SHA256 : GoString
  Uploader : GoString
  UploadedAt : GoString
deriving DecidableEq, Repr

/-- The record over byte strings (`type Permit struct`). -/
structure Raw.Permit where
  PermitID : GoString
  FileHashes : List Raw.FileHash
  Status : GoString
  CreatedBy : GoString
  CreatedAt : GoString
  UpdatedBy : GoString
  UpdatedAt : GoString
  Organization : GoString
deriving DecidableEq, Repr

/-- The entry with every string as the encoder's output reads back. -/
def Raw.FileHash.coerced (f : Raw.FileHash) : Raw.FileHash :=
  { Filename := coerceUTF8 f.Filename
    SHA256 := coerceUTF8 f.SHA256
    Uploader := coerceUTF8 f.Uploader
    UploadedAt := coerceUTF8 f.UploadedAt }

/-- The record with every string as the encoder's output reads back. -/
def Raw.Permit.coerced (p : Raw.Permit) : Raw.Permit :=
  { PermitID := coerceUTF8 p.PermitID
    FileHashes := p.FileHashes.map Raw.FileHash.coerced
    Status := coerceUTF8 p.Status
    CreatedBy := coerceUTF8 p.CreatedBy
    CreatedAt := coerceUTF8 p.CreatedAt
    UpdatedBy := coerceUTF8 p.UpdatedBy
    UpdatedAt := coerceUTF8 p.UpdatedAt
    Organization := coerceUTF8 p.Organization }

/-- Every string of the entry is well-formed UTF-8. -/
def Raw.FileHash.isText (f : Raw.FileHash) : Bool :=
  wellFormed f.Filename && wellFormed f.SHA256 && wellFormed f.Uploader &&
    wellFormed f.UploadedAt

/-- Every string of the record is well-formed UTF-8. -/
def Raw.Permit.isText (p : Raw.Permit) : Bool :=
  wellFormed p.PermitID && p.FileHashes.all Raw.FileHash.isText && wellFormed p.Status &&
    wellFormed p.CreatedBy && wellFormed p.CreatedAt && wellFormed p.UpdatedBy &&
    wellFormed p.UpdatedAt && wellFormed p.Organization

/-- A decoded entry as a record over byte strings. -/
def FileHash.toRaw (f : FileHash) : Raw.FileHash :=
  { Filename := ofText f.Filename
    SHA256 := ofText f.SHA256
    Uploader := ofText f.Uploader
    UploadedAt := ofText f.UploadedAt }

/-- A decoded record as a record over byte strings. -/
def Permit.toRaw (p : Permit) : Raw.Permit :=
  { PermitID := ofText p.PermitID
    FileHashes := p.FileHashes.map FileHash.toRaw
    Status := ofText p.Status
    CreatedBy := ofText p.CreatedBy
    CreatedAt := ofText p.CreatedAt
    UpdatedBy := ofText p.UpdatedBy
    UpdatedAt := ofText p.UpdatedAt
    Organization := ofText p.Organization }

/-- The text record that the encoding of an entry denotes. -/
def Raw.FileHash.toText (f : Raw.FileHash) : PermitContract.FileHash :=
  { Filename := toValidText f.Filename
    SHA256 := toValidText f.SHA256
    Uploader := toValidText f.Uploader
    UploadedAt := toValidText f.UploadedAt }

/-- The text record that the encoding of a record denotes. -/
def Raw.Permit.toText (p : Raw.Permit) : PermitContract.Permit :=
  { PermitID := toValidText p.PermitID
    FileHashes := p.FileHashes.map Raw.FileHash.toText
    Status := toValidText p.Status
    CreatedBy := toValidText p.CreatedBy
    CreatedAt := toValidText p.CreatedAt
    UpdatedBy := toValidText p.UpdatedBy
    UpdatedAt := toValidText p.UpdatedAt
    Organization := toValidText p.Organization }

/-- How the encoder writes one step of a Go string: a character as
`escapeChar` writes it, a byte that is not text as the escape of U+FFFD. -/
def escapeGoChar : GoChar → List Char
  | .rune c => escapeChar c
  | .byte _ => ['\\', 'u', 'f', 'f', 'f', 'd']

/-- The escaped text of a Go string, without the surrounding quotes. -/
def escapeGoChars : GoString → List Char
  | [] => []
  | ch :: s => escapeGoChar ch ++ escapeGoChars s

/-- A JSON string literal for a Go string. -/
def Raw.encodeString (s : GoString) : List Char :=
  '"' :: (escapeGoChars s ++ ['"'])

/-- A `FileHash` object. -/
def Raw.encodeFileHash (f : Raw.FileHash) : List Char :=
  "\x7b\"filename\":".data ++ Raw.encodeString f.Filename ++
  ",\"sha256\":".data ++ Raw.encodeString f.SHA256 ++
  ",\"uploader\":".data ++ Raw.encodeString f.Uploader ++
  ",\"uploadedAt\":".data ++ Raw.encodeString f.UploadedAt ++ ['\x7d']

/-- The elements after the first, each after a comma, and the closing bracket. -/
def Raw.encodeFileHashTail : List Raw.FileHash → List Char
  | [] => [']']
  | f :: fs => ',' :: (Raw.encodeFileHash f ++ Raw.encodeFileHashTail fs)

/-- The `fileHashes` array. -/
def Raw.encodeFileHashes : List Raw.FileHash → List Char
  | [] => ['[', ']']
  | f :: fs => '[' :: (Raw.encodeFileHash f ++ Raw.encodeFileHashTail fs)

/-- A `Permit` object. -/
def Raw.encodePermit (p : Raw.Permit) : List Char :=
  "\x7b\"permitId\":".data ++ Raw.encodeString p.PermitID ++
  ",\"fileHashes\":".data ++ Raw.encodeFileHashes p.FileHashes ++
  ",\"status\":".data ++ Raw.encodeString p.Status ++
  ",\"createdBy\":".data ++ Raw.encodeString p.CreatedBy ++
  ",\"createdAt\":".data ++ Raw.encodeString p.CreatedAt ++
  ",\"updatedBy\":".data ++ Raw.encodeString p.UpdatedBy ++
  ",\"updatedAt\":".data ++ Raw.encodeString p.UpdatedAt ++
  ",\"organization\":".data ++ Raw.encodeString p.Organization ++ ['\x7d']

/-- The two `encoding/json` entry points on records over byte strings. The
encoded value is JSON text, which is always well-formed. -/
structure Raw.Codec where
  Marshal : Raw.Permit → Except GoString String
  Unmarshal : String → Except GoString Raw.Permit

/-- The encoder on records over byte strings; it does not fail. -/
def Raw.jsonMarshal (p : Raw.Permit) : Except GoString String :=
  .ok (String.mk (Raw.encodePermit p))

/-- The decoder on records over byte strings: what `jsonUnmarshal` reads, as
Go strings. -/
def Raw.jsonUnmarshal (b : String) : Except GoString Raw.Permit :=
  match PermitContract.jsonUnmarshal b with
  | .ok p => .ok p.toRaw
  | .error e => .error (ofText e)

/-- The JSON codec on records over byte strings. -/
def Raw.goJSON : Raw.Codec where
  Marshal := Raw.jsonMarshal
  Unmarshal := Raw.jsonUnmarshal

/-- The codec law on byte strings: every record encodes, and its encoding
decodes to the record with each byte that is not text replaced by U+FFFD. -/
def Raw.Lawful (c : Raw.Codec) : Prop :=
  ∀ p : Raw.Permit, ∃ b, c.Marshal p = .ok b ∧ c.Unmarshal b = .ok p.coerced

/-! ### The operations over byte strings -/

/-- How a call ends, with error texts as Go strings. -/
inductive Raw.Outcome (α : Type) where
  | ok (a : α)
  | error (msg : GoString)
  | panic (msg : GoString)
deriving DecidableEq, Repr

/-- World state with Go strings as keys; a stored value is JSON text. -/
abbrev Raw.Ledger := GoString → Option String

/-- The ledger with no key. -/
def Raw.emptyLedger : Raw.Ledger := fun _ => none

/-- The ledger after a successful `PutState(key, value)`. -/
def Raw.Ledger.put (L : Raw.Ledger) (key : GoString) (value : String) : Raw.Ledger :=
  fun k => if k = key then some value else L k

/-- What the transaction context answers during one call. `GetID` is the caller
identifier as a Go string; `GetTxTimestamp` is the text the library formats the
timestamp to. -/
structure Raw.Ctx where
  GetID : Except GoString GoString
  GetTxTimestamp : String
  getStateErr : Option GoString
  putStateErr : Option GoString

/-- Stub call `GetState(key)`. -/
def Raw.GetState (ctx : Raw.Ctx) (L : Raw.Ledger) (key : GoString) :
    Except GoString (Option String) :=
  match ctx.getStateErr with
  | some e => .error e
  | none => .ok (L key)

/-- Stub call `PutState(key, value)`, returned as the call's result. -/
def Raw.PutState (ctx : Raw.Ctx) (L : Raw.Ledger) (key : GoString) (value : String) :
    Raw.Outcome Unit × Raw.Ledger :=
  match ctx.putStateErr with
  | some e => (.error e, L)
  | none => (.ok (), L.put key value)

/-- Library call `strings.Split(s, sep)` for a one-character separator, on the
steps of a Go string. -/
def Raw.split (sep : GoChar) : GoString → List GoString
  | [] => [[]]
  | ch :: s =>
    if ch = sep then [] :: Raw.split sep s
    else
      match Raw.split sep s with
      | [] => [[ch]]
      | piece :: pieces => (ch :: piece) :: pieces

/-- The expression `strings.Split(clientID, "@")[1]`; `none` is the index out of
range. -/
def Raw.clientOrgOf (clientID : GoString) : Option GoString :=
  (Raw.split (.rune '@') clientID)[1]?

/-- Method `PermitExists`. -/
def Raw.PermitExists (ctx : Raw.Ctx) (L : Raw.Ledger) (permitId : GoString) :
    Except GoString Bool :=
  match Raw.GetState ctx L permitId with
  | .error e => .error (ofText "failed to read permit: " ++ e)
  | .ok permitJSON => .ok permitJSON.isSome

/-- Method `hasPermission`; `Except.error` is the panic of the out-of-range
index. -/
def Raw.hasPermission (ctx : Raw.Ctx) (organization : GoString) : Except GoString Bool :=
  match ctx.GetID with
  | .error _ => .ok false
  | .ok clientID =>
    match Raw.clientOrgOf clientID with
    | none => .error (ofText "runtime error: index out of range [1] with length 1")
    | some clientOrg => .ok (clientOrg == organization)

/-- Method `CreatePermit`. -/
def Raw.CreatePermit (c : Raw.Codec) (ctx : Raw.Ctx) (L : Raw.Ledger)
    (permitId organization : GoString) : Raw.Outcome Unit × Raw.Ledger :=
  match Raw.PermitExists ctx L permitId with
  | .error e => (.error e, L)
  | .ok true => (.error (ofText "permit " ++ permitId ++ ofText " already exists"), L)
  | .ok false =>
    match ctx.GetID with
    | .error e => (.error (ofText "failed to get client identity: " ++ e), L)
    | .ok clientID =>
      let permit : Raw.Permit :=
        { PermitID := permitId
          FileHashes := []
          Status := ofText StatusSubmitted
          CreatedBy := clientID
          CreatedAt := ofText ctx.GetTxTimestamp
          UpdatedBy := clientID
          UpdatedAt := ofText ctx.GetTxTimestamp
          Organization := organization }
      match c.Marshal permit with
      | .error e => (.error e, L)
      | .ok permitJSON => Raw.PutState ctx L permitId permitJSON

/-- Method `LogFileHash`. -/
def Raw.LogFileHash (c : Raw.Codec) (ctx : Raw.Ctx) (L : Raw.Ledger)
    (permitId filename sha256 : GoString) : Raw.Outcome Unit × Raw.Ledger :=
  match ctx.GetID with
  | .error e => (.error (ofText "failed to get client identity: " ++ e), L)
  | .ok clientID =>
    match Raw.GetState ctx L permitId with
    | .error e => (.error (ofText "failed to read permit: " ++ e), L)
    | .ok none => (.error (ofText "permit " ++ permitId ++ ofText " does not exist"), L)
    | .ok (some permitJSON) =>
      match c.Unmarshal permitJSON with
      | .error e => (.error e, L)
      | .ok permit =>
        match Raw.hasPermission ctx permit.Organization with
        | .error p => (.panic p, L)
        | .ok false =>
          (.error (ofText "user does not have permission to upload files for this permit"), L)
        | .ok true =>
          let permit1 : Raw.Permit :=
            { permit with
              FileHashes := permit.FileHashes ++
                [{ Filename := filename
                   SHA256 := sha256
                   Uploader := clientID
                   UploadedAt := ofText ctx.GetTxTimestamp }] }
          let permit2 : Raw.Permit :=
            { permit1 with UpdatedBy := clientID, UpdatedAt := ofText ctx.GetTxTimestamp }
          match c.Marshal permit2 with
          | .error e => (.error e, L)
          | .ok updated => Raw.PutState ctx L permitId updated

/-- Method `GetPermitById`. -/
def Raw.GetPermitById (c : Raw.Codec) (ctx : Raw.Ctx) (L : Raw.Ledger)
    (permitId : GoString) : Raw.Outcome Raw.Permit :=
  match Raw.GetState ctx L permitId with
  | .error e => .error (ofText "failed to read permit: " ++ e)
  | .ok none => .error (ofText "permit " ++ permitId ++ ofText " does not exist")
  | .ok (some permitJSON) =>
    match c.Unmarshal permitJSON with
    | .error e => .error e
    | .ok permit => .ok permit

/-- The ledger stores `permit` under `permitId`. -/
def Raw.Stored (c : Raw.Codec) (L : Raw.Ledger) (permitId : GoString) (permit : Raw.Permit) :
    Prop :=
  ∃ permitJSON, L permitId = some permitJSON ∧ c.Unmarshal permitJSON = .ok permit

/-- The record `CreatePermit` builds. -/
def Raw.createdPermit (ctx : Raw.Ctx) (clientID permitId organization : GoString) :
    Raw.Permit :=
  { PermitID := permitId
    FileHashes := []
    Status := ofText StatusSubmitted
    CreatedBy := clientID
    CreatedAt := ofText ctx.GetTxTimestamp
    UpdatedBy := clientID
    UpdatedAt := ofText ctx.GetTxTimestamp
    Organization := organization }

/-- The record `LogFileHash` writes back. -/
def Raw.fileHashLogged (ctx : Raw.Ctx) (clientID filename sha256 : GoString)
    (permit : Raw.Permit) : Raw.Permit :=
  { permit with
    FileHashes := permit.FileHashes ++
      [{ Filename := filename, SHA256 := sha256, Uploader := clientID,
         UploadedAt := ofText ctx.GetTxTimestamp }]
    UpdatedBy := clientID
    UpdatedAt := ofText ctx.GetTxTimestamp }

/-- One `LogFileHash` invocation on a given permit. -/
structure Raw.LogCall where
  ctx : Raw.Ctx
  filename : GoString
  sha256 : GoString

/-- The caller identifier of a context (empty when the identity does not
resolve). -/
def Raw.callerOf (ctx : Raw.Ctx) : GoString :=
  match ctx.GetID with
  | .ok clientID => clientID
  | .error _ => []

/-- The evidence entry that carries the data of a call. -/
def Raw.LogCall.entry (call : Raw.LogCall) : Raw.FileHash :=
  { Filename := call.filename
    SHA256 := call.sha256
    Uploader := Raw.callerOf call.ctx
    UploadedAt := ofText call.ctx.GetTxTimestamp }

/-- File name, digest and caller identifier of the call are well-formed
UTF-8. -/
def Raw.LogCall.isText (call : Raw.LogCall) : Bool :=
  wellFormed call.filename && wellFormed call.sha256 && wellFormed (Raw.callerOf call.ctx)

/-- The call comes from a member of `organization`, in a transaction whose
store calls do not fail. -/
def Raw.LogCall.Authorized (organization : GoString) (call : Raw.LogCall) : Prop :=
  (∃ clientID, call.ctx.GetID = .ok clientID ∧
      Raw.clientOrgOf clientID = some organization) ∧
    call.ctx.getStateErr = none ∧ call.ctx.putStateErr = none

/-- Successive `LogFileHash` calls on one permit: the outcomes in call order and
the final ledger. -/
def Raw.runLogCalls (c : Raw.Codec) (permitId : GoString) : Raw.Ledger → List Raw.LogCall →
    List (Raw.Outcome Unit) × Raw.Ledger
  | L, [] => ([], L)
  | L, call :: calls =>
    ((Raw.LogFileHash c call.ctx L permitId call.filename call.sha256).1 ::
        (Raw.runLogCalls c permitId
          (Raw.LogFileHash c call.ctx L permitId call.filename call.sha256).2 calls).1,
      (Raw.runLogCalls c permitId
          (Raw.LogFileHash c call.ctx L permitId call.filename call.sha256).2 calls).2)

/-! ### Concrete instances over byte strings -/

/-- The Go string `Org` followed by the byte 0xFF. -/
def orgWithBadByte : GoString :=
  ofText "Org" ++ [GoChar.byte InvalidByte.xFF]

/-- The Go string `plan`, the byte 0xFF, `.pdf`. -/
def filenameWithBadByte : GoString :=
  ofText "plan" ++ [GoChar.byte InvalidByte.xFF] ++ ofText ".pdf"

/-- The caller `alice@OrgA`, store calls working. -/
def Raw.aliceCtx : Raw.Ctx :=
  { GetID := .ok (ofText "alice@OrgA"), GetTxTimestamp := "seconds:1700000000",
    getStateErr := none, putStateErr := none }

/-- The caller `carol@OrgA`, in a later transaction. -/
def Raw.carolCtx : Raw.Ctx :=
  { GetID := .ok (ofText "carol@OrgA"), GetTxTimestamp := "seconds:1700000200",
    getStateErr := none, putStateErr := none }

/-- A record whose organization holds the byte 0xFF. -/
def Raw.permitBadOrg : Raw.Permit :=
  { PermitID := ofText "P-9", FileHashes := [], Status := ofText "SUBMITTED",
    CreatedBy := ofText "alice@OrgA", CreatedAt := ofText "seconds:1700000000",
    UpdatedBy := ofText "alice@OrgA", UpdatedAt := ofText "seconds:1700000000",
    Organization := orgWithBadByte }

/-- Two uploads by members of `OrgA`, with well-formed arguments. -/
def Raw.twoUploads : List Raw.LogCall :=
  [ { ctx := Raw.aliceCtx, filename := ofText "plan.pdf", sha256 := ofText "9f86d081" },
    { ctx := Raw.carolCtx, filename := ofText "survey.pdf", sha256 := ofText "2c26b46b" } ]

/-- One upload whose file name holds the byte 0xFF. -/
def Raw.badUpload : Raw.LogCall :=
  { ctx := Raw.aliceCtx, filename := filenameWithBadByte, sha256 := ofText "9f86d081" }

/-- A record with fifty evidence entries, all its strings well-formed. -/
def Raw.permitFifty : Raw.Permit :=
  Permit.toRaw PermitContract.permitFifty

/-- The JSON text `json.Marshal` writes for `Raw.permitBadOrg`. -/
def permitBadOrgJSON : String :=
  "\x7b\"permitId\":\"P-9\",\"fileHashes\":[],\"status\":\"SUBMITTED\",\"createdBy\":\"alice@OrgA\",\"createdAt\":\"seconds:1700000000\",\"updatedBy\":\"alice@OrgA\",\"updatedAt\":\"seconds:1700000000\",\"organization\":\"Org\\ufffd\"\x7d"

/-- What is read back for `Raw.permitBadOrg`: the byte 0xFF has become
U+FFFD. -/
def Raw.permitBadOrgReadBack : Raw.Permit :=
  { Raw.permitBadOrg with Organization := ofText "Org\uFFFD" }

/-- The record `P-1` of `OrgA` after the upload `Raw.badUpload`, as it is read
back: the byte 0xFF of the file name has become U+FFFD. -/
def Raw.permitBadUploadReadBack : Raw.Permit :=
  { PermitID := ofText "P-1"
    FileHashes :=
      [{ Filename := ofText "plan\uFFFD.pdf", SHA256 := ofText "9f86d081",
         Uploader := ofText "alice@OrgA", UploadedAt := ofText "seconds:1700000000" }]
    Status := ofText "SUBMITTED"
    CreatedBy := ofText "alice@OrgA"
    CreatedAt := ofText "seconds:1700000000"
    UpdatedBy := ofText "alice@OrgA"
    UpdatedAt := ofText "seconds:1700000000"
    Organization := ofText "OrgA" }

/-- The evidence entry of alice's upload of `plan.pdf`. -/
def planEntry : FileHash :=
  { Filename := "plan.pdf", SHA256 := "9f86d081", Uploader := "alice@OrgA",
    UploadedAt := "seconds:1700000000" }

/-- The evidence entry of carol's upload of `survey.pdf`. -/
def surveyEntry : FileHash :=
  { Filename := "survey.pdf", SHA256 := "2c26b46b", Uploader := "carol@OrgA",
    UploadedAt := "seconds:1700000200" }

/-- `P-1` with one evidence entry. -/
def permitP1OneFile : Permit :=
  { permitP1 with FileHashes := [planEntry] }

/-- The stored JSON text of `permitP1OneFile`. -/
def permitP1OneFileJSON : String :=
  "\x7b\"permitId\":\"P-1\",\"fileHashes\":[\x7b\"filename\":\"plan.pdf\",\"sha256\":\"9f86d081\",\"uploader\":\"alice@OrgA\",\"uploadedAt\":\"seconds:1700000000\"\x7d],\"status\":\"SUBMITTED\",\"createdBy\":\"alice@OrgA\",\"createdAt\":\"seconds:1700000000\",\"updatedBy\":\"alice@OrgA\",\"updatedAt\":\"seconds:1700000000\",\"organization\":\"OrgA\"\x7d"

/-- The ledger whose only key is `P-1`, holding `permitP1OneFile`. -/
def ledgerP1OneFile : Ledger := emptyLedger.put "P-1" permitP1OneFileJSON

/-! ### The other mutating operations of the chaincode package -/

/-- Method `SmartContract.AddDocument`. -/
def SmartContract.AddDocument (sc : SmartContract.Codec) (tx : SmartContract.TxCtx)
    (L : Ledger) (id documentHash : String) : Outcome Unit × Ledger :=
  match SmartContract.GetPermit sc tx L id with
  | .error e => (.error e, L)
  | .ok permit =>
    let permit1 : SmartContract.Permit :=
      { permit with Documents := permit.Documents ++ [documentHash] }
    let permit2 : SmartContract.Permit := { permit1 with TransactionHash := tx.GetTxID }
    match sc.Marshal permit2 with
    | .error e => (.error e, L)
    | .ok permitJSON => PutState tx.stub L id permitJSON

/-- Method `SmartContract.UpdateChecklist`. -/
def SmartContract.UpdateChecklist (sc : SmartContract.Codec) (tx : SmartContract.TxCtx)
    (L : Ledger) (id : String) (checklist : SmartContract.Checklist) :
    Outcome Unit × Ledger :=
  match SmartContract.GetPermit sc tx L id with
  | .error e => (.error e, L)
  | .ok permit =>
    let permit1 : SmartContract.Permit := { permit with Checklist := checklist }
    let permit2 : SmartContract.Permit := { permit1 with TransactionHash := tx.GetTxID }
    match sc.Marshal permit2 with
    | .error e => (.error e, L)
    | .ok permitJSON => PutState tx.stub L id permitJSON

/-- The record `SmartContract.AddDocument` writes back. -/
def SmartContract.documentAdded (tx : SmartContract.TxCtx) (documentHash : String)
    (permit : SmartContract.Permit) : SmartContract.Permit :=
  { permit with
    Documents := permit.Documents ++ [documentHash]
    TransactionHash := tx.GetTxID }

/-- The record `SmartContract.UpdateChecklist` writes back. -/
def SmartContract.checklistSet (tx : SmartContract.TxCtx) (checklist : SmartContract.Checklist)
    (permit : SmartContract.Permit) : SmartContract.Permit :=
  { permit with Checklist := checklist, TransactionHash := tx.GetTxID }

/-- One invocation of a mutating operation of the chaincode package. -/
inductive SmartContract.Call where
  | createPermit (tx : SmartContract.TxCtx)
      (id applicantName projectAddress permitType : String)
  | updatePermitStatus (tx : SmartContract.TxCtx) (id status : String)
  | addDocument (tx : SmartContract.TxCtx) (id documentHash : String)
  | updateChecklist (tx : SmartContract.TxCtx) (id : String)
      (checklist : SmartContract.Checklist)

/-- Runs one invocation on a ledger. -/
def SmartContract.Call.apply (sc : SmartContract.Codec) (L : Ledger) :
    SmartContract.Call → Outcome Unit × Ledger
  | .createPermit tx id applicantName projectAddress permitType =>
    SmartContract.CreatePermit sc tx L id applicantName projectAddress permitType
  | .updatePermitStatus tx id status => SmartContract.UpdatePermitStatus sc tx L id status
  | .addDocument tx id documentHash => SmartContract.AddDocument sc tx L id documentHash
  | .updateChecklist tx id checklist => SmartContract.UpdateChecklist sc tx L id checklist

/-- The ledger stores the chaincode record `permit` under `id`. -/
def SmartContract.Stored (sc : SmartContract.Codec) (L : Ledger) (id : String)
    (permit : SmartContract.Permit) : Prop :=
  ∃ permitJSON, L id = some permitJSON ∧ sc.Unmarshal permitJSON = .ok permit

/-- The status that the last successful `UpdatePermitStatus` on `id` supplied:
after one call it is the status argument when the call is an
`UpdatePermitStatus` on `id` that returned without error, and the status before
the call otherwise. -/
def SmartContract.statusAfter (id before : String) (call : SmartContract.Call)
    (outcome : Outcome Unit) : String :=
  match call, outcome with
  | .updatePermitStatus _ id1 status, .ok () => if id1 = id then status else before
  | _, _ => before

/-- Runs a sequence of invocations, failed ones included; next to the ledger it
carries the status that the last successful `UpdatePermitStatus` on `id`
supplied, starting from `before`. -/
def SmartContract.runCalls (sc : SmartContract.Codec) (id : String) :
    Ledger → String → List SmartContract.Call → Ledger × String
  | L, before, [] => (L, before)
  | L, before, call :: calls =>
    SmartContract.runCalls sc id (call.apply sc L).2
      (SmartContract.statusAfter id before call (call.apply sc L).1) calls

/-- Calls of the chaincode package after the creation of `P-1`: `P-1` set to
`BOGUS`, a document added, an update of the missing `P-404`, `P-1` set to
`APPROVED`, a second creation of `P-1` (refused), the checklist replaced. -/
def chaincodeCalls : List SmartContract.Call :=
  [ .updatePermitStatus txTwo "P-1" "BOGUS",
    .addDocument txOne "P-1" "c3ab8ff1",
    .updatePermitStatus txTwo "P-404" "EXPIRED",
    .updatePermitStatus txOne "P-1" "APPROVED",
    .createPermit txTwo "P-1" "Bea" "2 High St" "BDA",
    .updateChecklist txTwo "P-1"
      { CutSheetsSubmitted := true, BDAPhotosSubmitted := false, RFSurveySubmitted := false,
        RedlinesSubmitted := false, AllRequirementsMet := false } ]

/-! ## Properties -/

theorem isValidStatusTransition_eq_true_iff (current next : String) :
    isValidStatusTransition current next = true ↔ TableEdge current next := by
  unfold isValidStatusTransition TableEdge
  cases h : validStatusTransitions.lookup current with
  | none => simp
  | some allowed =>
    simp only [List.any_eq_true, beq_iff_eq, Option.some.injEq, exists_eq_left']
    constructor
    · rintro ⟨v, hv, rfl⟩
      exact hv
    · intro hv
      exact ⟨next, hv, rfl⟩

theorem lookup_validStatusTransitions (current : String) :
    validStatusTransitions.lookup current =
      if current = "SUBMITTED" then some ["UNDER_REVIEW", "REJECTED"]
      else if current = "UNDER_REVIEW" then some ["APPROVED", "REJECTED"]
      else if current = "APPROVED" then some ["EXPIRED"]
      else if current = "REJECTED" then some ["SUBMITTED"]
      else if current = "EXPIRED" then some ["SUBMITTED"]
      else none := by
  simp only [validStatusTransitions, StatusSubmitted, StatusUnderReview, StatusApproved,
    StatusRejected, StatusExpired, List.lookup]
  by_cases h1 : current = "SUBMITTED"
  · subst h1; rfl
  by_cases h2 : current = "UNDER_REVIEW"
  · subst h2; rfl
  by_cases h3 : current = "APPROVED"
  · subst h3; rfl
  by_cases h4 : current = "REJECTED"
  · subst h4; rfl
  by_cases h5 : current = "EXPIRED"
  · subst h5; rfl
  have e1 : (current == "SUBMITTED") = false := by simpa using h1
  have e2 : (current == "UNDER_REVIEW") = false := by simpa using h2
  have e3 : (current == "APPROVED") = false := by simpa using h3
  have e4 : (current == "REJECTED") = false := by simpa using h4
  have e5 : (current == "EXPIRED") = false := by simpa using h5
  simp only [e1, e2, e3, e4, e5, h1, h2, h3, h4, h5, if_false]

theorem isValidStatusTransition_iff_specEdges (current next : String) :
    isValidStatusTransition current next = true ↔ (current, next) ∈ specEdges := by
  unfold isValidStatusTransition
  rw [lookup_validStatusTransitions]
  by_cases h1 : current = "SUBMITTED"
  · subst h1; simp [specEdges, eq_comm (b := next)]
  by_cases h2 : current = "UNDER_REVIEW"
  · subst h2; simp [specEdges, eq_comm (b := next)]
  by_cases h3 : current = "APPROVED"
  · subst h3; simp [specEdges, eq_comm (b := next)]
  by_cases h4 : current = "REJECTED"
  · subst h4; simp [specEdges, eq_comm (b := next)]
  by_cases h5 : current = "EXPIRED"
  · subst h5; simp [specEdges, eq_comm (b := next)]
  simp [specEdges, h1, h2, h3, h4, h5]

theorem isValidStatusTransition_eq_false_iff (current next : String) :
    isValidStatusTransition current next = false ↔ ¬ TableEdge current next := by
  rw [← isValidStatusTransition_eq_true_iff]
  simp

theorem hasPermission_of_clientOrg {ctx : Ctx} {clientID clientOrg : String}
    (hid : ctx.GetID = .ok clientID) (horg : clientOrgOf clientID = some clientOrg)
    (organization : String) :
    hasPermission ctx organization = .ok (clientOrg == organization) := by
  simp [hasPermission, hid, horg]

theorem getState_ok_iff {ctx : Ctx} {L : Ledger} {key : String} {v : Option String} :
    GetState ctx L key = .ok v ↔ ctx.getStateErr = none ∧ L key = v := by
  unfold GetState
  cases h : ctx.getStateErr <;> simp

theorem putState_of_ok {ctx : Ctx} (hput : ctx.putStateErr = none) (L : Ledger)
    (key value : String) :
    PutState ctx L key value = (.ok (), fun k => if k = key then some value else L k) := by
  simp [PutState, hput]

/-- C2. `isValidStatusTransition current next` is true exactly for the seven
edges of the transition table, for all strings; it is false for every self-loop
and for every current status outside the five statuses. -/
theorem isValidStatusTransition_spec (current next : String) :
    (isValidStatusTransition current next = true ↔ (current, next) ∈ specEdges) ∧
    isValidStatusTransition current current = false ∧
    (current ∉ specStatuses → isValidStatusTransition current next = false) := by
  refine ⟨isValidStatusTransition_iff_specEdges current next, ?_, ?_⟩
  · rw [Bool.eq_false_iff, Ne, isValidStatusTransition_iff_specEdges]
    simp only [specEdges, List.mem_cons, Prod.mk.injEq, List.mem_nil_iff, or_false]
    rintro (h | h | h | h | h | h | h) <;> exact absurd (h.1.symm.trans h.2) (by decide)
  · intro hcur
    rw [Bool.eq_false_iff, Ne, isValidStatusTransition_iff_specEdges]
    simp only [specEdges, List.mem_cons, Prod.mk.injEq, List.mem_nil_iff, or_false]
    simp only [specStatuses, List.mem_cons, List.mem_nil_iff, or_false, not_or] at hcur
    rintro (h | h | h | h | h | h | h) <;> simp [h.1] at hcur

/-- C1. Transition closure: when the ledger holds a permit, the caller's
identity resolves to a member of the permit's organization and the pair
(current status, requested status) is not an edge of the transition table,
`UpdateStatus` returns the invalid-transition error and the ledger, hence the
permit and its status, is unchanged. -/
theorem UpdateStatus_transition_closure (c : Codec) (ctx : Ctx) (L : Ledger)
    (permitId newStatus clientID : String) (permit : Permit)
    (hholds : Holds c ctx L permitId permit)
    (hid : ctx.GetID = .ok clientID)
    (_horg : clientOrgOf clientID = some permit.Organization)
    (hedge : ¬ TableEdge permit.Status newStatus) :
    UpdateStatus c ctx L permitId newStatus =
        (.error (invalidTransitionError permit.Status newStatus), L) ∧
      Holds c ctx (UpdateStatus c ctx L permitId newStatus).2 permitId permit := by
  have hres : UpdateStatus c ctx L permitId newStatus =
      (.error (invalidTransitionError permit.Status newStatus), L) := by
    obtain ⟨permitJSON, hget, hdec⟩ := hholds
    have hfalse := (isValidStatusTransition_eq_false_iff _ _).2 hedge
    simp [UpdateStatus, hid, hget, hdec, hfalse, invalidTransitionError]
  rw [hres]
  exact ⟨rfl, hholds⟩

/-- C3 (amended). For a caller whose organization differs from the permit's,
`UpdateStatus` fails and leaves the ledger unchanged; the error is the
authorization error when the requested transition is an edge of the table, and
the invalid-transition error when it is not (the transition check runs
first). -/
theorem UpdateStatus_other_organization (c : Codec) (ctx : Ctx) (L : Ledger)
    (permitId newStatus clientID clientOrg : String) (permit : Permit)
    (hholds : Holds c ctx L permitId permit)
    (hid : ctx.GetID = .ok clientID)
    (horg : clientOrgOf clientID = some clientOrg)
    (hne : clientOrg ≠ permit.Organization) :
    (TableEdge permit.Status newStatus →
      UpdateStatus c ctx L permitId newStatus = (.error updateAuthorizationError, L)) ∧
    (¬ TableEdge permit.Status newStatus →
      UpdateStatus c ctx L permitId newStatus =
        (.error (invalidTransitionError permit.Status newStatus), L)) := by
  obtain ⟨permitJSON, hget, hdec⟩ := hholds
  have hperm := hasPermission_of_clientOrg hid horg permit.Organization
  have hbeq : (clientOrg == permit.Organization) = false := by simpa using hne
  constructor
  · intro hedge
    have htrue := (isValidStatusTransition_eq_true_iff _ _).2 hedge
    simp [UpdateStatus, hid, hget, hdec, htrue, hperm, hbeq, updateAuthorizationError]
  · intro hedge
    have hfalse := (isValidStatusTransition_eq_false_iff _ _).2 hedge
    simp [UpdateStatus, hid, hget, hdec, hfalse, invalidTransitionError]

/-- C4. For a caller whose organization differs from the permit's, and every
filename and digest, `LogFileHash` returns the authorization error and the
ledger, hence the stored record with its file hashes, is unchanged. -/
theorem LogFileHash_other_organization (c : Codec) (ctx : Ctx) (L : Ledger)
    (permitId filename sha256 clientID clientOrg : String) (permit : Permit)
    (hholds : Holds c ctx L permitId permit)
    (hid : ctx.GetID = .ok clientID)
    (horg : clientOrgOf clientID = some clientOrg)
    (hne : clientOrg ≠ permit.Organization) :
    LogFileHash c ctx L permitId filename sha256 = (.error uploadAuthorizationError, L) ∧
      Holds c ctx (LogFileHash c ctx L permitId filename sha256).2 permitId permit := by
  have hres : LogFileHash c ctx L permitId filename sha256 =
      (.error uploadAuthorizationError, L) := by
    obtain ⟨permitJSON, hget, hdec⟩ := hholds
    have hperm := hasPermission_of_clientOrg hid horg permit.Organization
    have hbeq : (clientOrg == permit.Organization) = false := by simpa using hne
    simp [LogFileHash, hid, hget, hdec, hperm, hbeq, uploadAuthorizationError]
  rw [hres]
  exact ⟨rfl, hholds⟩

/-- C5. When a record is already stored under `permitId`, `CreatePermit` returns
the already-exists error for every organization argument and every caller, and
the ledger is unchanged. -/
theorem CreatePermit_already_exists (c : Codec) (ctx : Ctx) (L : Ledger)
    (permitId organization permitJSON : String)
    (hpresent : GetState ctx L permitId = .ok (some permitJSON)) :
    CreatePermit c ctx L permitId organization = (.error (alreadyExistsError permitId), L) := by
  simp [CreatePermit, PermitExists, hpresent, alreadyExistsError]

/-- Postcondition of `CreatePermit` when every string is text: for an id absent
from the ledger and a caller whose identity resolves, the call succeeds;
afterwards `GetPermitById` returns the record with the given id and
organization, status `SUBMITTED`, no file hash, and the caller as creator and
updater; every other key of the ledger is as before. -/
theorem CreatePermit_postcondition (c : Codec) (ctx ctx2 : Ctx) (L : Ledger)
    (permitId organization clientID : String)
    (hrt : RoundTrip c)
    (habsent : GetState ctx L permitId = .ok none)
    (hid : ctx.GetID = .ok clientID)
    (hput : ctx.putStateErr = none)
    (hget2 : ctx2.getStateErr = none) :
    (CreatePermit c ctx L permitId organization).1 = .ok () ∧
    GetPermitById c ctx2 (CreatePermit c ctx L permitId organization).2 permitId =
      .ok { PermitID := permitId
            FileHashes := []
            Status := "SUBMITTED"
            CreatedBy := clientID
            CreatedAt := ctx.GetTxTimestamp
            UpdatedBy := clientID
            UpdatedAt := ctx.GetTxTimestamp
            Organization := organization } ∧
    ∀ k, k ≠ permitId → (CreatePermit c ctx L permitId organization).2 k = L k := by
  obtain ⟨b, hm, hu⟩ := hrt
    { PermitID := permitId
      FileHashes := []
      Status := StatusSubmitted
      CreatedBy := clientID
      CreatedAt := ctx.GetTxTimestamp
      UpdatedBy := clientID
      UpdatedAt := ctx.GetTxTimestamp
      Organization := organization }
  have hres : CreatePermit c ctx L permitId organization =
      (.ok (), fun k => if k = permitId then some b else L k) := by
    simp [CreatePermit, PermitExists, habsent, hid, hm, putState_of_ok hput]
  rw [hres]
  refine ⟨rfl, ?_, ?_⟩
  · simp [GetPermitById, GetState, hget2, hu, StatusSubmitted]
  · intro k hk
    simp [hk]

theorem hexVal_hexChar : ∀ d, d < 16 → hexVal (hexChar d) = some d := by
  decide

theorem parseStringBody_quote (cs : List Char) :
    parseStringBody .plain ('"' :: cs) = some ([], cs) := by
  simp [parseStringBody]

theorem parseStringBody_short (e ch : Char) (cs : List Char) (he : e ≠ 'u')
    (hu : unescapeChar e = some ch) :
    parseStringBody .plain ('\\' :: e :: cs) = prepend ch (parseStringBody .plain cs) := by
  simp [parseStringBody, he, hu]

theorem parseStringBody_hex (a b c d : Nat) (ha : a < 16) (hb : b < 16) (hc : c < 16)
    (hd : d < 16) (cs : List Char) :
    parseStringBody .plain
        ('\\' :: 'u' :: hexChar a :: hexChar b :: hexChar c :: hexChar d :: cs) =
      prepend (Char.ofNat (((a * 16 + b) * 16 + c) * 16 + d)) (parseStringBody .plain cs) := by
  simp [parseStringBody, hexVal_hexChar a ha, hexVal_hexChar b hb, hexVal_hexChar c hc,
    hexVal_hexChar d hd]

theorem parseStringBody_plain (c : Char) (cs : List Char) (hq : c ≠ '"') (hb : c ≠ '\\')
    (hc : ¬ c.toNat < 32) :
    parseStringBody .plain (c :: cs) = prepend c (parseStringBody .plain cs) := by
  simp [parseStringBody, hq, hb, hc]

theorem escapeChar_of_control (c : Char) (h1 : c ≠ '"') (h2 : c ≠ '\\')
    (h3 : c ≠ Char.ofNat 8) (h4 : c ≠ Char.ofNat 12) (h5 : c ≠ '\n') (h6 : c ≠ '\r')
    (h7 : c ≠ '\t') (h8 : c.toNat < 32 ∨ c = '<' ∨ c = '>' ∨ c = '&') :
    escapeChar c =
      ['\\', 'u', hexChar 0, hexChar 0, hexChar (c.toNat / 16), hexChar (c.toNat % 16)] := by
  unfold escapeChar
  rw [if_neg h1, if_neg h2, if_neg h3, if_neg h4, if_neg h5, if_neg h6, if_neg h7, if_pos h8]
  rfl

theorem escapeChar_of_plain (c : Char) (h1 : c ≠ '"') (h2 : c ≠ '\\')
    (h3 : c ≠ Char.ofNat 8) (h4 : c ≠ Char.ofNat 12) (h5 : c ≠ '\n') (h6 : c ≠ '\r')
    (h7 : c ≠ '\t') (h8 : ¬ (c.toNat < 32 ∨ c = '<' ∨ c = '>' ∨ c = '&'))
    (h9 : c ≠ Char.ofNat 8232) (h10 : c ≠ Char.ofNat 8233) :
    escapeChar c = [c] := by
  unfold escapeChar
  rw [if_neg h1, if_neg h2, if_neg h3, if_neg h4, if_neg h5, if_neg h6, if_neg h7, if_neg h8,
    if_neg h9, if_neg h10]

theorem prepend_some (ch : Char) (s r : List Char) :
    prepend ch (some (s, r)) = some (ch :: s, r) := rfl

theorem parseStringBody_escapeChar (c : Char) (tail s r : List Char)
    (h : parseStringBody .plain tail = some (s, r)) :
    parseStringBody .plain (escapeChar c ++ tail) = some (c :: s, r) := by
  by_cases h1 : c = '"'
  · subst h1
    exact (parseStringBody_short '"' '"' tail (by decide) (by decide)).trans (by rw [h]; rfl)
  by_cases h2 : c = '\\'
  · subst h2
    exact (parseStringBody_short '\\' '\\' tail (by decide) (by decide)).trans (by rw [h]; rfl)
  by_cases h3 : c = Char.ofNat 8
  · subst h3
    exact (parseStringBody_short 'b' (Char.ofNat 8) tail (by decide) (by decide)).trans (by rw [h]; rfl)
  by_cases h4 : c = Char.ofNat 12
  · subst h4
    exact (parseStringBody_short 'f' (Char.ofNat 12) tail (by decide) (by decide)).trans (by rw [h]; rfl)
  by_cases h5 : c = '\n'
  · subst h5
    exact (parseStringBody_short 'n' '\n' tail (by decide) (by decide)).trans (by rw [h]; rfl)
  by_cases h6 : c = '\r'
  · subst h6
    exact (parseStringBody_short 'r' '\r' tail (by decide) (by decide)).trans (by rw [h]; rfl)
  by_cases h7 : c = '\t'
  · subst h7
    exact (parseStringBody_short 't' '\t' tail (by decide) (by decide)).trans (by rw [h]; rfl)
  by_cases h8 : c.toNat < 32 ∨ c = '<' ∨ c = '>' ∨ c = '&'
  · have hlt : c.toNat < 256 := by
      rcases h8 with h8 | h8 | h8 | h8
      · omega
      · subst h8; decide
      · subst h8; decide
      · subst h8; decide
    rw [escapeChar_of_control c h1 h2 h3 h4 h5 h6 h7 h8]
    have hstep := parseStringBody_hex 0 0 (c.toNat / 16) (c.toNat % 16) (by omega) (by omega)
      (by omega) (by omega) tail
    have hval : ((0 * 16 + 0) * 16 + c.toNat / 16) * 16 + c.toNat % 16 = c.toNat := by omega
    rw [hval, Char.ofNat_toNat, h] at hstep
    exact hstep
  by_cases h9 : c = Char.ofNat 8232
  · subst h9
    have hstep := parseStringBody_hex 2 0 2 8 (by omega) (by omega) (by omega) (by omega) tail
    rw [h] at hstep
    exact hstep
  by_cases h10 : c = Char.ofNat 8233
  · subst h10
    have hstep := parseStringBody_hex 2 0 2 9 (by omega) (by omega) (by omega) (by omega) tail
    rw [h] at hstep
    exact hstep
  rw [escapeChar_of_plain c h1 h2 h3 h4 h5 h6 h7 h8 h9 h10]
  have hc : ¬ c.toNat < 32 := fun hh => h8 (Or.inl hh)
  exact (parseStringBody_plain c tail h1 h2 hc).trans (by rw [h]; rfl)

theorem parseStringBody_escapeChars (cs rest : List Char) :
    parseStringBody .plain (escapeChars cs ++ ('"' :: rest)) = some (cs, rest) := by
  induction cs with
  | nil => exact parseStringBody_quote rest
  | cons c cs ih =>
    rw [escapeChars, List.append_assoc]
    exact parseStringBody_escapeChar c _ cs rest ih

theorem parseString_encodeString (s : String) (rest : List Char) :
    parseString (encodeString s ++ rest) = some (s, rest) := by
  have h := parseStringBody_escapeChars s.data rest
  simp only [encodeString, List.cons_append, List.append_assoc, List.nil_append, parseString,
    if_true, h]

theorem expect_append (lit rest : List Char) : expect lit (lit ++ rest) = some rest := by
  induction lit with
  | nil => cases rest <;> rfl
  | cons l lit ih => simp [expect, ih]

theorem parseField_append (lit : List Char) (s : String) (rest : List Char) :
    parseField lit (lit ++ (encodeString s ++ rest)) = some (s, rest) := by
  simp only [parseField, expect_append, parseString_encodeString]

theorem parseFileHash_encodeFileHash (f : FileHash) (rest : List Char) :
    parseFileHash (encodeFileHash f ++ rest) = some (f, rest) := by
  simp only [encodeFileHash, List.append_assoc, parseFileHash, parseField_append, expect_append]

theorem encodeFileHash_head (f : FileHash) (rest : List Char) :
    ∃ tail, encodeFileHash f ++ rest = '\x7b' :: tail := by
  simp only [encodeFileHash, List.append_assoc]
  exact ⟨_, rfl⟩

theorem length_encodeFileHashTail (fs : List FileHash) (rest : List Char) :
    fs.length < (encodeFileHashTail fs ++ rest).length := by
  induction fs with
  | nil => simp [encodeFileHashTail]
  | cons f fs ih =>
    simp only [encodeFileHashTail, List.cons_append, List.append_assoc, List.length_cons,
      List.length_append] at ih ⊢
    omega

theorem parseFileHashTail_encode (fs : List FileHash) (rest : List Char) :
    ∀ fuel, fs.length < fuel →
      parseFileHashTail fuel (encodeFileHashTail fs ++ rest) = some (fs, rest) := by
  induction fs with
  | nil =>
    intro fuel hfuel
    obtain ⟨k, rfl⟩ : ∃ k, fuel = k + 1 := ⟨fuel - 1, by simp at hfuel; omega⟩
    simp [encodeFileHashTail, parseFileHashTail]
  | cons f fs ih =>
    intro fuel hfuel
    obtain ⟨k, rfl⟩ : ∃ k, fuel = k + 1 := ⟨fuel - 1, by omega⟩
    have hk : fs.length < k := by simpa using hfuel
    have hne : ¬ (',' = ']') := by decide
    simp only [encodeFileHashTail, List.cons_append, List.append_assoc, parseFileHashTail,
      if_neg hne, if_true, List.append_eq, parseFileHash_encodeFileHash, ih k hk]

theorem parseFileHashes_encode (fs : List FileHash) (rest : List Char) :
    parseFileHashes (encodeFileHashes fs ++ rest) = some (fs, rest) := by
  cases fs with
  | nil => simp [encodeFileHashes, parseFileHashes, expect]
  | cons f fs =>
    obtain ⟨tail, htail⟩ := encodeFileHash_head f (encodeFileHashTail fs ++ rest)
    have h1 : expect ['n', 'u', 'l', 'l']
        ('[' :: (encodeFileHash f ++ (encodeFileHashTail fs ++ rest))) = none := by
      simp [expect]
    have h2 : expect ['[', ']']
        ('[' :: (encodeFileHash f ++ (encodeFileHashTail fs ++ rest))) = none := by
      rw [htail]
      simp [expect]
    have h3 : expect ['[']
        ('[' :: (encodeFileHash f ++ (encodeFileHashTail fs ++ rest))) =
          some (encodeFileHash f ++ (encodeFileHashTail fs ++ rest)) :=
      expect_append ['['] _
    simp only [encodeFileHashes, List.cons_append, List.append_assoc, parseFileHashes, h1, h2,
      h3, parseFileHash_encodeFileHash,
      parseFileHashTail_encode fs rest _ (length_encodeFileHashTail fs rest)]

theorem parsePermit_encodePermit (p : Permit) (rest : List Char) :
    parsePermit (encodePermit p ++ rest) = some (p, rest) := by
  simp only [encodePermit, List.append_assoc, parsePermit, parseField_append, expect_append,
    parseFileHashes_encode]

theorem jsonUnmarshal_jsonMarshal (p : Permit) :
    jsonUnmarshal (String.mk (encodePermit p)) = .ok p := by
  have h := parsePermit_encodePermit p []
  rw [List.append_nil] at h
  simp only [jsonUnmarshal, h]

theorem marshal_goJSON (p : Permit) :
    goJSON.Marshal p = .ok (String.mk (encodePermit p)) := by
  simp only [goJSON, jsonMarshal]

theorem unmarshal_goJSON (b : String) : goJSON.Unmarshal b = jsonUnmarshal b := by
  simp only [goJSON]

theorem roundTrip_goJSON : RoundTrip goJSON := by
  intro p
  refine ⟨String.mk (encodePermit p), marshal_goJSON p, ?_⟩
  rw [unmarshal_goJSON]
  exact jsonUnmarshal_jsonMarshal p

/-! ### What each operation can do to the ledger -/

theorem CreatePermit_ledger (c : Codec) (ctx : Ctx) (L : Ledger) (permitId organization : String) :
    ((CreatePermit c ctx L permitId organization).2 = L ∧
      (CreatePermit c ctx L permitId organization).1 ≠ .ok ()) ∨
    ∃ clientID b, ctx.getStateErr = none ∧ L permitId = none ∧ ctx.GetID = .ok clientID ∧
      c.Marshal (createdPermit ctx clientID permitId organization) = .ok b ∧
      CreatePermit c ctx L permitId organization = (.ok (), L.put permitId b) := by
  cases hg : ctx.getStateErr with
  | some e => left; simp [CreatePermit, PermitExists, GetState, hg]
  | none =>
    cases hL : L permitId with
    | some v => left; simp [CreatePermit, PermitExists, GetState, hg, hL]
    | none =>
      cases hid : ctx.GetID with
      | error e => left; simp [CreatePermit, PermitExists, GetState, hg, hL, hid]
      | ok clientID =>
        cases hm : c.Marshal (createdPermit ctx clientID permitId organization) with
        | error e =>
          left
          rw [createdPermit] at hm
          simp [CreatePermit, PermitExists, GetState, hg, hL, hid, hm]
        | ok b =>
          cases hp : ctx.putStateErr with
          | some e =>
            left
            rw [createdPermit] at hm
            simp [CreatePermit, PermitExists, GetState, PutState, hg, hL, hid, hm, hp]
          | none =>
            right
            refine ⟨clientID, b, rfl, rfl, rfl, hm, ?_⟩
            rw [createdPermit] at hm
            simp [CreatePermit, PermitExists, GetState, PutState, hg, hL, hid, hm, hp]
            rfl

theorem hasPermission_eq_true {ctx : Ctx} {organization : String}
    (h : hasPermission ctx organization = .ok true) :
    ∃ clientID, ctx.GetID = .ok clientID ∧ clientOrgOf clientID = some organization := by
  unfold hasPermission at h
  cases hid : ctx.GetID with
  | error e => simp [hid] at h
  | ok clientID =>
    cases horg : clientOrgOf clientID with
    | none => simp [hid, horg] at h
    | some clientOrg =>
      simp [hid, horg] at h
      exact ⟨clientID, rfl, by rw [horg, h]⟩

theorem UpdateStatus_ledger (c : Codec) (ctx : Ctx) (L : Ledger) (permitId newStatus : String) :
    ((UpdateStatus c ctx L permitId newStatus).2 = L ∧
      (UpdateStatus c ctx L permitId newStatus).1 ≠ .ok ()) ∨
    ∃ clientID permitJSON permit b, ctx.getStateErr = none ∧ ctx.GetID = .ok clientID ∧
      L permitId = some permitJSON ∧ c.Unmarshal permitJSON = .ok permit ∧
      isValidStatusTransition permit.Status newStatus = true ∧
      clientOrgOf clientID = some permit.Organization ∧
      c.Marshal (statusUpdated ctx clientID newStatus permit) = .ok b ∧
      UpdateStatus c ctx L permitId newStatus = (.ok (), L.put permitId b) := by
  cases hid : ctx.GetID with
  | error e => left; simp [UpdateStatus, hid]
  | ok clientID =>
    cases hg : ctx.getStateErr with
    | some e => left; simp [UpdateStatus, GetState, hid, hg]
    | none =>
      cases hL : L permitId with
      | none => left; simp [UpdateStatus, GetState, hid, hg, hL]
      | some permitJSON =>
        cases hdec : c.Unmarshal permitJSON with
        | error e => left; simp [UpdateStatus, GetState, hid, hg, hL, hdec]
        | ok permit =>
          cases hv : isValidStatusTransition permit.Status newStatus with
          | false => left; simp [UpdateStatus, GetState, hid, hg, hL, hdec, hv]
          | true =>
            cases hperm : hasPermission ctx permit.Organization with
            | error e => left; simp [UpdateStatus, GetState, hid, hg, hL, hdec, hv, hperm]
            | ok allowed =>
              cases allowed with
              | false => left; simp [UpdateStatus, GetState, hid, hg, hL, hdec, hv, hperm]
              | true =>
                obtain ⟨clientID2, hid2, horg⟩ := hasPermission_eq_true hperm
                have hsame : clientID2 = clientID := by
                  rw [hid] at hid2
                  exact (Except.ok.inj hid2).symm
                subst hsame
                cases hm : c.Marshal (statusUpdated ctx clientID2 newStatus permit) with
                | error e =>
                  left
                  rw [statusUpdated] at hm
                  simp [UpdateStatus, GetState, hid, hg, hL, hdec, hv, hperm, hm]
                | ok b =>
                  cases hp : ctx.putStateErr with
                  | some e =>
                    left
                    rw [statusUpdated] at hm
                    simp [UpdateStatus, GetState, PutState, hid, hg, hL, hdec, hv, hperm, hm, hp]
                  | none =>
                    right
                    refine ⟨clientID2, permitJSON, permit, b, rfl, rfl, rfl, hdec, hv, horg,
                      hm, ?_⟩
                    rw [statusUpdated] at hm
                    simp [UpdateStatus, GetState, PutState, hid, hg, hL, hdec, hv, hperm, hm, hp]
                    rfl

theorem LogFileHash_ledger (c : Codec) (ctx : Ctx) (L : Ledger)
    (permitId filename sha256 : String) :
    ((LogFileHash c ctx L permitId filename sha256).2 = L ∧
      (LogFileHash c ctx L permitId filename sha256).1 ≠ .ok ()) ∨
    ∃ clientID permitJSON permit b, ctx.getStateErr = none ∧ ctx.GetID = .ok clientID ∧
      L permitId = some permitJSON ∧ c.Unmarshal permitJSON = .ok permit ∧
      clientOrgOf clientID = some permit.Organization ∧
      c.Marshal (fileHashLogged ctx clientID filename sha256 permit) = .ok b ∧
      LogFileHash c ctx L permitId filename sha256 = (.ok (), L.put permitId b) := by
  cases hid : ctx.GetID with
  | error e => left; simp [LogFileHash, hid]
  | ok clientID =>
    cases hg : ctx.getStateErr with
    | some e => left; simp [LogFileHash, GetState, hid, hg]
    | none =>
      cases hL : L permitId with
      | none => left; simp [LogFileHash, GetState, hid, hg, hL]
      | some permitJSON =>
        cases hdec : c.Unmarshal permitJSON with
        | error e => left; simp [LogFileHash, GetState, hid, hg, hL, hdec]
        | ok permit =>
          cases hperm : hasPermission ctx permit.Organization with
          | error e => left; simp [LogFileHash, GetState, hid, hg, hL, hdec, hperm]
          | ok allowed =>
            cases allowed with
            | false => left; simp [LogFileHash, GetState, hid, hg, hL, hdec, hperm]
            | true =>
              obtain ⟨clientID2, hid2, horg⟩ := hasPermission_eq_true hperm
              have hsame : clientID2 = clientID := by
                rw [hid] at hid2
                exact (Except.ok.inj hid2).symm
              subst hsame
              cases hm : c.Marshal (fileHashLogged ctx clientID2 filename sha256 permit) with
              | error e =>
                left
                rw [fileHashLogged] at hm
                simp [LogFileHash, GetState, hid, hg, hL, hdec, hperm, hm]
              | ok b =>
                cases hp : ctx.putStateErr with
                | some e =>
                  left
                  rw [fileHashLogged] at hm
                  simp [LogFileHash, GetState, PutState, hid, hg, hL, hdec, hperm, hm, hp]
                | none =>
                  right
                  refine ⟨clientID2, permitJSON, permit, b, rfl, rfl, rfl, hdec, horg, hm, ?_⟩
                  rw [fileHashLogged] at hm
                  simp [LogFileHash, GetState, PutState, hid, hg, hL, hdec, hperm, hm, hp]
                  rfl

/-! ### Invariants of the ledger -/

theorem unmarshal_of_marshal {c : Codec} (hrt : RoundTrip c) {p : Permit} {b : String}
    (hm : c.Marshal p = .ok b) : c.Unmarshal b = .ok p := by
  obtain ⟨b2, hm2, hu⟩ := hrt p
  rw [hm] at hm2
  rw [Except.ok.inj hm2]
  exact hu

theorem stored_put_same {c : Codec} (hrt : RoundTrip c) (L : Ledger) (key : String)
    {p : Permit} {b : String} (hm : c.Marshal p = .ok b) : Stored c (L.put key b) key p :=
  ⟨b, by simp [Ledger.put], unmarshal_of_marshal hrt hm⟩

theorem put_other (L : Ledger) {key k : String} (b : String) (hk : k ≠ key) :
    L.put key b k = L k := by
  simp [Ledger.put, hk]

theorem mem_specStatuses_of_valid {current next : String}
    (h : isValidStatusTransition current next = true) : next ∈ specStatuses := by
  rw [isValidStatusTransition_iff_specEdges] at h
  simp only [specEdges, List.mem_cons, Prod.mk.injEq, List.mem_nil_iff, or_false] at h
  rcases h with h | h | h | h | h | h | h <;> rw [h.2] <;> decide

theorem statusInvariant_put {c : Codec} {L : Ledger} (hinv : StatusInvariant c L)
    (key : String) {p : Permit} {b : String} (hm : c.Marshal p = .ok b)
    (hs : p.Status ∈ specStatuses) : StatusInvariant c (L.put key b) := by
  intro k v hv
  by_cases hk : k = key
  · subst hk
    have : v = b := by simpa [Ledger.put] using hv.symm
    subst this
    exact ⟨p, hm, hs⟩
  · rw [put_other L b hk] at hv
    exact hinv k v hv

theorem statusInvariant_apply {c : Codec} (hrt : RoundTrip c) {L : Ledger}
    (hinv : StatusInvariant c L) (call : Call) : StatusInvariant c (call.apply c L).2 := by
  cases call with
  | createPermit ctx permitId organization =>
    rcases CreatePermit_ledger c ctx L permitId organization with ⟨h, -⟩ | ⟨clientID, b, -, -, -, hm, h⟩
    · simp only [Call.apply, h]; exact hinv
    · simp only [Call.apply, h]
      exact statusInvariant_put hinv permitId hm (by simp [createdPermit, specStatuses, StatusSubmitted])
  | logFileHash ctx permitId filename sha256 =>
    rcases LogFileHash_ledger c ctx L permitId filename sha256 with
      ⟨h, -⟩ | ⟨clientID, permitJSON, permit, b, -, -, hL, hdec, -, hm, h⟩
    · simp only [Call.apply, h]; exact hinv
    · simp only [Call.apply, h]
      obtain ⟨p, hmp, hsp⟩ := hinv permitId permitJSON hL
      have hp : permit = p := by
        have := unmarshal_of_marshal hrt hmp
        rw [hdec] at this
        exact Except.ok.inj this
      subst hp
      exact statusInvariant_put hinv permitId hm hsp
  | updateStatus ctx permitId newStatus =>
    rcases UpdateStatus_ledger c ctx L permitId newStatus with
      ⟨h, -⟩ | ⟨clientID, permitJSON, permit, b, -, -, -, -, hv, -, hm, h⟩
    · simp only [Call.apply, h]; exact hinv
    · simp only [Call.apply, h]
      exact statusInvariant_put hinv permitId hm (mem_specStatuses_of_valid hv)

theorem statusInvariant_runCalls {c : Codec} (hrt : RoundTrip c) (calls : List Call) :
    ∀ L, StatusInvariant c L → StatusInvariant c (runCalls c L calls) := by
  induction calls with
  | nil => intro L h; exact h
  | cons call calls ih =>
    intro L h
    exact ih _ (statusInvariant_apply hrt h call)

/-- C9. Status invariant: in every ledger reached from the empty ledger by any
sequence of `CreatePermit`, `UpdateStatus` and `LogFileHash` calls (any
arguments, any callers, failed calls included), every stored permit has one of
the five statuses. -/
theorem status_invariant (c : Codec) (hrt : RoundTrip c) (calls : List Call)
    (permitId : String) (permit : Permit)
    (hstored : Stored c (runCalls c emptyLedger calls) permitId permit) :
    permit.Status ∈ specStatuses := by
  have hinv : StatusInvariant c (runCalls c emptyLedger calls) :=
    statusInvariant_runCalls hrt calls emptyLedger (by intro k b hkb; simp [emptyLedger] at hkb)
  obtain ⟨b, hL, hdec⟩ := hstored
  obtain ⟨p, hm, hs⟩ := hinv permitId b hL
  have := unmarshal_of_marshal hrt hm
  rw [hdec] at this
  rw [Except.ok.inj this]
  exact hs

/-- C10. Organization immutability: for every ledger, every permit stored in it
and every single call of `CreatePermit`, `UpdateStatus` or `LogFileHash` (any
arguments, any caller, successful or not), the permit is still stored after the
call and its organization is the one it had before. -/
theorem organization_immutable (c : Codec) (hrt : RoundTrip c) (L : Ledger) (call : Call)
    (permitId : String) (permit : Permit) (hstored : Stored c L permitId permit) :
    ∃ permit1, Stored c (call.apply c L).2 permitId permit1 ∧
      permit1.Organization = permit.Organization := by
  obtain ⟨v, hLv, hdecv⟩ := hstored
  cases call with
  | createPermit ctx key organization =>
    rcases CreatePermit_ledger c ctx L key organization with ⟨h, -⟩ | ⟨clientID, b, -, hnone, -, hm, h⟩
    · simp only [Call.apply, h]; exact ⟨permit, ⟨v, hLv, hdecv⟩, rfl⟩
    · have hk : permitId ≠ key := by
        intro hk
        rw [hk, hnone] at hLv
        exact Option.noConfusion hLv
      simp only [Call.apply, h]
      exact ⟨permit, ⟨v, by rw [put_other L b hk]; exact hLv, hdecv⟩, rfl⟩
  | logFileHash ctx key filename sha256 =>
    rcases LogFileHash_ledger c ctx L key filename sha256 with
      ⟨h, -⟩ | ⟨clientID, permitJSON, old, b, -, -, hL, hdec, -, hm, h⟩
    · simp only [Call.apply, h]; exact ⟨permit, ⟨v, hLv, hdecv⟩, rfl⟩
    · simp only [Call.apply, h]
      by_cases hk : permitId = key
      · subst hk
        have hold : old = permit := by
          rw [hLv] at hL
          rw [Option.some.inj hL, hdec] at hdecv
          exact Except.ok.inj hdecv
        subst hold
        exact ⟨_, stored_put_same hrt L permitId hm, rfl⟩
      · exact ⟨permit, ⟨v, by rw [put_other L b hk]; exact hLv, hdecv⟩, rfl⟩
  | updateStatus ctx key newStatus =>
    rcases UpdateStatus_ledger c ctx L key newStatus with
      ⟨h, -⟩ | ⟨clientID, permitJSON, old, b, -, -, hL, hdec, -, -, hm, h⟩
    · simp only [Call.apply, h]; exact ⟨permit, ⟨v, hLv, hdecv⟩, rfl⟩
    · simp only [Call.apply, h]
      by_cases hk : permitId = key
      · subst hk
        have hold : old = permit := by
          rw [hLv] at hL
          rw [Option.some.inj hL, hdec] at hdecv
          exact Except.ok.inj hdecv
        subst hold
        exact ⟨_, stored_put_same hrt L permitId hm, rfl⟩
      · exact ⟨permit, ⟨v, by rw [put_other L b hk]; exact hLv, hdecv⟩, rfl⟩

/-! ### Evidence log -/

theorem LogFileHash_authorized {c : Codec} (hrt : RoundTrip c) {L : Ledger} {permitId : String}
    {permit : Permit} (hstored : Stored c L permitId permit) (call : LogCall)
    (hauth : call.Authorized permit.Organization) :
    (LogFileHash c call.ctx L permitId call.filename call.sha256).1 = .ok () ∧
    ∃ permit1, Stored c (LogFileHash c call.ctx L permitId call.filename call.sha256).2
        permitId permit1 ∧
      permit1.FileHashes = permit.FileHashes ++ [call.entry] ∧
      permit1.Organization = permit.Organization := by
  obtain ⟨permitJSON, hL, hdec⟩ := hstored
  obtain ⟨⟨clientID, hid, horg⟩, hg, hp⟩ := hauth
  obtain ⟨b, hm, -⟩ := hrt (fileHashLogged call.ctx clientID call.filename call.sha256 permit)
  have hperm := hasPermission_of_clientOrg hid horg permit.Organization
  have hres : LogFileHash c call.ctx L permitId call.filename call.sha256 =
      (.ok (), L.put permitId b) := by
    have hm1 := hm
    rw [fileHashLogged] at hm1
    simp [LogFileHash, GetState, PutState, hid, hg, hL, hdec, hperm, hm1, hp]
    rfl
  rw [hres]
  refine ⟨rfl, _, stored_put_same hrt L permitId hm, ?_, rfl⟩
  simp [fileHashLogged, LogCall.entry, callerOf, hid]

theorem runLogCalls_authorized {c : Codec} (hrt : RoundTrip c) {permitId : String}
    (calls : List LogCall) :
    ∀ (L : Ledger) (permit : Permit), Stored c L permitId permit →
      (∀ call ∈ calls, call.Authorized permit.Organization) →
      (runLogCalls c permitId L calls).1 = List.replicate calls.length (.ok ()) ∧
      ∃ permit1, Stored c (runLogCalls c permitId L calls).2 permitId permit1 ∧
        permit1.FileHashes = permit.FileHashes ++ calls.map LogCall.entry ∧
        permit1.Organization = permit.Organization := by
  induction calls with
  | nil =>
    intro L permit hstored _
    exact ⟨rfl, permit, hstored, by simp, rfl⟩
  | cons call calls ih =>
    intro L permit hstored hauth
    obtain ⟨hok, permit1, hstored1, hfh1, horg1⟩ :=
      LogFileHash_authorized hrt hstored call (hauth call (List.mem_cons_self _ _))
    have hauth1 : ∀ x ∈ calls, x.Authorized permit1.Organization := by
      intro x hx
      rw [horg1]
      exact hauth x (List.mem_cons_of_mem _ hx)
    obtain ⟨hoks, permit2, hstored2, hfh2, horg2⟩ := ih _ permit1 hstored1 hauth1
    refine ⟨?_, permit2, hstored2, ?_, horg2.trans horg1⟩
    · simp only [runLogCalls, hok, hoks, List.length_cons, List.replicate_succ]
    · rw [hfh2, hfh1]
      simp

theorem CreatePermit_ok {c : Codec} (hrt : RoundTrip c) {ctx : Ctx} {L : Ledger}
    {permitId organization : String}
    (hok : (CreatePermit c ctx L permitId organization).1 = .ok ()) :
    ∃ clientID, ctx.GetID = .ok clientID ∧
      Stored c (CreatePermit c ctx L permitId organization).2 permitId
        (createdPermit ctx clientID permitId organization) := by
  rcases CreatePermit_ledger c ctx L permitId organization with
    ⟨-, hne⟩ | ⟨clientID, b, -, -, hid, hm, h⟩
  · exact absurd hok hne
  · rw [h]
    exact ⟨clientID, hid, stored_put_same hrt L permitId hm⟩

/-- The evidence log when every string is text: starting from a permit just
created by `CreatePermit`, any list of `LogFileHash` calls by members of the
permit's organization all succeed, and after the first `n` of them the permit's
`fileHashes` is the list of the entries of those calls in call order. -/
theorem LogFileHash_append_only (c : Codec) (hrt : RoundTrip c) (ctx0 : Ctx) (L0 : Ledger)
    (permitId organization : String) (calls : List LogCall)
    (hcreate : (CreatePermit c ctx0 L0 permitId organization).1 = .ok ())
    (hauth : ∀ call ∈ calls, call.Authorized organization) :
    ∀ n, n ≤ calls.length →
      (runLogCalls c permitId (CreatePermit c ctx0 L0 permitId organization).2
          (calls.take n)).1 = List.replicate n (.ok ()) ∧
      ∃ permit,
        Stored c (runLogCalls c permitId (CreatePermit c ctx0 L0 permitId organization).2
          (calls.take n)).2 permitId permit ∧
        permit.FileHashes = (calls.take n).map LogCall.entry ∧
        permit.FileHashes.length = n := by
  intro n hn
  obtain ⟨clientID, -, hstored⟩ := CreatePermit_ok hrt hcreate
  have hlen : (calls.take n).length = n := by simp [hn]
  have hauthn : ∀ call ∈ calls.take n,
      call.Authorized (createdPermit ctx0 clientID permitId organization).Organization := by
    intro call hcall
    exact hauth call (List.mem_of_mem_take hcall)
  obtain ⟨hoks, permit, hst, hfh, -⟩ :=
    runLogCalls_authorized hrt (calls.take n) _ _ hstored hauthn
  rw [hlen] at hoks
  refine ⟨hoks, permit, hst, ?_, ?_⟩
  · rw [hfh]
    simp [createdPermit]
  · rw [hfh]
    simp [createdPermit, hn]

/-! ### Concrete instances -/

theorem holds_ledgerP1 (ctx : Ctx) (hget : ctx.getStateErr = none) :
    Holds goJSON ctx ledgerP1 "P-1" permitP1 :=
  ⟨permitP1JSON, getState_ok_iff.2 ⟨hget, rfl⟩, rfl⟩

theorem stored_ledgerP1 : Stored goJSON ledgerP1 "P-1" permitP1 :=
  ⟨permitP1JSON, rfl, rfl⟩

theorem tableEdge_submitted_underReview : TableEdge "SUBMITTED" "UNDER_REVIEW" :=
  (isValidStatusTransition_eq_true_iff _ _).1 (by decide)

theorem not_tableEdge_submitted_approved : ¬ TableEdge "SUBMITTED" "APPROVED" :=
  (isValidStatusTransition_eq_false_iff _ _).1 (by decide)

theorem authorized_twoUploads : ∀ call ∈ twoUploads, call.Authorized "OrgA" := by
  intro call hcall
  simp only [twoUploads, List.mem_cons, List.mem_nil_iff, or_false] at hcall
  rcases hcall with rfl | rfl
  · exact ⟨⟨"alice@OrgA", rfl, by decide⟩, rfl, rfl⟩
  · exact ⟨⟨"carol@OrgA", rfl, by decide⟩, rfl, rfl⟩

/-- C1, instance: alice of `OrgA` asks to move the `SUBMITTED` permit `P-1` to
`APPROVED`. -/
theorem UpdateStatus_transition_closure_witness :
    UpdateStatus goJSON aliceCtx ledgerP1 "P-1" "APPROVED" =
        (.error "invalid status transition from SUBMITTED to APPROVED", ledgerP1) ∧
      Holds goJSON aliceCtx (UpdateStatus goJSON aliceCtx ledgerP1 "P-1" "APPROVED").2
        "P-1" permitP1 :=
  UpdateStatus_transition_closure goJSON aliceCtx ledgerP1 "P-1" "APPROVED" "alice@OrgA"
    permitP1 (holds_ledgerP1 aliceCtx rfl) rfl (by decide) not_tableEdge_submitted_approved

/-- C2, instance: `DRAFT` is not a status, and no transition leaves it. -/
theorem isValidStatusTransition_spec_witness :
    "DRAFT" ∉ specStatuses ∧ isValidStatusTransition "DRAFT" "SUBMITTED" = false :=
  ⟨by decide, (isValidStatusTransition_spec "DRAFT" "SUBMITTED").2.2 (by decide)⟩

/-- C3 (as stated) fails: `P-1` is `SUBMITTED` and owned by `OrgA`; the caller
`bob@OrgB` asks for `APPROVED`. The call returns the invalid-transition error,
not the authorization error. -/
theorem UpdateStatus_authorization_first_counterexample :
    Holds goJSON bobCtx ledgerP1 "P-1" permitP1 ∧
    clientOrgOf "bob@OrgB" = some "OrgB" ∧ "OrgB" ≠ permitP1.Organization ∧
    UpdateStatus goJSON bobCtx ledgerP1 "P-1" "APPROVED" =
      (.error "invalid status transition from SUBMITTED to APPROVED", ledgerP1) ∧
    (UpdateStatus goJSON bobCtx ledgerP1 "P-1" "APPROVED").1 ≠
      .error updateAuthorizationError := by
  have hrun : UpdateStatus goJSON bobCtx ledgerP1 "P-1" "APPROVED" =
      (.error "invalid status transition from SUBMITTED to APPROVED", ledgerP1) := rfl
  refine ⟨holds_ledgerP1 bobCtx rfl, by decide, by decide, hrun, ?_⟩
  rw [hrun]
  intro h
  exact absurd (Outcome.error.inj h) (by decide)

/-- C3 (amended), instance: bob of `OrgB` asks for the allowed move to
`UNDER_REVIEW` on the `OrgA` permit `P-1`. -/
theorem UpdateStatus_other_organization_witness :
    UpdateStatus goJSON bobCtx ledgerP1 "P-1" "UNDER_REVIEW" =
      (.error "user does not have permission to update status for this permit", ledgerP1) :=
  (UpdateStatus_other_organization goJSON bobCtx ledgerP1 "P-1" "UNDER_REVIEW" "bob@OrgB"
    "OrgB" permitP1 (holds_ledgerP1 bobCtx rfl) rfl (by decide) (by decide)).1
    tableEdge_submitted_underReview

/-- C4, instance: bob of `OrgB` uploads to the `OrgA` permit `P-1`. -/
theorem LogFileHash_other_organization_witness :
    LogFileHash goJSON bobCtx ledgerP1 "P-1" "plan.pdf" "9f86d081" =
        (.error "user does not have permission to upload files for this permit", ledgerP1) ∧
      Holds goJSON bobCtx (LogFileHash goJSON bobCtx ledgerP1 "P-1" "plan.pdf" "9f86d081").2
        "P-1" permitP1 :=
  LogFileHash_other_organization goJSON bobCtx ledgerP1 "P-1" "plan.pdf" "9f86d081" "bob@OrgB"
    "OrgB" permitP1 (holds_ledgerP1 bobCtx rfl) rfl (by decide) (by decide)

/-- C5, instance: `P-1` is created a second time, by bob and for `OrgB`. -/
theorem CreatePermit_already_exists_witness :
    CreatePermit goJSON bobCtx ledgerP1 "P-1" "OrgB" =
      (.error "permit P-1 already exists", ledgerP1) :=
  CreatePermit_already_exists goJSON bobCtx ledgerP1 "P-1" "OrgB" permitP1JSON rfl

/-- C9, instance: a creation, an allowed update and a rejected update. -/
theorem status_invariant_witness :
    Stored goJSON
        (runCalls goJSON emptyLedger
          [.createPermit aliceCtx "P-1" "OrgA", .updateStatus carolCtx "P-1" "UNDER_REVIEW",
           .updateStatus bobCtx "P-1" "BOGUS"])
        "P-1"
        { PermitID := "P-1", FileHashes := [], Status := "UNDER_REVIEW",
          CreatedBy := "alice@OrgA", CreatedAt := "seconds:1700000000",
          UpdatedBy := "carol@OrgA", UpdatedAt := "seconds:1700000200",
          Organization := "OrgA" } ∧
      "UNDER_REVIEW" ∈ specStatuses :=
  ⟨⟨_, rfl, rfl⟩,
    status_invariant goJSON roundTrip_goJSON
      [.createPermit aliceCtx "P-1" "OrgA", .updateStatus carolCtx "P-1" "UNDER_REVIEW",
       .updateStatus bobCtx "P-1" "BOGUS"]
      "P-1" _ ⟨_, rfl, rfl⟩⟩

/-- C10, instance: a successful `UpdateStatus` on `P-1`. -/
theorem organization_immutable_witness :
    ∃ permit1,
      Stored goJSON ((Call.updateStatus carolCtx "P-1" "UNDER_REVIEW").apply goJSON ledgerP1).2
        "P-1" permit1 ∧
      permit1.Organization = "OrgA" :=
  organization_immutable goJSON roundTrip_goJSON ledgerP1
    (.updateStatus carolCtx "P-1" "UNDER_REVIEW") "P-1" permitP1 stored_ledgerP1

/-! ### Evidence monotonicity -/

theorem stored_after_apply {c : Codec} (hrt : RoundTrip c) (L : Ledger) (call : Call)
    {permitId : String} {permit : Permit} (hstored : Stored c L permitId permit) :
    ∃ permit1, Stored c (call.apply c L).2 permitId permit1 ∧
      (permit1 = permit ∨
       (∃ ctx clientID newStatus, isValidStatusTransition permit.Status newStatus = true ∧
          permit1 = statusUpdated ctx clientID newStatus permit) ∨
       (∃ ctx clientID filename sha256,
          permit1 = fileHashLogged ctx clientID filename sha256 permit)) := by
  obtain ⟨v, hLv, hdecv⟩ := hstored
  cases call with
  | createPermit ctx key organization =>
    rcases CreatePermit_ledger c ctx L key organization with
      ⟨h, -⟩ | ⟨clientID, b, -, hnone, -, hm, h⟩
    · simp only [Call.apply, h]; exact ⟨permit, ⟨v, hLv, hdecv⟩, Or.inl rfl⟩
    · have hk : permitId ≠ key := by
        intro hk
        rw [hk, hnone] at hLv
        exact Option.noConfusion hLv
      simp only [Call.apply, h]
      exact ⟨permit, ⟨v, by rw [put_other L b hk]; exact hLv, hdecv⟩, Or.inl rfl⟩
  | logFileHash ctx key filename sha256 =>
    rcases LogFileHash_ledger c ctx L key filename sha256 with
      ⟨h, -⟩ | ⟨clientID, permitJSON, old, b, -, -, hL, hdec, -, hm, h⟩
    · simp only [Call.apply, h]; exact ⟨permit, ⟨v, hLv, hdecv⟩, Or.inl rfl⟩
    · simp only [Call.apply, h]
      by_cases hk : permitId = key
      · subst hk
        have hold : old = permit := by
          rw [hLv] at hL
          rw [Option.some.inj hL, hdec] at hdecv
          exact Except.ok.inj hdecv
        subst hold
        exact ⟨_, stored_put_same hrt L permitId hm, Or.inr (Or.inr ⟨ctx, clientID, filename,
          sha256, rfl⟩)⟩
      · exact ⟨permit, ⟨v, by rw [put_other L b hk]; exact hLv, hdecv⟩, Or.inl rfl⟩
  | updateStatus ctx key newStatus =>
    rcases UpdateStatus_ledger c ctx L key newStatus with
      ⟨h, -⟩ | ⟨clientID, permitJSON, old, b, -, -, hL, hdec, hv, -, hm, h⟩
    · simp only [Call.apply, h]; exact ⟨permit, ⟨v, hLv, hdecv⟩, Or.inl rfl⟩
    · simp only [Call.apply, h]
      by_cases hk : permitId = key
      · subst hk
        have hold : old = permit := by
          rw [hLv] at hL
          rw [Option.some.inj hL, hdec] at hdecv
          exact Except.ok.inj hdecv
        subst hold
        exact ⟨_, stored_put_same hrt L permitId hm, Or.inr (Or.inl ⟨ctx, clientID, newStatus,
          hv, rfl⟩)⟩
      · exact ⟨permit, ⟨v, by rw [put_other L b hk]; exact hLv, hdecv⟩, Or.inl rfl⟩

/-- C11. Evidence monotonicity: for every ledger, every permit stored in it and
every single call of `CreatePermit`, `UpdateStatus` or `LogFileHash` (any
arguments and caller), the permit is still stored after the call and its
`fileHashes` before the call is a prefix of its `fileHashes` after it; so the
length does not decrease and no entry is changed or removed. -/
theorem evidence_monotone (c : Codec) (hrt : RoundTrip c) (L : Ledger) (call : Call)
    (permitId : String) (permit : Permit) (hstored : Stored c L permitId permit) :
    ∃ permit1, Stored c (call.apply c L).2 permitId permit1 ∧
      permit.FileHashes <+: permit1.FileHashes ∧
      permit.FileHashes.length ≤ permit1.FileHashes.length ∧
      ∀ i, i < permit.FileHashes.length → permit1.FileHashes[i]? = permit.FileHashes[i]? := by
  obtain ⟨permit1, hst, hcases⟩ := stored_after_apply hrt L call hstored
  have hpre : permit.FileHashes <+: permit1.FileHashes := by
    rcases hcases with h | ⟨ctx, clientID, newStatus, -, h⟩ | ⟨ctx, clientID, filename, sha256, h⟩
    · rw [h]
    · rw [h]; exact List.prefix_refl _
    · rw [h]; exact List.prefix_append _ _
  refine ⟨permit1, hst, hpre, hpre.length_le, ?_⟩
  intro i hi
  obtain ⟨t, ht⟩ := hpre
  rw [← ht, List.getElem?_append_left hi]

set_option maxRecDepth 100000 in
theorem stored_ledgerP1OneFile : Stored goJSON ledgerP1OneFile "P-1" permitP1OneFile :=
  ⟨permitP1OneFileJSON, rfl, rfl⟩

set_option maxRecDepth 100000 in
/-- C11, instance: `P-1` holds the entry of `plan.pdf`; carol uploads
`survey.pdf`. The permit stored afterwards holds the two entries in that order,
so the old list is a prefix of the new one and its entry is unchanged. -/
theorem evidence_monotone_witness :
    Stored goJSON
        ((Call.logFileHash carolCtx "P-1" "survey.pdf" "2c26b46b").apply goJSON
          ledgerP1OneFile).2 "P-1"
        { permitP1OneFile with
          FileHashes := [planEntry, surveyEntry]
          UpdatedBy := "carol@OrgA"
          UpdatedAt := "seconds:1700000200" } ∧
    ∃ permit1,
      Stored goJSON ((Call.logFileHash carolCtx "P-1" "survey.pdf" "2c26b46b").apply goJSON
        ledgerP1OneFile).2 "P-1" permit1 ∧
      [planEntry] <+: permit1.FileHashes ∧
      [planEntry].length ≤ permit1.FileHashes.length ∧
      ∀ i, i < [planEntry].length → permit1.FileHashes[i]? = [planEntry][i]? :=
  ⟨⟨_, rfl, rfl⟩,
    evidence_monotone goJSON roundTrip_goJSON ledgerP1OneFile
      (.logFileHash carolCtx "P-1" "survey.pdf" "2c26b46b") "P-1" permitP1OneFile
      stored_ledgerP1OneFile⟩

/-! ### Deriving the caller's organization -/

theorem splitChars_ne_nil (sep : Char) (cs : List Char) : splitChars sep cs ≠ [] := by
  cases cs with
  | nil => simp [splitChars]
  | cons c cs =>
    rw [splitChars]
    split_ifs
    · simp
    · split <;> simp

theorem splitChars_of_not_mem (sep : Char) (cs : List Char) (h : sep ∉ cs) :
    splitChars sep cs = [cs] := by
  induction cs with
  | nil => rfl
  | cons c cs ih =>
    have hc : c ≠ sep := fun hc => h (by simp [hc])
    have hcs : sep ∉ cs := fun hm => h (List.mem_cons_of_mem _ hm)
    rw [splitChars, if_neg hc, ih hcs]

theorem splitChars_head (sep : Char) (cs : List Char) :
    (splitChars sep cs)[0]? = some (cs.takeWhile (fun ch => ch != sep)) := by
  induction cs with
  | nil => rfl
  | cons c cs ih =>
    by_cases hc : c = sep
    · subst hc
      simp [splitChars]
    · rw [splitChars, if_neg hc]
      have hb : (c != sep) = true := by simpa using hc
      cases hs : splitChars sep cs with
      | nil => exact absurd hs (splitChars_ne_nil sep cs)
      | cons piece pieces =>
        rw [hs] at ih
        simp only [List.getElem?_cons_zero, Option.some.injEq] at ih
        simp [List.takeWhile_cons, hb, ih]

theorem splitChars_second (sep : Char) (cs : List Char) (h : sep ∈ cs) :
    (splitChars sep cs)[1]? =
      some (((cs.dropWhile (fun ch => ch != sep)).drop 1).takeWhile (fun ch => ch != sep)) := by
  induction cs with
  | nil => simp at h
  | cons c cs ih =>
    by_cases hc : c = sep
    · subst hc
      have := splitChars_head c cs
      simp [splitChars, List.dropWhile_cons, this]
    · have hcs : sep ∈ cs := by
        rcases List.mem_cons.1 h with h1 | h1
        · exact absurd h1.symm hc
        · exact h1
      have hb : (c != sep) = true := by simpa using hc
      rw [splitChars, if_neg hc]
      cases hs : splitChars sep cs with
      | nil => exact absurd hs (splitChars_ne_nil sep cs)
      | cons piece pieces =>
        have ih1 := ih hcs
        rw [hs] at ih1
        simp only [List.getElem?_cons_succ] at ih1
        simp [List.dropWhile_cons, hb, ih1]

theorem clientOrgOf_of_not_mem (clientID : String) (h : '@' ∉ clientID.data) :
    clientOrgOf clientID = none := by
  simp [clientOrgOf, stringsSplitAt, splitChars_of_not_mem '@' clientID.data h]

theorem clientOrgOf_of_mem (clientID : String) (h : '@' ∈ clientID.data) :
    clientOrgOf clientID = some (String.mk (textAfterFirstAt clientID.data)) := by
  simp [clientOrgOf, stringsSplitAt, splitChars_second '@' clientID.data h, textAfterFirstAt]

theorem textAfterFirstAt_member_org (member org : List Char) (hm : '@' ∉ member)
    (ho : '@' ∉ org) : textAfterFirstAt (member ++ '@' :: org) = org := by
  induction member with
  | nil =>
    have hall : ∀ ch ∈ org, (ch != '@') = true := by
      intro ch hch
      have : ch ≠ '@' := fun h => ho (h ▸ hch)
      simpa using this
    simp [textAfterFirstAt, List.dropWhile_cons, List.takeWhile_eq_self_iff.2 hall]
  | cons c member ih =>
    have hc : c ≠ '@' := fun h => hm (by simp [h])
    have hb : (c != '@') = true := by simpa using hc
    have hrest : '@' ∉ member := fun h => hm (List.mem_cons_of_mem _ h)
    have ih1 := ih hrest
    simp only [textAfterFirstAt, List.cons_append, List.dropWhile_cons, hb, if_true] at ih1 ⊢
    exact ih1

/-- C20. What `hasPermission` compares. When the caller identifier resolves and
contains an `@`, the answer is true exactly when the text between the first `@`
and the next `@` (or the end) equals the organization argument; so for an
identifier `member@org` with no `@` inside `member` or `org` it is true exactly
for `org`. When the identity does not resolve the answer is false. -/
theorem hasPermission_compares (ctx : Ctx) (organization : String) :
    (∀ clientID, ctx.GetID = .ok clientID → '@' ∈ clientID.data →
      hasPermission ctx organization =
        .ok (decide (String.mk (textAfterFirstAt clientID.data) = organization))) ∧
    (∀ member org : String, '@' ∉ member.data → '@' ∉ org.data →
      ctx.GetID = .ok (member ++ "@" ++ org) →
      hasPermission ctx organization = .ok (decide (org = organization))) ∧
    (∀ e, ctx.GetID = .error e → hasPermission ctx organization = .ok false) := by
  refine ⟨?_, ?_, ?_⟩
  · intro clientID hid hat
    rw [hasPermission_of_clientOrg hid (clientOrgOf_of_mem clientID hat) organization]
    congr 1
  · intro member org hm ho hid
    have hdata : (member ++ "@" ++ org).data = member.data ++ '@' :: org.data := by
      simp [String.data_append]
    have hat : '@' ∈ (member ++ "@" ++ org).data := by
      rw [hdata]; simp
    have hseg : String.mk (textAfterFirstAt (member ++ "@" ++ org).data) = org := by
      rw [hdata, textAfterFirstAt_member_org member.data org.data hm ho]
    rw [hasPermission_of_clientOrg hid (clientOrgOf_of_mem _ hat) organization, hseg]
    congr 1
  · intro e hid
    simp [hasPermission, hid]

/-- C20, instance: `alice@OrgA` is a member of `OrgA` and of no other
organization; a second `@` ends the compared text; an unresolved identity is a
member of nothing. -/
theorem hasPermission_compares_witness :
    hasPermission aliceCtx "OrgA" = .ok true ∧
    hasPermission aliceCtx "OrgB" = .ok false ∧
    hasPermission { aliceCtx with GetID := .ok "alice@OrgA@example.com" } "OrgA" = .ok true ∧
    hasPermission anonCtx "OrgA" = .ok false :=
  ⟨(hasPermission_compares aliceCtx "OrgA").2.1 "alice" "OrgA" (by decide) (by decide) rfl,
   (hasPermission_compares aliceCtx "OrgB").2.1 "alice" "OrgA" (by decide) (by decide) rfl,
   (hasPermission_compares { aliceCtx with GetID := .ok "alice@OrgA@example.com" } "OrgA").1
     "alice@OrgA@example.com" rfl (by decide),
   (hasPermission_compares anonCtx "OrgA").2.2 "no identity" rfl⟩

/-! ### Callers without an organization, and missing permits -/

theorem hasPermission_of_not_mem {ctx : Ctx} {clientID : String}
    (hid : ctx.GetID = .ok clientID) (hno : '@' ∉ clientID.data) (organization : String) :
    hasPermission ctx organization = .error indexOutOfRange := by
  simp [hasPermission, hid, clientOrgOf_of_not_mem clientID hno, indexOutOfRange]

/-- C12 (what the code does). For a caller identifier without `@`, on a stored
permit, `LogFileHash` ends in the index-out-of-range panic instead of returning
an error, and so does `UpdateStatus` when the requested transition is allowed;
the ledger is not written. -/
theorem LogFileHash_panics_without_delimiter (c : Codec) (ctx : Ctx) (L : Ledger)
    (permitId filename sha256 newStatus clientID : String) (permit : Permit)
    (hholds : Holds c ctx L permitId permit)
    (hid : ctx.GetID = .ok clientID)
    (hno : '@' ∉ clientID.data) :
    LogFileHash c ctx L permitId filename sha256 = (.panic indexOutOfRange, L) ∧
    (TableEdge permit.Status newStatus →
      UpdateStatus c ctx L permitId newStatus = (.panic indexOutOfRange, L)) := by
  obtain ⟨permitJSON, hget, hdec⟩ := hholds
  have hperm := hasPermission_of_not_mem hid hno permit.Organization
  refine ⟨?_, ?_⟩
  · simp [LogFileHash, hid, hget, hdec, hperm]
  · intro hedge
    have htrue := (isValidStatusTransition_eq_true_iff _ _).2 hedge
    simp [UpdateStatus, hid, hget, hdec, htrue, hperm]

/-- C12, failing input: the caller `dave` uploads to, and then asks for an
allowed status change of, the stored permit `P-1`. -/
theorem LogFileHash_panics_without_delimiter_witness :
    LogFileHash goJSON daveCtx ledgerP1 "P-1" "plan.pdf" "9f86d081" =
      (.panic "runtime error: index out of range [1] with length 1", ledgerP1) ∧
    (TableEdge permitP1.Status "UNDER_REVIEW" →
      UpdateStatus goJSON daveCtx ledgerP1 "P-1" "UNDER_REVIEW" =
        (.panic "runtime error: index out of range [1] with length 1", ledgerP1)) :=
  LogFileHash_panics_without_delimiter goJSON daveCtx ledgerP1 "P-1" "plan.pdf" "9f86d081"
    "UNDER_REVIEW" "dave" permitP1 (holds_ledgerP1 daveCtx rfl) rfl (by decide)

/-- C17 (as stated) fails: `P-404` is absent from the empty ledger and the
caller's identity does not resolve. Both operations return the identity error,
not the not-found error. -/
theorem missing_permit_any_caller_counterexample :
    GetState anonCtx emptyLedger "P-404" = .ok none ∧
    UpdateStatus goJSON anonCtx emptyLedger "P-404" "UNDER_REVIEW" =
      (.error "failed to get client identity: no identity", emptyLedger) ∧
    LogFileHash goJSON anonCtx emptyLedger "P-404" "plan.pdf" "9f86d081" =
      (.error "failed to get client identity: no identity", emptyLedger) ∧
    (UpdateStatus goJSON anonCtx emptyLedger "P-404" "UNDER_REVIEW").1 ≠
      .error (notFoundError "P-404") ∧
    (LogFileHash goJSON anonCtx emptyLedger "P-404" "plan.pdf" "9f86d081").1 ≠
      .error (notFoundError "P-404") := by
  have h1 : UpdateStatus goJSON anonCtx emptyLedger "P-404" "UNDER_REVIEW" =
      (.error "failed to get client identity: no identity", emptyLedger) := rfl
  have h2 : LogFileHash goJSON anonCtx emptyLedger "P-404" "plan.pdf" "9f86d081" =
      (.error "failed to get client identity: no identity", emptyLedger) := rfl
  refine ⟨rfl, h1, h2, ?_, ?_⟩
  · rw [h1]
    intro h
    exact absurd (Outcome.error.inj h) (by decide)
  · rw [h2]
    intro h
    exact absurd (Outcome.error.inj h) (by decide)

/-- C17 (amended). For an id absent from the ledger and a caller whose identity
resolves, `UpdateStatus` and `LogFileHash` return the not-found error and leave
the ledger unchanged, whatever the other arguments and the caller's
organization are. -/
theorem missing_permit_not_found (c : Codec) (ctx : Ctx) (L : Ledger)
    (permitId newStatus filename sha256 clientID : String)
    (habsent : GetState ctx L permitId = .ok none)
    (hid : ctx.GetID = .ok clientID) :
    UpdateStatus c ctx L permitId newStatus = (.error (notFoundError permitId), L) ∧
    LogFileHash c ctx L permitId filename sha256 = (.error (notFoundError permitId), L) := by
  constructor
  · simp [UpdateStatus, hid, habsent, notFoundError]
  · simp [LogFileHash, hid, habsent, notFoundError]

/-- C17 (amended), instance: `dave`, whose identifier resolves but names no
organization, addresses the absent `P-404`. -/
theorem missing_permit_not_found_witness :
    UpdateStatus goJSON daveCtx ledgerP1 "P-404" "UNDER_REVIEW" =
      (.error "permit P-404 does not exist", ledgerP1) ∧
    LogFileHash goJSON daveCtx ledgerP1 "P-404" "plan.pdf" "9f86d081" =
      (.error "permit P-404 does not exist", ledgerP1) :=
  missing_permit_not_found goJSON daveCtx ledgerP1 "P-404" "UNDER_REVIEW" "plan.pdf" "9f86d081"
    "dave" rfl rfl

/-! ### Walking the transition graph -/

theorem UpdateStatus_authorized {c : Codec} (hrt : RoundTrip c) {L : Ledger} {permitId : String}
    {permit : Permit} (hstored : Stored c L permitId permit) (ctx : Ctx) (newStatus : String)
    (hmem : ctx.MemberOf permit.Organization)
    (hvalid : isValidStatusTransition permit.Status newStatus = true) :
    (UpdateStatus c ctx L permitId newStatus).1 = .ok () ∧
    ∃ permit1, Stored c (UpdateStatus c ctx L permitId newStatus).2 permitId permit1 ∧
      permit1.Status = newStatus ∧ permit1.Organization = permit.Organization := by
  obtain ⟨permitJSON, hL, hdec⟩ := hstored
  obtain ⟨⟨clientID, hid, horg⟩, hg, hp⟩ := hmem
  obtain ⟨b, hm, -⟩ := hrt (statusUpdated ctx clientID newStatus permit)
  have hperm := hasPermission_of_clientOrg hid horg permit.Organization
  have hres : UpdateStatus c ctx L permitId newStatus = (.ok (), L.put permitId b) := by
    have hm1 := hm
    rw [statusUpdated] at hm1
    simp [UpdateStatus, GetState, PutState, hid, hg, hL, hdec, hvalid, hperm, hm1, hp]
    rfl
  rw [hres]
  exact ⟨rfl, _, stored_put_same hrt L permitId hm, rfl, rfl⟩

theorem UpdateStatus_fails_of_invalid {c : Codec} {L : Ledger} {permitId : String}
    {permit : Permit} (hstored : Stored c L permitId permit) (ctx : Ctx) (newStatus : String)
    (hinvalid : isValidStatusTransition permit.Status newStatus = false) :
    (UpdateStatus c ctx L permitId newStatus).1 ≠ .ok () ∧
      (UpdateStatus c ctx L permitId newStatus).2 = L := by
  rcases UpdateStatus_ledger c ctx L permitId newStatus with
    ⟨h, hne⟩ | ⟨clientID, permitJSON, old, b, -, -, hL, hdec, hv, -, -, -⟩
  · exact ⟨hne, h⟩
  · obtain ⟨v, hLv, hdecv⟩ := hstored
    rw [hLv] at hL
    rw [Option.some.inj hL, hdec] at hdecv
    rw [Except.ok.inj hdecv, hinvalid] at hv
    exact Bool.noConfusion hv

/-- C18. Transition graph coverage: from a permit just created by
`CreatePermit`, the four successive calls `UpdateStatus` to `UNDER_REVIEW`,
`APPROVED`, `EXPIRED` and `SUBMITTED` by members of the permit's organization
all succeed and leave the permit `SUBMITTED`; and on any stored permit whose
status is `SUBMITTED`, `UpdateStatus` to `APPROVED` fails for every caller and
leaves the ledger, hence the status, as it was. -/
theorem transition_graph_coverage (c : Codec) (hrt : RoundTrip c) (ctx0 : Ctx) (L0 : Ledger)
    (permitId organization : String) (ctx1 ctx2 ctx3 ctx4 : Ctx)
    (hcreate : (CreatePermit c ctx0 L0 permitId organization).1 = .ok ())
    (h1 : ctx1.MemberOf organization) (h2 : ctx2.MemberOf organization)
    (h3 : ctx3.MemberOf organization) (h4 : ctx4.MemberOf organization) :
    (runUpdateCalls c permitId (CreatePermit c ctx0 L0 permitId organization).2
        [(ctx1, "UNDER_REVIEW"), (ctx2, "APPROVED"), (ctx3, "EXPIRED"), (ctx4, "SUBMITTED")]).1 =
      [.ok (), .ok (), .ok (), .ok ()] ∧
    (∃ permit,
      Stored c (runUpdateCalls c permitId (CreatePermit c ctx0 L0 permitId organization).2
        [(ctx1, "UNDER_REVIEW"), (ctx2, "APPROVED"), (ctx3, "EXPIRED"), (ctx4, "SUBMITTED")]).2
        permitId permit ∧
      permit.Status = "SUBMITTED") ∧
    (∀ (ctx : Ctx) (L : Ledger) (permit : Permit), Stored c L permitId permit →
      permit.Status = "SUBMITTED" →
      (UpdateStatus c ctx L permitId "APPROVED").1 ≠ .ok () ∧
        (UpdateStatus c ctx L permitId "APPROVED").2 = L) := by
  obtain ⟨clientID, -, hst0⟩ := CreatePermit_ok hrt hcreate
  have horg0 : (createdPermit ctx0 clientID permitId organization).Organization = organization :=
    rfl
  have hs0 : (createdPermit ctx0 clientID permitId organization).Status = "SUBMITTED" := rfl
  obtain ⟨hok1, p1, hst1, hs1, horg1⟩ :=
    UpdateStatus_authorized hrt hst0 ctx1 "UNDER_REVIEW" (by rw [horg0]; exact h1)
      (by rw [hs0]; decide)
  obtain ⟨hok2, p2, hst2, hs2, horg2⟩ :=
    UpdateStatus_authorized hrt hst1 ctx2 "APPROVED" (by rw [horg1, horg0]; exact h2)
      (by rw [hs1]; decide)
  obtain ⟨hok3, p3, hst3, hs3, horg3⟩ :=
    UpdateStatus_authorized hrt hst2 ctx3 "EXPIRED" (by rw [horg2, horg1, horg0]; exact h3)
      (by rw [hs2]; decide)
  obtain ⟨hok4, p4, hst4, hs4, -⟩ :=
    UpdateStatus_authorized hrt hst3 ctx4 "SUBMITTED"
      (by rw [horg3, horg2, horg1, horg0]; exact h4) (by rw [hs3]; decide)
  refine ⟨?_, ⟨p4, ?_, hs4⟩, ?_⟩
  · simp only [runUpdateCalls, hok1, hok2, hok3, hok4]
  · simpa only [runUpdateCalls] using hst4
  · intro ctx L permit hstored hstatus
    exact UpdateStatus_fails_of_invalid hstored ctx "APPROVED" (by rw [hstatus]; decide)

theorem memberOf_orgA_alice : aliceCtx.MemberOf "OrgA" :=
  ⟨⟨"alice@OrgA", rfl, by decide⟩, rfl, rfl⟩

theorem memberOf_orgA_carol : carolCtx.MemberOf "OrgA" :=
  ⟨⟨"carol@OrgA", rfl, by decide⟩, rfl, rfl⟩

/-- C18, instance: `P-1` is created by alice for `OrgA` and walked round the
graph by carol and alice; bob then asks for `SUBMITTED` to `APPROVED`. -/
theorem transition_graph_coverage_witness :
    (runUpdateCalls goJSON "P-1" (CreatePermit goJSON aliceCtx emptyLedger "P-1" "OrgA").2
        [(carolCtx, "UNDER_REVIEW"), (aliceCtx, "APPROVED"), (carolCtx, "EXPIRED"),
         (aliceCtx, "SUBMITTED")]).1 =
      [.ok (), .ok (), .ok (), .ok ()] ∧
    (∃ permit,
      Stored goJSON (runUpdateCalls goJSON "P-1"
        (CreatePermit goJSON aliceCtx emptyLedger "P-1" "OrgA").2
        [(carolCtx, "UNDER_REVIEW"), (aliceCtx, "APPROVED"), (carolCtx, "EXPIRED"),
         (aliceCtx, "SUBMITTED")]).2 "P-1" permit ∧
      permit.Status = "SUBMITTED") ∧
    (UpdateStatus goJSON bobCtx ledgerP1 "P-1" "APPROVED").1 ≠ .ok () ∧
    (UpdateStatus goJSON bobCtx ledgerP1 "P-1" "APPROVED").2 = ledgerP1 :=
  have h := transition_graph_coverage goJSON roundTrip_goJSON aliceCtx emptyLedger "P-1" "OrgA"
    carolCtx aliceCtx carolCtx aliceCtx rfl memberOf_orgA_carol memberOf_orgA_alice
    memberOf_orgA_carol memberOf_orgA_alice
  ⟨h.1, h.2.1, h.2.2 bobCtx ledgerP1 permitP1 stored_ledgerP1 rfl⟩

/-! ### Query operations -/

theorem historyLoop_values (c : Codec) (values : List String) :
    ∀ history : List Permit,
      historyLoop c (values.map .ok) history = .ok (history ++ values.filterMap (decoded c)) := by
  induction values with
  | nil => intro history; simp [historyLoop]
  | cons value values ih =>
    intro history
    cases hdec : c.Unmarshal value with
    | ok permit =>
      simp [historyLoop, hdec, ih, decoded, List.filterMap_cons]
    | error e =>
      simp [historyLoop, hdec, ih, decoded, List.filterMap_cons]

/-- C14. Best-effort history replay: when the history iterator yields the
versions `values` without an iterator error, `GetPermitHistory` succeeds and
returns exactly the decodings of the versions that decode, in the same order;
the versions that do not decode are skipped and never make the call fail. -/
theorem GetPermitHistory_best_effort (c : Codec)
    (GetHistoryForKey : String → Except String Iterator) (permitId : String)
    (values : List String)
    (hiter : GetHistoryForKey permitId = .ok (values.map .ok)) :
    GetPermitHistory c GetHistoryForKey permitId = .ok (values.filterMap (decoded c)) := by
  simp [GetPermitHistory, hiter, historyLoop_values]

/-- C14, instance: of four versions of `P-1`, the first and the third are not
records; the call returns the other two, in order. -/
theorem GetPermitHistory_best_effort_witness :
    GetPermitHistory goJSON (historyOfVersions damagedHistory) "P-1" =
      .ok [permitP1, permitP1Review] :=
  GetPermitHistory_best_effort goJSON (historyOfVersions damagedHistory) "P-1"
    ["not json", permitP1JSON, "\x7b\"permitId\":", permitP1ReviewJSON] rfl

theorem isValidStatus_iff (status : String) :
    isValidStatus status = true ↔ status ∈ specStatuses := by
  simp [isValidStatus, specStatuses, StatusSubmitted, StatusUnderReview, StatusApproved,
    StatusRejected, StatusExpired, or_assoc]

/-- C15. `GetPermitsByStatus` validates its argument: for a status outside the
five recognized values it returns the validation error and sends no query to
the store; for each of the five values the validation passes, the one query for
that status is sent, and the result is the outcome of reading the store's
answer. -/
theorem GetPermitsByStatus_validation (c : Codec)
    (GetQueryResult : String → Except String Iterator) (status : String) :
    (status ∉ specStatuses →
      GetPermitsByStatus c GetQueryResult status = (.error (validationError status), [])) ∧
    (status ∈ specStatuses →
      (GetPermitsByStatus c GetQueryResult status).2 = [statusQuery status] ∧
      (GetPermitsByStatus c GetQueryResult status).1 =
        match GetQueryResult (statusQuery status) with
        | .error e => .error e
        | .ok resultsIterator => queryLoop c resultsIterator []) := by
  constructor
  · intro h
    have hv : isValidStatus status = false := by
      rw [Bool.eq_false_iff, Ne, isValidStatus_iff]
      exact h
    simp [GetPermitsByStatus, hv, validationError]
  · intro h
    have hv : isValidStatus status = true := (isValidStatus_iff status).2 h
    cases hq : GetQueryResult (statusQuery status) <;> simp [GetPermitsByStatus, hv, hq]

/-- C15, instance: `BOGUS` is refused without a query; `SUBMITTED` is queried,
and a store that finds `P-1` gives the list with that record. -/
theorem GetPermitsByStatus_validation_witness :
    GetPermitsByStatus goJSON (fun _ => .ok [.ok permitP1JSON]) "BOGUS" =
      (.error "invalid status: BOGUS", []) ∧
    (GetPermitsByStatus goJSON (fun _ => .ok [.ok permitP1JSON]) "SUBMITTED").2 =
      ["\x7b\"selector\":\x7b\"status\":\"SUBMITTED\"\x7d\x7d"] ∧
    (GetPermitsByStatus goJSON (fun _ => .ok [.ok permitP1JSON]) "SUBMITTED").1 =
      .ok [permitP1] :=
  ⟨(GetPermitsByStatus_validation goJSON (fun _ => .ok [.ok permitP1JSON]) "BOGUS").1
      (by decide),
   ((GetPermitsByStatus_validation goJSON (fun _ => .ok [.ok permitP1JSON]) "SUBMITTED").2
      (by decide)).1,
   ((GetPermitsByStatus_validation goJSON (fun _ => .ok [.ok permitP1JSON]) "SUBMITTED").2
      (by decide)).2⟩

/-! ### History -/

theorem world_apply_of_failed {c : Codec} {W : World} {call : Call}
    (hne : (call.apply c W.ledger).1 ≠ .ok ()) (hL : (call.apply c W.ledger).2 = W.ledger) :
    W.apply c call = W := by
  unfold World.apply
  cases h : (call.apply c W.ledger).1 with
  | ok u => cases u; exact absurd h hne
  | error e => simp [hL]
  | panic e => simp [hL]

theorem world_apply_of_ok {c : Codec} {W : World} {call : Call} {b : String}
    (h : call.apply c W.ledger = (.ok (), W.ledger.put call.key b)) :
    W.apply c call =
      { ledger := W.ledger.put call.key b
        versions := fun k => if k = call.key then W.versions k ++ [b] else W.versions k } := by
  unfold World.apply
  rw [h]
  simp [Ledger.put]

theorem call_effect (c : Codec) (L : Ledger) (call : Call) :
    ((call.apply c L).1 ≠ .ok () ∧ (call.apply c L).2 = L) ∨
    ∃ b written, call.apply c L = (.ok (), L.put call.key b) ∧ c.Marshal written = .ok b ∧
      ((L call.key = none ∧ written.Status = "SUBMITTED") ∨
       ∃ permitJSON old, L call.key = some permitJSON ∧ c.Unmarshal permitJSON = .ok old ∧
         StayOrStep old.Status written.Status) := by
  cases call with
  | createPermit ctx key organization =>
    rcases CreatePermit_ledger c ctx L key organization with
      ⟨h, hne⟩ | ⟨clientID, b, -, hnone, -, hm, h⟩
    · exact Or.inl ⟨hne, h⟩
    · exact Or.inr ⟨b, _, h, hm, Or.inl ⟨hnone, rfl⟩⟩
  | logFileHash ctx key filename sha256 =>
    rcases LogFileHash_ledger c ctx L key filename sha256 with
      ⟨h, hne⟩ | ⟨clientID, permitJSON, old, b, -, -, hL, hdec, -, hm, h⟩
    · exact Or.inl ⟨hne, h⟩
    · exact Or.inr ⟨b, _, h, hm, Or.inr ⟨permitJSON, old, hL, hdec, Or.inl rfl⟩⟩
  | updateStatus ctx key newStatus =>
    rcases UpdateStatus_ledger c ctx L key newStatus with
      ⟨h, hne⟩ | ⟨clientID, permitJSON, old, b, -, -, hL, hdec, hv, -, hm, h⟩
    · exact Or.inl ⟨hne, h⟩
    · exact Or.inr ⟨b, _, h, hm, Or.inr ⟨permitJSON, old, hL, hdec,
        Or.inr ((isValidStatusTransition_iff_specEdges _ _).1 hv)⟩⟩

theorem historyInvariant_apply {c : Codec} (hrt : RoundTrip c) {W : World}
    (hinv : HistoryInvariant c W) (call : Call) : HistoryInvariant c (W.apply c call) := by
  rcases call_effect c W.ledger call with ⟨hne, hL⟩ | ⟨b, written, hres, hm, hcase⟩
  · rw [world_apply_of_failed hne hL]
    exact hinv
  · rw [world_apply_of_ok hres]
    intro k
    obtain ⟨ps, hmap, hlast, hhead, hchain⟩ := hinv k
    by_cases hk : k = call.key
    · subst hk
      refine ⟨ps ++ [written], ?_, ?_, ?_, ?_⟩
      · simp [hmap, hm]
      · simp [Ledger.put]
      · rcases hcase with ⟨hnone, hs⟩ | ⟨permitJSON, old, hLk, -, -⟩
        · rw [hnone] at hlast
          have hv : W.versions call.key = [] := by
            cases hvs : W.versions call.key with
            | nil => rfl
            | cons v vs =>
              rw [hvs] at hlast
              have := List.getLast?_isSome.2 (List.cons_ne_nil v vs)
              rw [← hlast] at this
              exact absurd this (by simp)
          rw [hv] at hmap
          have hps : ps = [] := by simpa using hmap
          subst hps
          intro first hfirst
          simp at hfirst
          rw [← hfirst, hs]
        · intro first hfirst
          cases ps with
          | nil =>
            rw [hLk] at hlast
            have hv : W.versions call.key = [] := by simpa using hmap.symm
            rw [hv] at hlast
            simp at hlast
          | cons p ps => exact hhead first (by simpa using hfirst)
      · rw [List.map_append, List.chain'_append]
        refine ⟨hchain, by simp, ?_⟩
        intro x hx y hy
        simp only [List.map_cons, List.map_nil, List.head?_cons, Option.mem_def,
          Option.some.injEq] at hy
        subst hy
        rcases hcase with ⟨hnone, -⟩ | ⟨permitJSON, old, hLk, hdec, hstep⟩
        · rw [hnone] at hlast
          have hv : W.versions call.key = [] := by
            cases hvs : W.versions call.key with
            | nil => rfl
            | cons v vs =>
              rw [hvs] at hlast
              have := List.getLast?_isSome.2 (List.cons_ne_nil v vs)
              rw [← hlast] at this
              exact absurd this (by simp)
          rw [hv] at hmap
          have hps : ps = [] := by simpa using hmap
          subst hps
          simp at hx
        · rw [hLk] at hlast
          have hlast2 : (ps.map c.Marshal).getLast? = some (.ok permitJSON) := by
            rw [hmap, List.getLast?_map, ← hlast]
            rfl
          rw [List.getLast?_map] at hlast2
          rw [List.getLast?_map] at hx
          cases hpl : ps.getLast? with
          | none => rw [hpl] at hlast2; simp at hlast2
          | some pl =>
            rw [hpl] at hlast2 hx
            simp only [Option.map_some', Option.some.injEq] at hlast2
            have hu := unmarshal_of_marshal hrt hlast2
            rw [hdec] at hu
            have hold : old = pl := Except.ok.inj hu
            simp only [Option.map_some', Option.mem_def, Option.some.injEq] at hx
            rw [← hx, ← hold]
            exact hstep
    · refine ⟨ps, ?_, ?_, hhead, hchain⟩
      · simp [hk, hmap]
      · simp [hk, put_other W.ledger b hk, hlast]

theorem historyInvariant_runWorld {c : Codec} (hrt : RoundTrip c) (calls : List Call) :
    ∀ W, HistoryInvariant c W → HistoryInvariant c (runWorld c W calls) := by
  induction calls with
  | nil => intro W h; exact h
  | cons call calls ih =>
    intro W h
    exact ih _ (historyInvariant_apply hrt h call)

theorem historyInvariant_emptyWorld (c : Codec) : HistoryInvariant c emptyWorld := by
  intro k
  exact ⟨[], by simp [emptyWorld], by simp [emptyWorld, emptyLedger], by simp, by simp⟩

theorem filterMap_decoded_of_map {c : Codec} (hrt : RoundTrip c) (ps : List Permit) :
    ∀ values : List String, ps.map c.Marshal = values.map .ok →
      values.filterMap (decoded c) = ps := by
  induction ps with
  | nil =>
    intro values h
    have : values = [] := by simpa using h.symm
    rw [this]
    rfl
  | cons p ps ih =>
    intro values h
    cases values with
    | nil => simp at h
    | cons v values =>
      simp only [List.map_cons, List.cons.injEq] at h
      have hu := unmarshal_of_marshal hrt h.1
      simp [List.filterMap_cons, decoded, hu, ih values h.2]

set_option maxRecDepth 100000 in
/-- C13 (as stated) fails: after `CreatePermit` and one `LogFileHash` on `P-1` the
history has two versions, both `SUBMITTED`, and `SUBMITTED` to `SUBMITTED` is not
an edge of the transition graph. -/
theorem history_edges_only_counterexample :
    statusesOf (GetPermitHistory goJSON
        (historyOfVersions (runWorld goJSON emptyWorld createThenUpload).versions) "P-1") =
      ["SUBMITTED", "SUBMITTED"] ∧
    ¬ List.Chain' (fun a b => (a, b) ∈ specEdges) ["SUBMITTED", "SUBMITTED"] := by
  refine ⟨rfl, ?_⟩
  simp only [List.chain'_cons, List.chain'_singleton, and_true]
  decide

/-- C13 (amended). For every sequence of `CreatePermit`, `UpdateStatus` and
`LogFileHash` calls applied to the empty ledger and every permit id,
`GetPermitHistory` returns one record per version written under the id; the
first status is `SUBMITTED`, and every two consecutive statuses are either equal
(the later version was written by `LogFileHash`) or an edge of the transition
graph. -/
theorem history_walk (c : Codec) (hrt : RoundTrip c) (calls : List Call) (permitId : String) :
    ∃ history,
      GetPermitHistory c (historyOfVersions (runWorld c emptyWorld calls).versions) permitId =
        .ok history ∧
      history.length = ((runWorld c emptyWorld calls).versions permitId).length ∧
      (∀ first, (history.map Permit.Status).head? = some first → first = "SUBMITTED") ∧
      List.Chain' StayOrStep (history.map Permit.Status) := by
  obtain ⟨ps, hmap, -, hhead, hchain⟩ :=
    historyInvariant_runWorld hrt calls emptyWorld (historyInvariant_emptyWorld c) permitId
  refine ⟨ps, ?_, ?_, hhead, hchain⟩
  · rw [GetPermitHistory_best_effort c _ permitId
      ((runWorld c emptyWorld calls).versions permitId) rfl]
    rw [filterMap_decoded_of_map hrt ps _ hmap]
  · have := congrArg List.length hmap
    simpa using this

set_option maxRecDepth 100000 in
/-- C13 (amended), instance: the history of `P-1` after a creation, an upload,
an allowed status change, a refused one and a second upload. -/
theorem history_walk_witness :
    statusesOf (GetPermitHistory goJSON
        (historyOfVersions (runWorld goJSON emptyWorld mixedCalls).versions) "P-1") =
      ["SUBMITTED", "SUBMITTED", "UNDER_REVIEW", "UNDER_REVIEW"] ∧
    ∃ history,
      GetPermitHistory goJSON
          (historyOfVersions (runWorld goJSON emptyWorld mixedCalls).versions) "P-1" =
        .ok history ∧
      history.length = ((runWorld goJSON emptyWorld mixedCalls).versions "P-1").length ∧
      (∀ first, (history.map Permit.Status).head? = some first → first = "SUBMITTED") ∧
      List.Chain' StayOrStep (history.map Permit.Status) :=
  ⟨rfl, history_walk goJSON roundTrip_goJSON mixedCalls "P-1"⟩

/-! ### The chaincode package -/

theorem parseBool_encodeBool (b : Bool) (rest : List Char) :
    parseBool (encodeBool b ++ rest) = some (b, rest) := by
  cases b <;> simp [parseBool, encodeBool, expect]

theorem parseBoolField_append (lit : List Char) (b : Bool) (rest : List Char) :
    parseBoolField lit (lit ++ (encodeBool b ++ rest)) = some (b, rest) := by
  simp only [parseBoolField, expect_append, parseBool_encodeBool]

theorem length_encodeStringsTail (ss : List String) (rest : List Char) :
    ss.length < (encodeStringsTail ss ++ rest).length := by
  induction ss with
  | nil => simp [encodeStringsTail]
  | cons s ss ih =>
    simp only [encodeStringsTail, List.cons_append, List.append_assoc, List.length_cons,
      List.length_append] at ih ⊢
    omega

theorem parseStringsTail_encode (ss : List String) (rest : List Char) :
    ∀ fuel, ss.length < fuel →
      parseStringsTail fuel (encodeStringsTail ss ++ rest) = some (ss, rest) := by
  induction ss with
  | nil =>
    intro fuel hfuel
    obtain ⟨k, rfl⟩ : ∃ k, fuel = k + 1 := ⟨fuel - 1, by simp at hfuel; omega⟩
    simp [encodeStringsTail, parseStringsTail]
  | cons s ss ih =>
    intro fuel hfuel
    obtain ⟨k, rfl⟩ : ∃ k, fuel = k + 1 := ⟨fuel - 1, by omega⟩
    have hk : ss.length < k := by simpa using hfuel
    have hne : ¬ (',' = ']') := by decide
    simp only [encodeStringsTail, List.cons_append, List.append_assoc, parseStringsTail,
      if_neg hne, if_true, List.append_eq, parseString_encodeString, ih k hk]

theorem parseStrings_encode (ss : List String) (rest : List Char) :
    parseStrings (encodeStrings ss ++ rest) = some (ss, rest) := by
  cases ss with
  | nil => simp [encodeStrings, parseStrings, expect]
  | cons s ss =>
    have h1 : expect ['n', 'u', 'l', 'l']
        ('[' :: (encodeString s ++ (encodeStringsTail ss ++ rest))) = none := by
      simp [expect]
    have h2 : expect ['[', ']']
        ('[' :: (encodeString s ++ (encodeStringsTail ss ++ rest))) = none := by
      simp [expect, encodeString]
    have h3 : expect ['[']
        ('[' :: (encodeString s ++ (encodeStringsTail ss ++ rest))) =
          some (encodeString s ++ (encodeStringsTail ss ++ rest)) :=
      expect_append ['['] _
    simp only [encodeStrings, List.cons_append, List.append_assoc, parseStrings, h1, h2, h3,
      parseString_encodeString,
      parseStringsTail_encode ss rest _ (length_encodeStringsTail ss rest)]

theorem parseChecklist_encode (k : SmartContract.Checklist) (rest : List Char) :
    SmartContract.parseChecklist (SmartContract.encodeChecklist k ++ rest) = some (k, rest) := by
  simp only [SmartContract.encodeChecklist, List.append_assoc, SmartContract.parseChecklist,
    parseBoolField_append, expect_append]

theorem smartContract_parsePermit_encode (p : SmartContract.Permit) (rest : List Char) :
    SmartContract.parsePermit (SmartContract.encodePermit p ++ rest) = some (p, rest) := by
  simp only [SmartContract.encodePermit, List.append_assoc, SmartContract.parsePermit,
    parseField_append, expect_append, parseStrings_encode, parseChecklist_encode]

theorem smartContract_roundTrip_goJSON : SmartContract.RoundTrip SmartContract.goJSON := by
  intro p
  refine ⟨String.mk (SmartContract.encodePermit p), ?_, ?_⟩
  · simp only [SmartContract.goJSON]
  · have h := smartContract_parsePermit_encode p []
    rw [List.append_nil] at h
    simp only [SmartContract.goJSON, h]

theorem smartContract_getPermit_put {sc : SmartContract.Codec} (tx : SmartContract.TxCtx)
    (hget : tx.stub.getStateErr = none) (L : Ledger) (id b : String)
    {p : SmartContract.Permit} (hu : sc.Unmarshal b = .ok p) :
    SmartContract.GetPermit sc tx (L.put id b) id = .ok p := by
  simp [SmartContract.GetPermit, GetState, hget, Ledger.put, hu]

set_option maxRecDepth 100000 in
/-- C19 (as stated) fails: a permit created by `SmartContract.CreatePermit` is
`SUBMITTED`; `UpdatePermitStatus("P-1", "BOGUS")` succeeds although `BOGUS` is not
an allowed next status, and the stored status is then `BOGUS`, outside the five
statuses. -/
theorem smartContract_validated_transitions_counterexample :
    (SmartContract.CreatePermit SmartContract.goJSON txOne emptyLedger "P-1" "Ann"
      "1 Main St" "BDA").1 = .ok () ∧
    SmartContract.GetPermit SmartContract.goJSON txTwo
        (SmartContract.CreatePermit SmartContract.goJSON txOne emptyLedger "P-1" "Ann"
          "1 Main St" "BDA").2 "P-1" =
      .ok (SmartContract.created txOne "P-1" "Ann" "1 Main St" "BDA") ∧
    (SmartContract.UpdatePermitStatus SmartContract.goJSON txTwo
        (SmartContract.CreatePermit SmartContract.goJSON txOne emptyLedger "P-1" "Ann"
          "1 Main St" "BDA").2 "P-1" "BOGUS").1 = .ok () ∧
    SmartContract.GetPermit SmartContract.goJSON txTwo
        (SmartContract.UpdatePermitStatus SmartContract.goJSON txTwo
          (SmartContract.CreatePermit SmartContract.goJSON txOne emptyLedger "P-1" "Ann"
            "1 Main St" "BDA").2 "P-1" "BOGUS").2 "P-1" =
      .ok { SmartContract.created txOne "P-1" "Ann" "1 Main St" "BDA" with
            Status := "BOGUS", TransactionHash := "tx-2" } ∧
    isValidStatusTransition "SUBMITTED" "BOGUS" = false ∧
    "BOGUS" ∉ specStatuses :=
  ⟨rfl, rfl, rfl, rfl, by decide, by decide⟩

/-! ### Serialization -/

/-- The round trip when every string is text: the record encodes, and decoding
its JSON text gives back the same record; a record stored under a key is read
back unchanged by `GetPermitById`. -/
theorem serialization_round_trip (p : Permit) :
    ∃ b, goJSON.Marshal p = .ok b ∧ goJSON.Unmarshal b = .ok p ∧
      ∀ (ctx : Ctx) (L : Ledger) (permitId : String), GetState ctx L permitId = .ok (some b) →
        GetPermitById goJSON ctx L permitId = .ok p := by
  refine ⟨String.mk (encodePermit p), marshal_goJSON p, ?_, ?_⟩
  · rw [unmarshal_goJSON]
    exact jsonUnmarshal_jsonMarshal p
  · intro ctx L permitId hget
    have hu : goJSON.Unmarshal (String.mk (encodePermit p)) = .ok p := by
      rw [unmarshal_goJSON]
      exact jsonUnmarshal_jsonMarshal p
    simp [GetPermitById, hget, hu]

/-! ### Byte strings: what the codec does to them -/

theorem coerceUTF8_of_wellFormed (s : GoString) (h : wellFormed s = true) :
    coerceUTF8 s = s := by
  induction s with
  | nil => rfl
  | cons ch s ih =>
    cases ch with
    | rune c =>
      have hs : wellFormed s = true := by
        simpa [wellFormed] using h
      have ih1 := ih hs
      simp only [coerceUTF8, ofText, toValidText, List.map_cons, GoChar.coerced] at ih1 ⊢
      rw [ih1]
    | byte b => simp [wellFormed] at h

theorem coerceUTF8_ofText (s : String) : coerceUTF8 (ofText s) = ofText s := by
  simp [coerceUTF8, ofText, toValidText, List.map_map, Function.comp_def, GoChar.coerced]

theorem coerceUTF8_idem (s : GoString) : coerceUTF8 (coerceUTF8 s) = coerceUTF8 s :=
  coerceUTF8_ofText (toValidText s)

theorem wellFormed_ofText (s : String) : wellFormed (ofText s) = true := by
  simp [wellFormed, ofText]

theorem fileHash_coerced_of_isText (f : Raw.FileHash) (h : f.isText = true) :
    f.coerced = f := by
  simp only [Raw.FileHash.isText, Bool.and_eq_true] at h
  obtain ⟨⟨⟨h1, h2⟩, h3⟩, h4⟩ := h
  cases f
  simp only [Raw.FileHash.coerced, Raw.FileHash.mk.injEq]
  exact ⟨coerceUTF8_of_wellFormed _ h1, coerceUTF8_of_wellFormed _ h2,
    coerceUTF8_of_wellFormed _ h3, coerceUTF8_of_wellFormed _ h4⟩

theorem fileHashes_coerced_of_isText (fs : List Raw.FileHash)
    (h : fs.all Raw.FileHash.isText = true) : fs.map Raw.FileHash.coerced = fs := by
  induction fs with
  | nil => rfl
  | cons f fs ih =>
    simp only [List.all_cons, Bool.and_eq_true] at h
    rw [List.map_cons, fileHash_coerced_of_isText f h.1, ih h.2]

theorem permit_coerced_of_isText (p : Raw.Permit) (h : p.isText = true) : p.coerced = p := by
  simp only [Raw.Permit.isText, Bool.and_eq_true] at h
  obtain ⟨⟨⟨⟨⟨⟨⟨h1, h2⟩, h3⟩, h4⟩, h5⟩, h6⟩, h7⟩, h8⟩ := h
  cases p
  simp only [Raw.Permit.coerced, Raw.Permit.mk.injEq]
  exact ⟨coerceUTF8_of_wellFormed _ h1, fileHashes_coerced_of_isText _ h2,
    coerceUTF8_of_wellFormed _ h3, coerceUTF8_of_wellFormed _ h4,
    coerceUTF8_of_wellFormed _ h5, coerceUTF8_of_wellFormed _ h6,
    coerceUTF8_of_wellFormed _ h7, coerceUTF8_of_wellFormed _ h8⟩

theorem fileHash_coerced_idem (f : Raw.FileHash) : f.coerced.coerced = f.coerced := by
  simp [Raw.FileHash.coerced, coerceUTF8_idem]

theorem permit_coerced_idem (p : Raw.Permit) : p.coerced.coerced = p.coerced := by
  simp [Raw.Permit.coerced, coerceUTF8_idem, List.map_map, Function.comp_def,
    fileHash_coerced_idem]

theorem toRaw_toText (p : Raw.Permit) : p.toText.toRaw = p.coerced := by
  simp [Raw.Permit.toText, Permit.toRaw, Raw.Permit.coerced, coerceUTF8, List.map_map,
    Function.comp_def, Raw.FileHash.toText, FileHash.toRaw, Raw.FileHash.coerced]

theorem parseStringBody_escapeGoChar (ch : GoChar) (tail s r : List Char)
    (h : parseStringBody .plain tail = some (s, r)) :
    parseStringBody .plain (escapeGoChar ch ++ tail) = some (ch.coerced :: s, r) := by
  cases ch with
  | rune c => exact parseStringBody_escapeChar c tail s r h
  | byte b =>
    have hstep := parseStringBody_hex 15 15 15 13 (by omega) (by omega) (by omega) (by omega)
      tail
    rw [h] at hstep
    exact hstep

theorem parseStringBody_escapeGoChars (s : GoString) (rest : List Char) :
    parseStringBody .plain (escapeGoChars s ++ ('"' :: rest)) =
      some (s.map GoChar.coerced, rest) := by
  induction s with
  | nil => exact parseStringBody_quote rest
  | cons ch s ih =>
    rw [escapeGoChars, List.append_assoc]
    exact parseStringBody_escapeGoChar ch _ _ rest ih

theorem parseString_raw_encodeString (s : GoString) (rest : List Char) :
    parseString (Raw.encodeString s ++ rest) = some (toValidText s, rest) := by
  have h := parseStringBody_escapeGoChars s rest
  simp only [Raw.encodeString, List.cons_append, List.append_assoc, List.nil_append,
    parseString, if_true, h, toValidText]

theorem parseField_raw_append (lit : List Char) (s : GoString) (rest : List Char) :
    parseField lit (lit ++ (Raw.encodeString s ++ rest)) = some (toValidText s, rest) := by
  simp only [parseField, expect_append, parseString_raw_encodeString]

theorem parseFileHash_raw_encode (f : Raw.FileHash) (rest : List Char) :
    parseFileHash (Raw.encodeFileHash f ++ rest) = some (f.toText, rest) := by
  simp only [Raw.encodeFileHash, List.append_assoc, parseFileHash, parseField_raw_append,
    expect_append, Raw.FileHash.toText]

theorem raw_encodeFileHash_head (f : Raw.FileHash) (rest : List Char) :
    ∃ tail, Raw.encodeFileHash f ++ rest = '\x7b' :: tail := by
  simp only [Raw.encodeFileHash, List.append_assoc]
  exact ⟨_, rfl⟩

theorem length_raw_encodeFileHashTail (fs : List Raw.FileHash) (rest : List Char) :
    fs.length < (Raw.encodeFileHashTail fs ++ rest).length := by
  induction fs with
  | nil => simp [Raw.encodeFileHashTail]
  | cons f fs ih =>
    simp only [Raw.encodeFileHashTail, List.cons_append, List.append_assoc, List.length_cons,
      List.length_append] at ih ⊢
    omega

theorem parseFileHashTail_raw_encode (fs : List Raw.FileHash) (rest : List Char) :
    ∀ fuel, fs.length < fuel →
      parseFileHashTail fuel (Raw.encodeFileHashTail fs ++ rest) =
        some (fs.map Raw.FileHash.toText, rest) := by
  induction fs with
  | nil =>
    intro fuel hfuel
    obtain ⟨k, rfl⟩ : ∃ k, fuel = k + 1 := ⟨fuel - 1, by simp at hfuel; omega⟩
    simp [Raw.encodeFileHashTail, parseFileHashTail]
  | cons f fs ih =>
    intro fuel hfuel
    obtain ⟨k, rfl⟩ : ∃ k, fuel = k + 1 := ⟨fuel - 1, by omega⟩
    have hk : fs.length < k := by simpa using hfuel
    have hne : ¬ (',' = ']') := by decide
    simp only [Raw.encodeFileHashTail, List.cons_append, List.append_assoc, parseFileHashTail,
      if_neg hne, if_true, List.append_eq, parseFileHash_raw_encode, ih k hk, List.map_cons]

theorem parseFileHashes_raw_encode (fs : List Raw.FileHash) (rest : List Char) :
    parseFileHashes (Raw.encodeFileHashes fs ++ rest) =
      some (fs.map Raw.FileHash.toText, rest) := by
  cases fs with
  | nil => simp [Raw.encodeFileHashes, parseFileHashes, expect]
  | cons f fs =>
    obtain ⟨tail, htail⟩ := raw_encodeFileHash_head f (Raw.encodeFileHashTail fs ++ rest)
    have h1 : expect ['n', 'u', 'l', 'l']
        ('[' :: (Raw.encodeFileHash f ++ (Raw.encodeFileHashTail fs ++ rest))) = none := by
      simp [expect]
    have h2 : expect ['[', ']']
        ('[' :: (Raw.encodeFileHash f ++ (Raw.encodeFileHashTail fs ++ rest))) = none := by
      rw [htail]
      simp [expect]
    have h3 : expect ['[']
        ('[' :: (Raw.encodeFileHash f ++ (Raw.encodeFileHashTail fs ++ rest))) =
          some (Raw.encodeFileHash f ++ (Raw.encodeFileHashTail fs ++ rest)) :=
      expect_append ['['] _
    simp only [Raw.encodeFileHashes, List.cons_append, List.append_assoc, parseFileHashes, h1,
      h2, h3, parseFileHash_raw_encode, List.map_cons,
      parseFileHashTail_raw_encode fs rest _ (length_raw_encodeFileHashTail fs rest)]

theorem parsePermit_raw_encode (p : Raw.Permit) (rest : List Char) :
    parsePermit (Raw.encodePermit p ++ rest) = some (p.toText, rest) := by
  simp only [Raw.encodePermit, List.append_assoc, parsePermit, parseField_raw_append,
    expect_append, parseFileHashes_raw_encode, Raw.Permit.toText]

theorem raw_jsonUnmarshal_jsonMarshal (p : Raw.Permit) :
    Raw.jsonUnmarshal (String.mk (Raw.encodePermit p)) = .ok p.coerced := by
  have h := parsePermit_raw_encode p []
  rw [List.append_nil] at h
  simp only [Raw.jsonUnmarshal, jsonUnmarshal, h, toRaw_toText]

theorem raw_marshal_goJSON (p : Raw.Permit) :
    Raw.goJSON.Marshal p = .ok (String.mk (Raw.encodePermit p)) := by
  simp only [Raw.goJSON, Raw.jsonMarshal]

theorem raw_unmarshal_goJSON (b : String) : Raw.goJSON.Unmarshal b = Raw.jsonUnmarshal b := by
  simp only [Raw.goJSON]

theorem lawful_raw_goJSON : Raw.Lawful Raw.goJSON := by
  intro p
  refine ⟨String.mk (Raw.encodePermit p), raw_marshal_goJSON p, ?_⟩
  rw [raw_unmarshal_goJSON]
  exact raw_jsonUnmarshal_jsonMarshal p

/-! ### Byte strings: serialization -/

/-- C16 (as stated) fails: a record whose organization is `Org` followed by the
byte 0xFF is encoded with the escape of U+FFFD in place of the byte, and the
decoded record has the organization `Org` followed by U+FFFD, which is another
string. -/
theorem round_trip_invalid_byte_counterexample :
    Raw.goJSON.Marshal Raw.permitBadOrg = .ok permitBadOrgJSON ∧
    Raw.goJSON.Unmarshal permitBadOrgJSON = .ok Raw.permitBadOrgReadBack ∧
    Raw.permitBadOrgReadBack.Organization = ofText "Org\uFFFD" ∧
    Raw.permitBadOrgReadBack ≠ Raw.permitBadOrg :=
  ⟨rfl, rfl, rfl, by decide⟩

/-- C16 (amended). Every `Permit` record encodes; decoding the JSON text gives
the record with each byte that is not well-formed UTF-8 replaced by U+FFFD.
Hence for every record whose strings are well-formed UTF-8, with any evidence
list (empty, fifty entries), decoding gives back the same record, every field
and the order of the evidence entries included, and the record stored under a
key is read back unchanged by `GetPermitById`. -/
theorem round_trip_well_formed (p : Raw.Permit) :
    ∃ b, Raw.goJSON.Marshal p = .ok b ∧ Raw.goJSON.Unmarshal b = .ok p.coerced ∧
      (p.isText = true →
        Raw.goJSON.Unmarshal b = .ok p ∧
        ∀ (ctx : Raw.Ctx) (L : Raw.Ledger) (permitId : GoString),
          Raw.GetState ctx L permitId = .ok (some b) →
          Raw.GetPermitById Raw.goJSON ctx L permitId = .ok p) := by
  have hu : Raw.goJSON.Unmarshal (String.mk (Raw.encodePermit p)) = .ok p.coerced := by
    rw [raw_unmarshal_goJSON]
    exact raw_jsonUnmarshal_jsonMarshal p
  refine ⟨String.mk (Raw.encodePermit p), raw_marshal_goJSON p, hu, ?_⟩
  intro htext
  rw [permit_coerced_of_isText p htext] at hu
  refine ⟨hu, ?_⟩
  intro ctx L permitId hget
  simp [Raw.GetPermitById, hget, hu]

set_option maxRecDepth 100000 in
/-- C16 (amended), instance: a record with fifty evidence entries whose strings
contain quotes, backslashes, control characters and `<`, `>`, `&`. -/
theorem round_trip_well_formed_witness :
    Raw.permitFifty.FileHashes.length = 50 ∧ Raw.permitFifty.isText = true ∧
    ∃ b, Raw.goJSON.Marshal Raw.permitFifty = .ok b ∧
      Raw.goJSON.Unmarshal b = .ok Raw.permitFifty := by
  obtain ⟨b, hm, -, htext⟩ := round_trip_well_formed Raw.permitFifty
  exact ⟨rfl, rfl, b, hm, (htext rfl).1⟩

/-! ### Byte strings: creation -/

theorem raw_unmarshal_of_marshal {c : Raw.Codec} (hlaw : Raw.Lawful c) {p : Raw.Permit}
    {b : String} (hm : c.Marshal p = .ok b) : c.Unmarshal b = .ok p.coerced := by
  obtain ⟨b2, hm2, hu⟩ := hlaw p
  rw [hm] at hm2
  rw [Except.ok.inj hm2]
  exact hu

theorem raw_stored_put_same {c : Raw.Codec} (hlaw : Raw.Lawful c) (L : Raw.Ledger)
    (key : GoString) {p : Raw.Permit} {b : String} (hm : c.Marshal p = .ok b) :
    Raw.Stored c (L.put key b) key p.coerced :=
  ⟨b, by simp [Raw.Ledger.put], raw_unmarshal_of_marshal hlaw hm⟩

theorem raw_putState_of_ok {ctx : Raw.Ctx} (hput : ctx.putStateErr = none) (L : Raw.Ledger)
    (key : GoString) (value : String) :
    Raw.PutState ctx L key value = (.ok (), L.put key value) := by
  simp [Raw.PutState, hput]

theorem raw_getPermitById_of_stored {c : Raw.Codec} {ctx : Raw.Ctx} {L : Raw.Ledger}
    {permitId : GoString} {p : Raw.Permit} (hget : ctx.getStateErr = none)
    (hstored : Raw.Stored c L permitId p) : Raw.GetPermitById c ctx L permitId = .ok p := by
  obtain ⟨b, hL, hu⟩ := hstored
  simp [Raw.GetPermitById, Raw.GetState, hget, hL, hu]

theorem raw_CreatePermit_of_absent {c : Raw.Codec} {ctx : Raw.Ctx} {L : Raw.Ledger}
    {permitId organization clientID : GoString} {b : String}
    (habsent : Raw.GetState ctx L permitId = .ok none) (hid : ctx.GetID = .ok clientID)
    (hm : c.Marshal (Raw.createdPermit ctx clientID permitId organization) = .ok b)
    (hput : ctx.putStateErr = none) :
    Raw.CreatePermit c ctx L permitId organization = (.ok (), L.put permitId b) := by
  rw [Raw.createdPermit] at hm
  simp [Raw.CreatePermit, Raw.PermitExists, habsent, hid, hm, raw_putState_of_ok hput]

/-- C6 (as stated) fails: `CreatePermit` with the organization `Org` followed by
the byte 0xFF succeeds on the empty ledger, and `GetPermitById` then returns a
record whose organization is `Org` followed by U+FFFD, not the supplied
organization. -/
theorem CreatePermit_invalid_byte_counterexample :
    Raw.GetState Raw.aliceCtx Raw.emptyLedger (ofText "P-9") = .ok none ∧
    (Raw.CreatePermit Raw.goJSON Raw.aliceCtx Raw.emptyLedger (ofText "P-9")
      orgWithBadByte).1 = .ok () ∧
    Raw.GetPermitById Raw.goJSON Raw.carolCtx
        (Raw.CreatePermit Raw.goJSON Raw.aliceCtx Raw.emptyLedger (ofText "P-9")
          orgWithBadByte).2 (ofText "P-9") =
      .ok Raw.permitBadOrgReadBack ∧
    Raw.permitBadOrgReadBack.Organization = ofText "Org\uFFFD" ∧
    Raw.permitBadOrgReadBack.Organization ≠ orgWithBadByte :=
  ⟨rfl, rfl, rfl, rfl, by decide⟩

/-- C6 (amended). For an id absent from the ledger and a caller whose identity
resolves, `CreatePermit` succeeds and every other key of the ledger is as
before; afterwards `GetPermitById` returns the record with the given id and
organization, status `SUBMITTED`, no file hash, and the caller as creator and
updater, each byte of these strings that is not well-formed UTF-8 replaced by
U+FFFD. Hence when id, organization and caller identifier are well-formed UTF-8
the record returned has exactly the given id and organization and the caller
identifier. -/
theorem CreatePermit_postcondition_well_formed (c : Raw.Codec) (hlaw : Raw.Lawful c)
    (ctx ctx2 : Raw.Ctx) (L : Raw.Ledger) (permitId organization clientID : GoString)
    (habsent : Raw.GetState ctx L permitId = .ok none)
    (hid : ctx.GetID = .ok clientID)
    (hput : ctx.putStateErr = none)
    (hget2 : ctx2.getStateErr = none) :
    (Raw.CreatePermit c ctx L permitId organization).1 = .ok () ∧
    Raw.GetPermitById c ctx2 (Raw.CreatePermit c ctx L permitId organization).2 permitId =
      .ok { PermitID := coerceUTF8 permitId
            FileHashes := []
            Status := ofText "SUBMITTED"
            CreatedBy := coerceUTF8 clientID
            CreatedAt := ofText ctx.GetTxTimestamp
            UpdatedBy := coerceUTF8 clientID
            UpdatedAt := ofText ctx.GetTxTimestamp
            Organization := coerceUTF8 organization } ∧
    (wellFormed permitId = true → wellFormed organization = true →
      wellFormed clientID = true →
      Raw.GetPermitById c ctx2 (Raw.CreatePermit c ctx L permitId organization).2 permitId =
        .ok { PermitID := permitId
              FileHashes := []
              Status := ofText "SUBMITTED"
              CreatedBy := clientID
              CreatedAt := ofText ctx.GetTxTimestamp
              UpdatedBy := clientID
              UpdatedAt := ofText ctx.GetTxTimestamp
              Organization := organization }) ∧
    ∀ k, k ≠ permitId → (Raw.CreatePermit c ctx L permitId organization).2 k = L k := by
  obtain ⟨b, hm, -⟩ := hlaw (Raw.createdPermit ctx clientID permitId organization)
  have hres := raw_CreatePermit_of_absent habsent hid hm hput
  have hstored := raw_stored_put_same hlaw L permitId hm
  have hget := raw_getPermitById_of_stored hget2 hstored
  have hshape : (Raw.createdPermit ctx clientID permitId organization).coerced =
      { PermitID := coerceUTF8 permitId
        FileHashes := []
        Status := ofText "SUBMITTED"
        CreatedBy := coerceUTF8 clientID
        CreatedAt := ofText ctx.GetTxTimestamp
        UpdatedBy := coerceUTF8 clientID
        UpdatedAt := ofText ctx.GetTxTimestamp
        Organization := coerceUTF8 organization } := by
    simp [Raw.createdPermit, Raw.Permit.coerced, coerceUTF8_ofText, StatusSubmitted]
  rw [hres]
  refine ⟨rfl, ?_, ?_, ?_⟩
  · rw [hget, hshape]
  · intro h1 h2 h3
    rw [hget, hshape, coerceUTF8_of_wellFormed _ h1, coerceUTF8_of_wellFormed _ h2,
      coerceUTF8_of_wellFormed _ h3]
  · intro k hk
    simp [Raw.Ledger.put, hk]

/-- C6 (amended), instance: `CreatePermit("P-1", "OrgA")` by alice on the empty
ledger, then `GetPermitById("P-1")` by carol. -/
theorem CreatePermit_postcondition_well_formed_witness :
    (Raw.CreatePermit Raw.goJSON Raw.aliceCtx Raw.emptyLedger (ofText "P-1")
      (ofText "OrgA")).1 = .ok () ∧
    Raw.GetPermitById Raw.goJSON Raw.carolCtx
        (Raw.CreatePermit Raw.goJSON Raw.aliceCtx Raw.emptyLedger (ofText "P-1")
          (ofText "OrgA")).2 (ofText "P-1") =
      .ok { PermitID := ofText "P-1"
            FileHashes := []
            Status := ofText "SUBMITTED"
            CreatedBy := ofText "alice@OrgA"
            CreatedAt := ofText "seconds:1700000000"
            UpdatedBy := ofText "alice@OrgA"
            UpdatedAt := ofText "seconds:1700000000"
            Organization := ofText "OrgA" } ∧
    ∀ k, k ≠ ofText "P-1" →
      (Raw.CreatePermit Raw.goJSON Raw.aliceCtx Raw.emptyLedger (ofText "P-1")
        (ofText "OrgA")).2 k = Raw.emptyLedger k :=
  have h := CreatePermit_postcondition_well_formed Raw.goJSON lawful_raw_goJSON Raw.aliceCtx
    Raw.carolCtx Raw.emptyLedger (ofText "P-1") (ofText "OrgA") (ofText "alice@OrgA")
    rfl rfl rfl rfl
  ⟨h.1, h.2.2.1 (wellFormed_ofText _) (wellFormed_ofText _) (wellFormed_ofText _), h.2.2.2⟩

/-! ### Byte strings: the evidence log -/

theorem raw_hasPermission_of_clientOrg {ctx : Raw.Ctx} {clientID clientOrg : GoString}
    (hid : ctx.GetID = .ok clientID) (horg : Raw.clientOrgOf clientID = some clientOrg)
    (organization : GoString) :
    Raw.hasPermission ctx organization = .ok (clientOrg == organization) := by
  simp [Raw.hasPermission, hid, horg]

theorem raw_CreatePermit_ok {c : Raw.Codec} (hlaw : Raw.Lawful c) {ctx : Raw.Ctx}
    {L : Raw.Ledger} {permitId organization : GoString}
    (hok : (Raw.CreatePermit c ctx L permitId organization).1 = .ok ()) :
    ∃ clientID, ctx.GetID = .ok clientID ∧
      Raw.Stored c (Raw.CreatePermit c ctx L permitId organization).2 permitId
        (Raw.createdPermit ctx clientID permitId organization).coerced := by
  cases hg : ctx.getStateErr with
  | some e => simp [Raw.CreatePermit, Raw.PermitExists, Raw.GetState, hg] at hok
  | none =>
    cases hL : L permitId with
    | some v => simp [Raw.CreatePermit, Raw.PermitExists, Raw.GetState, hg, hL] at hok
    | none =>
      cases hid : ctx.GetID with
      | error e => simp [Raw.CreatePermit, Raw.PermitExists, Raw.GetState, hg, hL, hid] at hok
      | ok clientID =>
        cases hm : c.Marshal (Raw.createdPermit ctx clientID permitId organization) with
        | error e =>
          rw [Raw.createdPermit] at hm
          simp [Raw.CreatePermit, Raw.PermitExists, Raw.GetState, hg, hL, hid, hm] at hok
        | ok b =>
          cases hp : ctx.putStateErr with
          | some e =>
            rw [Raw.createdPermit] at hm
            simp [Raw.CreatePermit, Raw.PermitExists, Raw.GetState, Raw.PutState, hg, hL, hid,
              hm, hp] at hok
          | none =>
            have habsent : Raw.GetState ctx L permitId = .ok none := by
              simp [Raw.GetState, hg, hL]
            rw [raw_CreatePermit_of_absent habsent hid hm hp]
            exact ⟨clientID, rfl, raw_stored_put_same hlaw L permitId hm⟩

theorem raw_LogFileHash_authorized {c : Raw.Codec} (hlaw : Raw.Lawful c) {L : Raw.Ledger}
    {permitId : GoString} {permit : Raw.Permit} (hstored : Raw.Stored c L permitId permit)
    (hclean : permit.coerced = permit) (call : Raw.LogCall)
    (hauth : call.Authorized permit.Organization) :
    (Raw.LogFileHash c call.ctx L permitId call.filename call.sha256).1 = .ok () ∧
    ∃ permit1,
      Raw.Stored c (Raw.LogFileHash c call.ctx L permitId call.filename call.sha256).2
        permitId permit1 ∧
      permit1.coerced = permit1 ∧
      permit1.FileHashes = permit.FileHashes ++ [call.entry.coerced] ∧
      permit1.Organization = permit.Organization := by
  obtain ⟨permitJSON, hL, hdec⟩ := hstored
  obtain ⟨⟨clientID, hid, horg⟩, hg, hp⟩ := hauth
  obtain ⟨b, hm, -⟩ :=
    hlaw (Raw.fileHashLogged call.ctx clientID call.filename call.sha256 permit)
  have hperm := raw_hasPermission_of_clientOrg hid horg permit.Organization
  have hres : Raw.LogFileHash c call.ctx L permitId call.filename call.sha256 =
      (.ok (), L.put permitId b) := by
    have hm1 := hm
    rw [Raw.fileHashLogged] at hm1
    simp [Raw.LogFileHash, Raw.GetState, hid, hg, hL, hdec, hperm, hm1,
      raw_putState_of_ok hp]
  rw [hres]
  refine ⟨rfl, _, raw_stored_put_same hlaw L permitId hm, permit_coerced_idem _, ?_, ?_⟩
  · have hfh : permit.FileHashes.map Raw.FileHash.coerced = permit.FileHashes :=
      congrArg Raw.Permit.FileHashes hclean
    simp [Raw.fileHashLogged, Raw.Permit.coerced, Raw.LogCall.entry, Raw.callerOf, hid, hfh]
  · have horg2 : coerceUTF8 permit.Organization = permit.Organization :=
      congrArg Raw.Permit.Organization hclean
    simp [Raw.fileHashLogged, Raw.Permit.coerced, horg2]

theorem raw_runLogCalls_authorized {c : Raw.Codec} (hlaw : Raw.Lawful c) {permitId : GoString}
    (calls : List Raw.LogCall) :
    ∀ (L : Raw.Ledger) (permit : Raw.Permit), Raw.Stored c L permitId permit →
      permit.coerced = permit →
      (∀ call ∈ calls, call.Authorized permit.Organization) →
      (Raw.runLogCalls c permitId L calls).1 = List.replicate calls.length (.ok ()) ∧
      ∃ permit1, Raw.Stored c (Raw.runLogCalls c permitId L calls).2 permitId permit1 ∧
        permit1.FileHashes =
          permit.FileHashes ++ calls.map (fun call => call.entry.coerced) := by
  induction calls with
  | nil =>
    intro L permit hstored _ _
    exact ⟨rfl, permit, hstored, by simp⟩
  | cons call calls ih =>
    intro L permit hstored hclean hauth
    obtain ⟨hok, permit1, hstored1, hclean1, hfh1, horg1⟩ :=
      raw_LogFileHash_authorized hlaw hstored hclean call (hauth call (List.mem_cons_self _ _))
    have hauth1 : ∀ x ∈ calls, x.Authorized permit1.Organization := by
      intro x hx
      rw [horg1]
      exact hauth x (List.mem_cons_of_mem _ hx)
    obtain ⟨hoks, permit2, hstored2, hfh2⟩ := ih _ permit1 hstored1 hclean1 hauth1
    refine ⟨?_, permit2, hstored2, ?_⟩
    · simp only [Raw.runLogCalls, hok, hoks, List.length_cons, List.replicate_succ]
    · rw [hfh2, hfh1]
      simp

theorem entry_coerced_of_isText (call : Raw.LogCall) (h : call.isText = true) :
    call.entry.coerced = call.entry := by
  simp only [Raw.LogCall.isText, Bool.and_eq_true] at h
  obtain ⟨⟨h1, h2⟩, h3⟩ := h
  simp [Raw.LogCall.entry, Raw.FileHash.coerced, coerceUTF8_of_wellFormed _ h1,
    coerceUTF8_of_wellFormed _ h2, coerceUTF8_of_wellFormed _ h3, coerceUTF8_ofText]

set_option maxRecDepth 100000 in
/-- C8 (as stated) fails: after `CreatePermit("P-1", "OrgA")`, alice uploads a
file named `plan`, byte 0xFF, `.pdf`. The call succeeds, and the one entry of
the permit then has the file name `plan`, U+FFFD, `.pdf`, which is not the file
name of the call. -/
theorem LogFileHash_invalid_byte_counterexample :
    (Raw.LogFileHash Raw.goJSON Raw.aliceCtx
      (Raw.CreatePermit Raw.goJSON Raw.aliceCtx Raw.emptyLedger (ofText "P-1")
        (ofText "OrgA")).2
      (ofText "P-1") filenameWithBadByte (ofText "9f86d081")).1 = .ok () ∧
    Raw.GetPermitById Raw.goJSON Raw.carolCtx
        (Raw.LogFileHash Raw.goJSON Raw.aliceCtx
          (Raw.CreatePermit Raw.goJSON Raw.aliceCtx Raw.emptyLedger (ofText "P-1")
            (ofText "OrgA")).2
          (ofText "P-1") filenameWithBadByte (ofText "9f86d081")).2 (ofText "P-1") =
      .ok Raw.permitBadUploadReadBack ∧
    Raw.permitBadUploadReadBack.FileHashes.map Raw.FileHash.Filename =
      [ofText "plan\uFFFD.pdf"] ∧
    Raw.permitBadUploadReadBack.FileHashes ≠ [Raw.badUpload.entry] :=
  ⟨rfl, rfl, rfl, by decide⟩

/-- C8 (amended). Evidence is append-only: starting from a permit just created
by `CreatePermit`, any list of `LogFileHash` calls by members of the permit's
organization all succeed, and after the first `n` of them the permit's
`fileHashes` has length exactly `n` and is the list of the entries of those
calls in call order, each entry with the file name, digest, caller identifier
and timestamp of its call in which every byte that is not well-formed UTF-8 is
replaced by U+FFFD. Hence each call keeps the entries appended before it and
adds its own at the end, duplicates included, and when file names, digests and
caller identifiers are well-formed UTF-8 the entries carry them exactly. -/
theorem LogFileHash_append_only_well_formed (c : Raw.Codec) (hlaw : Raw.Lawful c)
    (ctx0 : Raw.Ctx) (L0 : Raw.Ledger) (permitId organization : GoString)
    (calls : List Raw.LogCall)
    (hcreate : (Raw.CreatePermit c ctx0 L0 permitId organization).1 = .ok ())
    (hauth : ∀ call ∈ calls, call.Authorized (coerceUTF8 organization)) :
    ∀ n, n ≤ calls.length →
      (Raw.runLogCalls c permitId (Raw.CreatePermit c ctx0 L0 permitId organization).2
          (calls.take n)).1 = List.replicate n (.ok ()) ∧
      ∃ permit,
        Raw.Stored c (Raw.runLogCalls c permitId
          (Raw.CreatePermit c ctx0 L0 permitId organization).2 (calls.take n)).2
          permitId permit ∧
        permit.FileHashes = (calls.take n).map (fun call => call.entry.coerced) ∧
        permit.FileHashes.length = n ∧
        ((∀ call ∈ calls, call.isText = true) →
          permit.FileHashes = (calls.take n).map Raw.LogCall.entry) := by
  intro n hn
  obtain ⟨clientID, -, hstored⟩ := raw_CreatePermit_ok hlaw hcreate
  have hlen : (calls.take n).length = n := by simp [hn]
  have hauthn : ∀ call ∈ calls.take n, call.Authorized
      (Raw.createdPermit ctx0 clientID permitId organization).coerced.Organization := by
    intro call hcall
    exact hauth call (List.mem_of_mem_take hcall)
  obtain ⟨hoks, permit, hst, hfh⟩ :=
    raw_runLogCalls_authorized hlaw (calls.take n) _ _ hstored (permit_coerced_idem _) hauthn
  rw [hlen] at hoks
  have hfh1 : permit.FileHashes = (calls.take n).map (fun call => call.entry.coerced) := by
    rw [hfh]
    simp [Raw.createdPermit, Raw.Permit.coerced]
  refine ⟨hoks, permit, hst, hfh1, ?_, ?_⟩
  · rw [hfh1]
    simp [hn]
  · intro htext
    rw [hfh1]
    apply List.map_congr_left
    intro call hcall
    exact entry_coerced_of_isText call (htext call (List.mem_of_mem_take hcall))

theorem raw_authorized_twoUploads :
    ∀ call ∈ Raw.twoUploads, call.Authorized (coerceUTF8 (ofText "OrgA")) := by
  intro call hcall
  simp only [Raw.twoUploads, List.mem_cons, List.mem_nil_iff, or_false] at hcall
  rcases hcall with rfl | rfl
  · exact ⟨⟨ofText "alice@OrgA", rfl, by decide⟩, rfl, rfl⟩
  · exact ⟨⟨ofText "carol@OrgA", rfl, by decide⟩, rfl, rfl⟩

theorem raw_isText_twoUploads : ∀ call ∈ Raw.twoUploads, call.isText = true := by
  intro call hcall
  simp only [Raw.twoUploads, List.mem_cons, List.mem_nil_iff, or_false] at hcall
  rcases hcall with rfl | rfl <;> rfl

/-- C8 (amended), instance: two uploads with well-formed arguments to the
freshly created `P-1`. -/
theorem LogFileHash_append_only_well_formed_witness :
    (Raw.runLogCalls Raw.goJSON (ofText "P-1")
        (Raw.CreatePermit Raw.goJSON Raw.aliceCtx Raw.emptyLedger (ofText "P-1")
          (ofText "OrgA")).2 (Raw.twoUploads.take 2)).1 = List.replicate 2 (.ok ()) ∧
    ∃ permit,
      Raw.Stored Raw.goJSON (Raw.runLogCalls Raw.goJSON (ofText "P-1")
        (Raw.CreatePermit Raw.goJSON Raw.aliceCtx Raw.emptyLedger (ofText "P-1")
          (ofText "OrgA")).2 (Raw.twoUploads.take 2)).2 (ofText "P-1") permit ∧
      permit.FileHashes = (Raw.twoUploads.take 2).map Raw.LogCall.entry ∧
      permit.FileHashes.length = 2 := by
  obtain ⟨hoks, permit, hst, -, hlen, htext⟩ :=
    LogFileHash_append_only_well_formed Raw.goJSON lawful_raw_goJSON Raw.aliceCtx
      Raw.emptyLedger (ofText "P-1") (ofText "OrgA") Raw.twoUploads rfl
      raw_authorized_twoUploads 2 (by decide)
  exact ⟨hoks, permit, hst, htext raw_isText_twoUploads, hlen⟩

/-! ### The chaincode package: the status through its operations -/

theorem sc_unmarshal_of_marshal {sc : SmartContract.Codec} (hrt : SmartContract.RoundTrip sc)
    {p : SmartContract.Permit} {b : String} (hm : sc.Marshal p = .ok b) :
    sc.Unmarshal b = .ok p := by
  obtain ⟨b2, hm2, hu⟩ := hrt p
  rw [hm] at hm2
  rw [Except.ok.inj hm2]
  exact hu

theorem sc_getPermit_eq_ok {sc : SmartContract.Codec} {tx : SmartContract.TxCtx} {L : Ledger}
    {id : String} {p : SmartContract.Permit} :
    SmartContract.GetPermit sc tx L id = .ok p ↔
      tx.stub.getStateErr = none ∧ SmartContract.Stored sc L id p := by
  unfold SmartContract.GetPermit GetState SmartContract.Stored
  cases hg : tx.stub.getStateErr with
  | some e => simp
  | none =>
    cases hL : L id with
    | none => simp
    | some v =>
      cases hu : sc.Unmarshal v with
      | error e => simp [hu]
      | ok q => simp [hu]

theorem sc_write_effect (sc : SmartContract.Codec) (tx : SmartContract.TxCtx) (L : Ledger)
    (id : String) (w : SmartContract.Permit → SmartContract.Permit)
    (op : Outcome Unit × Ledger)
    (hop : op =
      match SmartContract.GetPermit sc tx L id with
      | .error e => (.error e, L)
      | .ok permit =>
        match sc.Marshal (w permit) with
        | .error e => (.error e, L)
        | .ok permitJSON => PutState tx.stub L id permitJSON) :
    (op.1 ≠ .ok () ∧ op.2 = L) ∨
    ∃ p b, SmartContract.Stored sc L id p ∧ sc.Marshal (w p) = .ok b ∧
      op = (.ok (), L.put id b) := by
  cases hg : SmartContract.GetPermit sc tx L id with
  | error e => left; rw [hop, hg]; simp
  | ok p =>
    cases hm : sc.Marshal (w p) with
    | error e => left; rw [hop, hg]; simp [hm]
    | ok b =>
      cases hp : tx.stub.putStateErr with
      | some e => left; rw [hop, hg]; simp [hm, PutState, hp]
      | none =>
        right
        refine ⟨p, b, (sc_getPermit_eq_ok.1 hg).2, hm, ?_⟩
        rw [hop, hg]
        simp only [hm]
        exact putState_of_ok hp L id b

theorem sc_UpdatePermitStatus_effect (sc : SmartContract.Codec) (tx : SmartContract.TxCtx)
    (L : Ledger) (id status : String) :
    ((SmartContract.UpdatePermitStatus sc tx L id status).1 ≠ .ok () ∧
      (SmartContract.UpdatePermitStatus sc tx L id status).2 = L) ∨
    ∃ p b, SmartContract.Stored sc L id p ∧
      sc.Marshal (SmartContract.statusSet tx status p) = .ok b ∧
      SmartContract.UpdatePermitStatus sc tx L id status = (.ok (), L.put id b) := by
  apply sc_write_effect sc tx L id (SmartContract.statusSet tx status)
  unfold SmartContract.UpdatePermitStatus SmartContract.statusSet
  by_cases hs : status = "APPROVED" <;> simp only [hs, if_true, if_false]

theorem sc_AddDocument_effect (sc : SmartContract.Codec) (tx : SmartContract.TxCtx)
    (L : Ledger) (id documentHash : String) :
    ((SmartContract.AddDocument sc tx L id documentHash).1 ≠ .ok () ∧
      (SmartContract.AddDocument sc tx L id documentHash).2 = L) ∨
    ∃ p b, SmartContract.Stored sc L id p ∧
      sc.Marshal (SmartContract.documentAdded tx documentHash p) = .ok b ∧
      SmartContract.AddDocument sc tx L id documentHash = (.ok (), L.put id b) :=
  sc_write_effect sc tx L id (SmartContract.documentAdded tx documentHash) _ rfl

theorem sc_UpdateChecklist_effect (sc : SmartContract.Codec) (tx : SmartContract.TxCtx)
    (L : Ledger) (id : String) (checklist : SmartContract.Checklist) :
    ((SmartContract.UpdateChecklist sc tx L id checklist).1 ≠ .ok () ∧
      (SmartContract.UpdateChecklist sc tx L id checklist).2 = L) ∨
    ∃ p b, SmartContract.Stored sc L id p ∧
      sc.Marshal (SmartContract.checklistSet tx checklist p) = .ok b ∧
      SmartContract.UpdateChecklist sc tx L id checklist = (.ok (), L.put id b) :=
  sc_write_effect sc tx L id (SmartContract.checklistSet tx checklist) _ rfl

theorem sc_CreatePermit_effect (sc : SmartContract.Codec) (tx : SmartContract.TxCtx)
    (L : Ledger) (id applicantName projectAddress permitType : String) :
    ((SmartContract.CreatePermit sc tx L id applicantName projectAddress permitType).1 ≠
        .ok () ∧
      (SmartContract.CreatePermit sc tx L id applicantName projectAddress permitType).2 = L) ∨
    ∃ b, L id = none ∧
      sc.Marshal (SmartContract.created tx id applicantName projectAddress permitType) =
        .ok b ∧
      SmartContract.CreatePermit sc tx L id applicantName projectAddress permitType =
        (.ok (), L.put id b) := by
  cases hg : tx.stub.getStateErr with
  | some e =>
    left; simp [SmartContract.CreatePermit, SmartContract.PermitExists, GetState, hg]
  | none =>
    cases hL : L id with
    | some v =>
      left; simp [SmartContract.CreatePermit, SmartContract.PermitExists, GetState, hg, hL]
    | none =>
      cases hm : sc.Marshal
          (SmartContract.created tx id applicantName projectAddress permitType) with
      | error e =>
        left
        rw [SmartContract.created] at hm
        simp [SmartContract.CreatePermit, SmartContract.PermitExists, GetState, hg, hL, hm]
      | ok b =>
        cases hp : tx.stub.putStateErr with
        | some e =>
          left
          rw [SmartContract.created] at hm
          simp [SmartContract.CreatePermit, SmartContract.PermitExists, GetState, PutState, hg,
            hL, hm, hp]
        | none =>
          right
          refine ⟨b, rfl, rfl, ?_⟩
          rw [SmartContract.created] at hm
          simp [SmartContract.CreatePermit, SmartContract.PermitExists, GetState, hg, hL, hm,
            putState_of_ok hp]
          rfl

theorem sc_stored_put_same {sc : SmartContract.Codec} (hrt : SmartContract.RoundTrip sc)
    (L : Ledger) (id : String) {p : SmartContract.Permit} {b : String}
    (hm : sc.Marshal p = .ok b) : SmartContract.Stored sc (L.put id b) id p :=
  ⟨b, by simp [Ledger.put], sc_unmarshal_of_marshal hrt hm⟩

theorem sc_stored_put_other {sc : SmartContract.Codec} {L : Ledger} {id key : String}
    {p : SmartContract.Permit} (b : String) (hk : id ≠ key)
    (hst : SmartContract.Stored sc L id p) : SmartContract.Stored sc (L.put key b) id p := by
  obtain ⟨v, hL, hu⟩ := hst
  exact ⟨v, by rw [put_other L b hk]; exact hL, hu⟩

theorem sc_stored_unique {sc : SmartContract.Codec} {L : Ledger} {id : String}
    {p q : SmartContract.Permit} (hp : SmartContract.Stored sc L id p)
    (hq : SmartContract.Stored sc L id q) : p = q := by
  obtain ⟨v, hL, hu⟩ := hp
  obtain ⟨v2, hL2, hu2⟩ := hq
  rw [hL] at hL2
  rw [← Option.some.inj hL2, hu] at hu2
  exact Except.ok.inj hu2

theorem statusAfter_of_failed (id before : String) (call : SmartContract.Call)
    {outcome : Outcome Unit} (h : outcome ≠ .ok ()) :
    SmartContract.statusAfter id before call outcome = before := by
  unfold SmartContract.statusAfter
  split
  · exact absurd rfl h
  · rfl

theorem sc_step {sc : SmartContract.Codec} (hrt : SmartContract.RoundTrip sc) (L : Ledger)
    (id : String) {p : SmartContract.Permit} (hst : SmartContract.Stored sc L id p)
    (call : SmartContract.Call) :
    ∃ p1, SmartContract.Stored sc (call.apply sc L).2 id p1 ∧
      p1.Status = SmartContract.statusAfter id p.Status call (call.apply sc L).1 := by
  cases call with
  | createPermit tx key applicantName projectAddress permitType =>
    rcases sc_CreatePermit_effect sc tx L key applicantName projectAddress permitType with
      ⟨hne, hL⟩ | ⟨b, hnone, hm, h⟩
    · simp only [SmartContract.Call.apply, hL]
      exact ⟨p, hst, (statusAfter_of_failed id p.Status _ hne).symm⟩
    · have hk : id ≠ key := by
        intro hk
        obtain ⟨v, hv, -⟩ := hst
        rw [hk, hnone] at hv
        exact Option.noConfusion hv
      simp only [SmartContract.Call.apply, h]
      exact ⟨p, sc_stored_put_other b hk hst, rfl⟩
  | updatePermitStatus tx key status =>
    rcases sc_UpdatePermitStatus_effect sc tx L key status with
      ⟨hne, hL⟩ | ⟨q, b, hq, hm, h⟩
    · simp only [SmartContract.Call.apply, hL]
      exact ⟨p, hst, (statusAfter_of_failed id p.Status _ hne).symm⟩
    · simp only [SmartContract.Call.apply, h]
      by_cases hk : id = key
      · subst hk
        have hpq : q = p := sc_stored_unique hq hst
        subst hpq
        refine ⟨_, sc_stored_put_same hrt L id hm, ?_⟩
        simp [SmartContract.statusAfter, SmartContract.statusSet]
      · refine ⟨p, sc_stored_put_other b hk hst, ?_⟩
        have hk2 : ¬ key = id := fun h2 => hk h2.symm
        simp [SmartContract.statusAfter, hk2]
  | addDocument tx key documentHash =>
    rcases sc_AddDocument_effect sc tx L key documentHash with
      ⟨hne, hL⟩ | ⟨q, b, hq, hm, h⟩
    · simp only [SmartContract.Call.apply, hL]
      exact ⟨p, hst, (statusAfter_of_failed id p.Status _ hne).symm⟩
    · simp only [SmartContract.Call.apply, h]
      by_cases hk : id = key
      · subst hk
        have hpq : q = p := sc_stored_unique hq hst
        subst hpq
        exact ⟨_, sc_stored_put_same hrt L id hm, rfl⟩
      · exact ⟨p, sc_stored_put_other b hk hst, rfl⟩
  | updateChecklist tx key checklist =>
    rcases sc_UpdateChecklist_effect sc tx L key checklist with
      ⟨hne, hL⟩ | ⟨q, b, hq, hm, h⟩
    · simp only [SmartContract.Call.apply, hL]
      exact ⟨p, hst, (statusAfter_of_failed id p.Status _ hne).symm⟩
    · simp only [SmartContract.Call.apply, h]
      by_cases hk : id = key
      · subst hk
        have hpq : q = p := sc_stored_unique hq hst
        subst hpq
        exact ⟨_, sc_stored_put_same hrt L id hm, rfl⟩
      · exact ⟨p, sc_stored_put_other b hk hst, rfl⟩

theorem sc_failed_call_unchanged (sc : SmartContract.Codec) (L : Ledger)
    (call : SmartContract.Call) (hne : (call.apply sc L).1 ≠ .ok ()) :
    (call.apply sc L).2 = L := by
  cases call with
  | createPermit tx key applicantName projectAddress permitType =>
    rcases sc_CreatePermit_effect sc tx L key applicantName projectAddress permitType with
      ⟨-, hL⟩ | ⟨b, -, -, h⟩
    · exact hL
    · simp only [SmartContract.Call.apply, h] at hne
      exact absurd rfl hne
  | updatePermitStatus tx key status =>
    rcases sc_UpdatePermitStatus_effect sc tx L key status with ⟨-, hL⟩ | ⟨q, b, -, -, h⟩
    · exact hL
    · simp only [SmartContract.Call.apply, h] at hne
      exact absurd rfl hne
  | addDocument tx key documentHash =>
    rcases sc_AddDocument_effect sc tx L key documentHash with ⟨-, hL⟩ | ⟨q, b, -, -, h⟩
    · exact hL
    · simp only [SmartContract.Call.apply, h] at hne
      exact absurd rfl hne
  | updateChecklist tx key checklist =>
    rcases sc_UpdateChecklist_effect sc tx L key checklist with ⟨-, hL⟩ | ⟨q, b, -, -, h⟩
    · exact hL
    · simp only [SmartContract.Call.apply, h] at hne
      exact absurd rfl hne

theorem sc_runCalls {sc : SmartContract.Codec} (hrt : SmartContract.RoundTrip sc)
    (id : String) (calls : List SmartContract.Call) :
    ∀ (L : Ledger) (p : SmartContract.Permit), SmartContract.Stored sc L id p →
      ∃ p1, SmartContract.Stored sc (SmartContract.runCalls sc id L p.Status calls).1 id p1 ∧
        p1.Status = (SmartContract.runCalls sc id L p.Status calls).2 := by
  induction calls with
  | nil => intro L p hst; exact ⟨p, hst, rfl⟩
  | cons call calls ih =>
    intro L p hst
    obtain ⟨p1, hst1, hs1⟩ := sc_step hrt L id hst call
    obtain ⟨p2, hst2, hs2⟩ := ih _ p1 hst1
    rw [hs1] at hst2 hs2
    exact ⟨p2, hst2, hs2⟩

/-- C19 (amended). The chaincode package validates no status change. For every
stored permit and every status string, `UpdatePermitStatus` succeeds when the
store accepts the write, and the stored permit then has exactly the given
status, whatever the status before. A permit created by `CreatePermit` starts
`SUBMITTED`; through any sequence of `CreatePermit`, `UpdatePermitStatus`,
`AddDocument` and `UpdateChecklist` calls (failed ones included) a stored permit
stays stored and its status is the one supplied by the last successful
`UpdatePermitStatus` on it, or the status it started with when there was none;
a call that fails leaves the ledger as it was. -/
theorem smartContract_status_unvalidated (sc : SmartContract.Codec)
    (hrt : SmartContract.RoundTrip sc) (id : String) :
    (∀ (tx tx2 : SmartContract.TxCtx) (L : Ledger) (status : String)
        (permit : SmartContract.Permit),
      SmartContract.GetPermit sc tx L id = .ok permit → tx.stub.putStateErr = none →
      tx2.stub.getStateErr = none →
      (SmartContract.UpdatePermitStatus sc tx L id status).1 = .ok () ∧
      SmartContract.GetPermit sc tx2 (SmartContract.UpdatePermitStatus sc tx L id status).2
          id = .ok (SmartContract.statusSet tx status permit) ∧
      (SmartContract.statusSet tx status permit).Status = status) ∧
    (∀ (tx0 tx2 : SmartContract.TxCtx) (L0 : Ledger)
        (applicantName projectAddress permitType : String)
        (calls : List SmartContract.Call),
      GetState tx0.stub L0 id = .ok none → tx0.stub.putStateErr = none →
      tx2.stub.getStateErr = none →
      (SmartContract.CreatePermit sc tx0 L0 id applicantName projectAddress permitType).1 =
        .ok () ∧
      SmartContract.GetPermit sc tx2
          (SmartContract.CreatePermit sc tx0 L0 id applicantName projectAddress permitType).2
          id =
        .ok (SmartContract.created tx0 id applicantName projectAddress permitType) ∧
      (SmartContract.created tx0 id applicantName projectAddress permitType).Status =
        "SUBMITTED" ∧
      ∃ permit1,
        SmartContract.GetPermit sc tx2
            (SmartContract.runCalls sc id
              (SmartContract.CreatePermit sc tx0 L0 id applicantName projectAddress
                permitType).2 "SUBMITTED" calls).1 id = .ok permit1 ∧
        permit1.Status =
          (SmartContract.runCalls sc id
            (SmartContract.CreatePermit sc tx0 L0 id applicantName projectAddress
              permitType).2 "SUBMITTED" calls).2) ∧
    (∀ (L : Ledger) (permit : SmartContract.Permit) (calls : List SmartContract.Call),
      SmartContract.Stored sc L id permit →
      ∃ permit1,
        SmartContract.Stored sc (SmartContract.runCalls sc id L permit.Status calls).1 id
          permit1 ∧
        permit1.Status = (SmartContract.runCalls sc id L permit.Status calls).2) ∧
    (∀ (L : Ledger) (call : SmartContract.Call),
      (call.apply sc L).1 ≠ .ok () → (call.apply sc L).2 = L) := by
  refine ⟨?_, ?_, ?_, ?_⟩
  · intro tx tx2 L status permit hstored hput hget2
    have hst := (sc_getPermit_eq_ok.1 hstored).2
    rcases sc_UpdatePermitStatus_effect sc tx L id status with ⟨hne, -⟩ | ⟨q, b, hq, hm, h⟩
    · exfalso
      apply hne
      obtain ⟨b, hm, -⟩ := hrt (SmartContract.statusSet tx status permit)
      have hm1 := hm
      rw [SmartContract.statusSet] at hm1
      unfold SmartContract.UpdatePermitStatus
      rw [hstored]
      by_cases hs : status = "APPROVED"
      · simp only [hs, if_true] at hm1 ⊢
        rw [hm1]
        exact congrArg Prod.fst (putState_of_ok hput L id b)
      · simp only [hs, if_false] at hm1 ⊢
        rw [hm1]
        exact congrArg Prod.fst (putState_of_ok hput L id b)
    · have hpq : q = permit := sc_stored_unique hq hst
      subst hpq
      rw [h]
      exact ⟨rfl, sc_getPermit_eq_ok.2 ⟨hget2, sc_stored_put_same hrt L id hm⟩, rfl⟩
  · intro tx0 tx2 L0 applicantName projectAddress permitType calls habsent hput0 hget2
    obtain ⟨b0, hm0, -⟩ :=
      hrt (SmartContract.created tx0 id applicantName projectAddress permitType)
    have hres0 : SmartContract.CreatePermit sc tx0 L0 id applicantName projectAddress
        permitType = (.ok (), L0.put id b0) := by
      have hm1 := hm0
      rw [SmartContract.created] at hm1
      simp [SmartContract.CreatePermit, SmartContract.PermitExists, habsent, hm1,
        putState_of_ok hput0]
      rfl
    have hst0 := sc_stored_put_same hrt L0 id hm0
    rw [hres0]
    refine ⟨rfl, sc_getPermit_eq_ok.2 ⟨hget2, hst0⟩, rfl, ?_⟩
    obtain ⟨p1, hst1, hs1⟩ := sc_runCalls hrt id calls _ _ hst0
    exact ⟨p1, sc_getPermit_eq_ok.2 ⟨hget2, hst1⟩, hs1⟩
  · intro L permit calls hst
    exact sc_runCalls hrt id calls L permit hst
  · intro L call hne
    exact sc_failed_call_unchanged sc L call hne

set_option maxRecDepth 100000 in
/-- C19 (amended), instance: `P-1` is created, set to `BOGUS`, gets a document,
is set to `APPROVED` and gets a new checklist, with a failed update of the
missing `P-404` and a refused second creation in between; it ends `APPROVED`,
the status of the last successful `UpdatePermitStatus`. -/
theorem smartContract_status_unvalidated_witness :
    (SmartContract.UpdatePermitStatus SmartContract.goJSON txTwo
        (SmartContract.CreatePermit SmartContract.goJSON txOne emptyLedger "P-1" "Ann"
          "1 Main St" "BDA").2 "P-1" "BOGUS").1 = .ok () ∧
    (SmartContract.runCalls SmartContract.goJSON "P-1"
        (SmartContract.CreatePermit SmartContract.goJSON txOne emptyLedger "P-1" "Ann"
          "1 Main St" "BDA").2 "SUBMITTED" chaincodeCalls).2 = "APPROVED" ∧
    ∃ permit1,
      SmartContract.GetPermit SmartContract.goJSON txTwo
          (SmartContract.runCalls SmartContract.goJSON "P-1"
            (SmartContract.CreatePermit SmartContract.goJSON txOne emptyLedger "P-1" "Ann"
              "1 Main St" "BDA").2 "SUBMITTED" chaincodeCalls).1 "P-1" = .ok permit1 ∧
      permit1.Status =
        (SmartContract.runCalls SmartContract.goJSON "P-1"
          (SmartContract.CreatePermit SmartContract.goJSON txOne emptyLedger "P-1" "Ann"
            "1 Main St" "BDA").2 "SUBMITTED" chaincodeCalls).2 :=
  have h := smartContract_status_unvalidated SmartContract.goJSON
    smartContract_roundTrip_goJSON "P-1"
  ⟨(h.1 txTwo txOne
      (SmartContract.CreatePermit SmartContract.goJSON txOne emptyLedger "P-1" "Ann"
        "1 Main St" "BDA").2 "BOGUS"
      (SmartContract.created txOne "P-1" "Ann" "1 Main St" "BDA") rfl rfl rfl).1,
    rfl,
    (h.2.1 txOne txTwo emptyLedger "Ann" "1 Main St" "BDA" chaincodeCalls rfl rfl rfl).2.2.2⟩

end PermitContract
